import Mathlib

/-!
# go-retrace: mapping reader, frame remapper, frame pattern and orchestrator

A shallow embedding of `retrace/mapping_reader.go`,
`retrace/mapping_processor.go`, `retrace/frame_pattern.go` and
`retrace/retrace.go`.

* Go strings are lists of characters: the model speaks of the strings that are
  UTF-8 text. Every index the reader, the remapper and `NewFramePattern`
  compute comes from a search for an ASCII delimiter (plus a small constant), so
  an offset counted in characters names the same position as the byte offset of
  the source. Where the source counts or compares bytes, the model does so too:
  the limit of the scanner on the length of a line (`byteLength`), the one byte
  that `NewFramePattern` takes as expression type, the offsets of the regular
  expression engine in `Parse` and `Format` (`byteSlice`), and
  `FirstNonCommonIndex` and `Trim`, which work on the bytes (`utf8`).
* A Go runtime failure (a slice expression out of range) is the value `none`.
  A string that is no UTF-8 text has no value either: `none` is also the value
  of `byteSlice` for an offset inside a character and of `handleStep` when
  `Trim` has cut a line inside a character.
* Go `int` values are integers; the one place where the source does arithmetic
  on line numbers uses the wrapping operations `intAdd` and `intSub`.
* A Go map with string keys is a function to `Option`.
-/

namespace Retrace

/-- Go string. -/
abbrev Str := List Char

/-! ## The Go library functions the source calls -/

/-- Go `unicode.IsSpace`. -/
def isSpace (c : Char) : Bool :=
  let n := c.toNat
  (0x09 ≤ n && n ≤ 0x0d) || n == 0x20 || n == 0x85 || n == 0xa0 || n == 0x1680 ||
    (0x2000 ≤ n && n ≤ 0x200a) || n == 0x2028 || n == 0x2029 || n == 0x202f ||
    n == 0x205f || n == 0x3000

/-- Go `strings.TrimSpace`: leading and trailing white space removed. -/
def TrimSpace (s : Str) : Str :=
  (s.dropWhile isSpace).rdropWhile isSpace

/-- Go `strings.Index`: position of the first instance of `substr` in `s`, or -1. -/
def Index (s substr : Str) : Int :=
  match s with
  | [] => if substr = [] then 0 else -1
  | c :: cs =>
    if substr.isPrefixOf (c :: cs) then 0
    else
      let r := Index cs substr
      if r < 0 then -1 else r + 1

/-- Go `strings.LastIndex`: position of the last instance of `substr` in `s`, or -1. -/
def LastIndex (s substr : Str) : Int :=
  match s with
  | [] => if substr = [] then 0 else -1
  | c :: cs =>
    let r := LastIndex cs substr
    if 0 ≤ r then r + 1
    else if substr.isPrefixOf (c :: cs) then 0 else -1

/-- Go `strings.HasPrefix`. -/
def HasPrefix (s p : Str) : Bool := p.isPrefixOf s

/-- Go `strings.HasSuffix`. -/
def HasSuffix (s p : Str) : Bool := p.isSuffixOf s

/-- Scan of `strings.Split` for a non-empty separator: `skip` counts the
characters of a separator still to be passed over, `cur` is the current piece,
reversed. -/
def splitAux (sep : Str) : Str → Nat → Str → List Str
  | [], _, cur => [cur.reverse]
  | _ :: cs, skip + 1, cur => splitAux sep cs skip cur
  | c :: cs, 0, cur =>
    if sep.isPrefixOf (c :: cs) then cur.reverse :: splitAux sep cs (sep.length - 1) []
    else splitAux sep cs 0 (c :: cur)

/-- Go `strings.Split`; with the empty separator the string is split into its
characters. -/
def Split (s sep : Str) : List Str :=
  if sep = [] then s.map (fun c => [c]) else splitAux sep s 0 []

/-- Go `strings.Join`. -/
def Join (elems : List Str) (sep : Str) : Str := List.intercalate sep elems

/-- Go slice expression `s[lo:hi]`. -/
def slice (s : Str) (lo hi : Int) : Option Str :=
  if 0 ≤ lo ∧ lo ≤ hi ∧ hi ≤ s.length then
    some ((s.drop lo.toNat).take (hi.toNat - lo.toNat))
  else none

/-- Go slice expression `s[lo:]`. -/
def sliceFrom (s : Str) (lo : Int) : Option Str := slice s lo s.length

/-- Go slice expression `s[:hi]`. -/
def sliceTo (s : Str) (hi : Int) : Option Str := slice s 0 hi

/-- Number of bytes of a Go string: the length of its UTF-8 encoding. -/
def byteLength (s : Str) : Nat := (s.map Char.utf8Size).sum

/-- Go `error` values that the reader returns. -/
inductive GoError where
  /-- `errors.New("spaceIndex < 0 or arrowIndex < 0")` -/
  | missingSpaceOrArrow
  /-- `strconv.ErrSyntax` -/
  | invalidNumber
  /-- `strconv.ErrRange` -/
  | numberOutOfRange
  deriving DecidableEq, Repr

/-- Smallest Go `int` (64 bit). -/
def minInt : Int := -9223372036854775808

/-- Largest Go `int` (64 bit). -/
def maxInt : Int := 9223372036854775807

/-- Two's complement wrap of an integer into the range of Go `int`. -/
def wrapInt (x : Int) : Int := (x + 9223372036854775808) % 18446744073709551616 - 9223372036854775808

/-- Go `a + b` on `int`. -/
def intAdd (a b : Int) : Int := wrapInt (a + b)

/-- Go `a - b` on `int`. -/
def intSub (a b : Int) : Int := wrapInt (a - b)

/-- Value of a string of decimal digits. -/
def digitsValue (ds : Str) : Nat :=
  ds.foldl (fun n c => 10 * n + (c.toNat - 48)) 0

/-- Go `strconv.Atoi`: an optional sign followed by one or more decimal digits.
The value returned next to a syntax error is 0, next to a range error it is the
nearest `int`. -/
def Atoi (s : Str) : Int × Option GoError :=
  let neg : Bool := s.head? = some '-'
  let ds : Str := if s.head? = some '-' ∨ s.head? = some '+' then s.tail else s
  if ds = [] ∨ ds.all Char.isDigit = false then (0, some GoError.invalidNumber)
  else
    let n : Int := digitsValue ds
    if neg then
      if -n < minInt then (minInt, some GoError.numberOutOfRange) else (-n, none)
    else
      if maxInt < n then (maxInt, some GoError.numberOutOfRange) else (n, none)

/-- `IndexOf` of `mapping_reader.go`. -/
def IndexOf (s subStr : Str) (position : Int) : Option Int := do
  let t ← sliceFrom s position
  let index := Index t subStr
  if index < 0 then pure index else pure (position + index)

/-! ## Data model (`frame_info.go`, `mapping_processor.go`) -/

/-- `FrameInfo` of `frame_info.go`; the field `Type` is written `Type_`. -/
structure FrameInfo where
  ClassName : Str
  SourceFile : Str
  LineNumber : Int
  Type_ : Str
  FieldName : Str
  MethodName : Str
  Arguments : Str
  deriving DecidableEq, Repr

structure FieldInfo where
  OriginalClassName : Str
  OriginalType : Str
  OriginalName : Str
  deriving DecidableEq, Repr

/-- `FieldInfo.Matches`. -/
def FieldInfo.Matches (info : FieldInfo) (originalType : Str) : Bool :=
  originalType == [] || originalType == info.OriginalType

structure MethodInfo where
  ObfuscatedFirstLineNumber : Int
  ObfuscatedLastLineNumber : Int
  OriginalClassName : Str
  OriginalFirstLineNumber : Int
  OriginalLastLineNumber : Int
  OriginalType : Str
  OriginalName : Str
  OriginalArguments : Str
  deriving DecidableEq, Repr

/-- `MethodInfo.Matches`. -/
def MethodInfo.Matches (info : MethodInfo) (obfuscatedLineNumber : Int)
    (originalType originalArguments : Str) : Bool :=
  (obfuscatedLineNumber == 0 ||
    info.ObfuscatedLastLineNumber == 0 ||
    (decide (info.ObfuscatedFirstLineNumber ≤ obfuscatedLineNumber) &&
      decide (obfuscatedLineNumber ≤ info.ObfuscatedLastLineNumber))) &&
  (originalType == [] || originalType == info.OriginalType) &&
  (originalArguments == [] || originalArguments == info.OriginalArguments)

/-- Go `map[string]V`. -/
abbrev GoMap (V : Type) := Str → Option V

/-- The map made by `make`. -/
def GoMap.empty {V : Type} : GoMap V := fun _ => none

/-- The assignment `m[k] = v`. -/
def GoMap.set {V : Type} (m : GoMap V) (k : Str) (v : V) : GoMap V :=
  fun q => if q = k then some v else m q

/-- `Add` of `hashset.Set` and of `linkedhashset.Set`: an item already in the
set is not added again; the list keeps the items in the order in which they
were added, which is the order `linkedhashset.Set.Values` returns. -/
def setAdd {α : Type} [DecidableEq α] (items : List α) (item : α) : List α :=
  if item ∈ items then items else items ++ [item]

/-- The order in which `hashset.Set.Values` lists the items of a set. It is the
iteration order of a Go map, which the language leaves open: any permutation of
the items. -/
structure ValuesOrder where
  Values : List FieldInfo → List FieldInfo
  perm : ∀ items, List.Perm (Values items) items

/-- The order of insertion, one possible `ValuesOrder`. -/
def insertionOrder : ValuesOrder := ⟨fun items => items, fun _ => List.Perm.refl _⟩

/-- `ObfuscatedNameFieldInfoSetMap`. -/
abbrev ObfuscatedNameFieldInfoSetMap := GoMap (List FieldInfo)

/-- `ObfuscatedNameMethodInfoSetMap`. -/
abbrev ObfuscatedNameMethodInfoSetMap := GoMap (List MethodInfo)

structure FrameRemapper where
  /-- Obfuscated class name -> original class name. -/
  ClassMap : GoMap Str
  /-- Original class name -> obfuscated member name -> member info set. -/
  ClassFieldMap : GoMap ObfuscatedNameFieldInfoSetMap
  ClassMethodMap : GoMap ObfuscatedNameMethodInfoSetMap

/-- `NewFrameRemapper`. -/
def NewFrameRemapper : FrameRemapper :=
  ⟨GoMap.empty, GoMap.empty, GoMap.empty⟩

namespace FrameRemapper

/-- `FrameRemapper.ProcessClassMapping`. -/
def ProcessClassMapping (remapper : FrameRemapper) (className newClassName : Str) :
    FrameRemapper × Bool :=
  ({ remapper with ClassMap := remapper.ClassMap.set newClassName className }, true)

/-- `FrameRemapper.ProcessFieldMapping`. -/
def ProcessFieldMapping (remapper : FrameRemapper)
    (className fieldType fieldName newClassName newFieldName : Str) : FrameRemapper :=
  let fieldMap : ObfuscatedNameFieldInfoSetMap :=
    match remapper.ClassFieldMap newClassName with
    | some fieldMap => fieldMap
    | none => GoMap.empty
  let fieldInfoSet : List FieldInfo :=
    match fieldMap newFieldName with
    | some fieldInfoSet => fieldInfoSet
    | none => []
  { remapper with
    ClassFieldMap := remapper.ClassFieldMap.set newClassName
      (fieldMap.set newFieldName (setAdd fieldInfoSet ⟨className, fieldType, fieldName⟩)) }

/-- `FrameRemapper.ProcessMethodMapping`. -/
def ProcessMethodMapping (remapper : FrameRemapper)
    (className : Str) (firstLineNumber lastLineNumber : Int)
    (methodType methodName arguments newClassName : Str)
    (newFirstLineNumber newLastLineNumber : Int) (newMethodName : Str) : FrameRemapper :=
  let methodMap : ObfuscatedNameMethodInfoSetMap :=
    match remapper.ClassMethodMap newClassName with
    | some methodMap => methodMap
    | none => GoMap.empty
  let methodInfoSet : List MethodInfo :=
    match methodMap newMethodName with
    | some methodInfoSet => methodInfoSet
    | none => []
  { remapper with
    ClassMethodMap := remapper.ClassMethodMap.set newClassName
      (methodMap.set newMethodName (setAdd methodInfoSet
        ⟨newFirstLineNumber, newLastLineNumber, className, firstLineNumber, lastLineNumber,
          methodType, methodName, arguments⟩)) }

/-- `FrameRemapper.GetOriginalClassName`. -/
def GetOriginalClassName (remapper : FrameRemapper) (obfuscatedClassName : Str) : Str :=
  match remapper.ClassMap obfuscatedClassName with
  | none => obfuscatedClassName
  | some originalClassName => originalClassName

/-- `FrameRemapper.getSourceFileName`. -/
def getSourceFileName (className : Str) : Option Str :=
  if className.length = 0 then pure className
  else do
    let index1 := LastIndex className ['.'] + 1
    let index2 ← IndexOf className ['$'] index1
    if index2 > 0 then slice className index1 index2
    else do
      let rest ← sliceFrom className index1
      pure (rest ++ ".java".toList)

/-- `FrameRemapper.getOriginalType`. -/
def getOriginalType (remapper : FrameRemapper) (obfuscatedType : Str) : Option Str :=
  let index := Index obfuscatedType ['[']
  if index ≥ 0 then do
    let base ← slice obfuscatedType 0 index
    let suffix ← sliceFrom obfuscatedType index
    pure (remapper.GetOriginalClassName base ++ suffix)
  else pure (remapper.GetOriginalClassName obfuscatedType)

/-- `FrameRemapper.getOriginalArguments`. -/
def getOriginalArguments (remapper : FrameRemapper) (obfuscatedArguments : Str) : Option Str :=
  let tokens := Split obfuscatedArguments [',']
  if tokens.length < 1 then pure []
  else do
    let originalArguments ← tokens.mapM (fun token => remapper.getOriginalType (TrimSpace token))
    pure (Join originalArguments [','])

/-- Body of the loop of `transformFieldInfo` for one item of the set. -/
def fieldStep (obfuscatedFrame : FrameInfo) (originalType : Str)
    (originalFieldFrames : List FrameInfo) (fieldInfo : FieldInfo) : Option (List FrameInfo) :=
  if !fieldInfo.Matches originalType then pure originalFieldFrames
  else do
    let sourceFile ← getSourceFileName fieldInfo.OriginalClassName
    pure (originalFieldFrames ++
      [⟨fieldInfo.OriginalClassName, sourceFile, obfuscatedFrame.LineNumber,
        fieldInfo.OriginalType, fieldInfo.OriginalName, obfuscatedFrame.MethodName,
        obfuscatedFrame.Arguments⟩])

/-- `FrameRemapper.transformFieldInfo`. -/
def transformFieldInfo (order : ValuesOrder) (remapper : FrameRemapper)
    (obfuscatedFrame : FrameInfo) (originalClassName : Str)
    (originalFieldFrames : List FrameInfo) : Option (List FrameInfo) :=
  match remapper.ClassFieldMap originalClassName with
  | none => pure originalFieldFrames
  | some fieldMap =>
    match fieldMap obfuscatedFrame.FieldName with
    | none => pure originalFieldFrames
    | some fieldSet => do
      let originalType ← remapper.getOriginalType obfuscatedFrame.Type_
      (order.Values fieldSet).foldlM (fieldStep obfuscatedFrame originalType) originalFieldFrames

/-- Line number of the frame emitted for a matching method
(`transformMethodInfo`, the assignment to `lineNumber`). -/
def methodLineNumber (methodInfo : MethodInfo) (lineNumber : Int) : Int :=
  if methodInfo.OriginalFirstLineNumber ≠ methodInfo.ObfuscatedFirstLineNumber then
    if methodInfo.OriginalLastLineNumber ≠ 0 ∧
        methodInfo.OriginalLastLineNumber ≠ methodInfo.OriginalFirstLineNumber ∧
        methodInfo.ObfuscatedFirstLineNumber ≠ 0 ∧
        lineNumber ≠ 0 then
      intAdd (intSub methodInfo.OriginalFirstLineNumber methodInfo.ObfuscatedFirstLineNumber)
        lineNumber
    else methodInfo.OriginalFirstLineNumber
  else lineNumber

/-- Body of the loop of `transformMethodInfo` for one item of the set. -/
def methodStep (obfuscatedFrame : FrameInfo) (originalType originalArguments : Str)
    (originalMethodFrames : List FrameInfo) (methodInfo : MethodInfo) :
    Option (List FrameInfo) :=
  if !methodInfo.Matches obfuscatedFrame.LineNumber originalType originalArguments then
    pure originalMethodFrames
  else do
    let lineNumber := methodLineNumber methodInfo obfuscatedFrame.LineNumber
    let sourceFile ← getSourceFileName methodInfo.OriginalClassName
    pure (originalMethodFrames ++
      [⟨methodInfo.OriginalClassName, sourceFile, lineNumber, methodInfo.OriginalType,
        obfuscatedFrame.FieldName, methodInfo.OriginalName, methodInfo.OriginalArguments⟩])

/-- `FrameRemapper.transformMethodInfo`. -/
def transformMethodInfo (remapper : FrameRemapper)
    (obfuscatedFrame : FrameInfo) (originalClassName : Str)
    (originalMethodFrames : List FrameInfo) : Option (List FrameInfo) :=
  match remapper.ClassMethodMap originalClassName with
  | none => pure originalMethodFrames
  | some methodMap =>
    match methodMap obfuscatedFrame.MethodName with
    | none => pure originalMethodFrames
    | some methodSet => do
      let originalType ← remapper.getOriginalType obfuscatedFrame.Type_
      let originalArguments ← remapper.getOriginalArguments obfuscatedFrame.Arguments
      methodSet.foldlM (methodStep obfuscatedFrame originalType originalArguments)
        originalMethodFrames

/-- `FrameRemapper.Transform`. -/
def Transform (order : ValuesOrder) (remapper : FrameRemapper) (obfuscatedFrame : FrameInfo) :
    Option (List FrameInfo) := do
  let originalClassName := remapper.GetOriginalClassName obfuscatedFrame.ClassName
  let originalFrames ←
    remapper.transformFieldInfo order obfuscatedFrame originalClassName []
  let originalFrames ←
    remapper.transformMethodInfo obfuscatedFrame originalClassName originalFrames
  if originalFrames.length = 0 then do
    let sourceFile ←
      (if obfuscatedFrame.SourceFile.length = 0 ∧
          obfuscatedFrame.SourceFile ≠ "Unknown Source".toList ∧
          obfuscatedFrame.SourceFile ≠ "Native Method".toList then
        getSourceFileName originalClassName
      else some obfuscatedFrame.SourceFile : Option Str)
    pure (originalFrames ++
      [⟨originalClassName, sourceFile, obfuscatedFrame.LineNumber, obfuscatedFrame.Type_,
        obfuscatedFrame.FieldName, obfuscatedFrame.MethodName, obfuscatedFrame.Arguments⟩])
  else pure originalFrames

end FrameRemapper

/-! ## The mapping reader (`mapping_reader.go`) -/

/-- The interface `MappingProcessor`: a processor with state `σ`; each method
returns the state after the call. -/
structure MappingProcessor (σ : Type) where
  ProcessClassMapping : σ → (className newClassName : Str) → σ × Bool
  ProcessFieldMapping : σ → (className fieldType fieldName newClassName newFieldName : Str) → σ
  ProcessMethodMapping : σ → (className : Str) → (firstLineNumber lastLineNumber : Int) →
    (methodType methodName arguments newClassName : Str) →
    (newFirstLineNumber newLastLineNumber : Int) → (newMethodName : Str) → σ

/-- `FrameRemapper` as a `MappingProcessor`. -/
def FrameRemapper.processor : MappingProcessor FrameRemapper :=
  ⟨FrameRemapper.ProcessClassMapping, FrameRemapper.ProcessFieldMapping,
    FrameRemapper.ProcessMethodMapping⟩

/-- A call received by a `MappingProcessor`, with its arguments in the order of
the interface. -/
inductive Call where
  | classMapping (className newClassName : Str)
  | fieldMapping (className fieldType fieldName newClassName newFieldName : Str)
  | methodMapping (className : Str) (firstLineNumber lastLineNumber : Int)
      (methodType methodName arguments newClassName : Str)
      (newFirstLineNumber newLastLineNumber : Int) (newMethodName : Str)
  deriving DecidableEq, Repr

/-- The processor that records the calls it receives, in order, and is
interested in the members of every class (as `MockMappingProcessor` of
`mapping_reader_test.go` and `FrameRemapper` are). -/
def recorder : MappingProcessor (List Call) where
  ProcessClassMapping calls className newClassName :=
    (calls ++ [Call.classMapping className newClassName], true)
  ProcessFieldMapping calls className fieldType fieldName newClassName newFieldName :=
    calls ++ [Call.fieldMapping className fieldType fieldName newClassName newFieldName]
  ProcessMethodMapping calls className firstLineNumber lastLineNumber methodType methodName
      arguments newClassName newFirstLineNumber newLastLineNumber newMethodName :=
    calls ++ [Call.methodMapping className firstLineNumber lastLineNumber methodType methodName
      arguments newClassName newFirstLineNumber newLastLineNumber newMethodName]

namespace MappingReader

variable {σ : Type}

/-- `MappingReader.ProcessClassMapping`: the state of the processor after the
call and the returned class name. -/
def ProcessClassMapping (processor : MappingProcessor σ) (st : σ) (line : Str) :
    Option (σ × Str) := do
  let arrowIndex ← IndexOf line ['-', '>'] 0
  if arrowIndex < 0 then pure (st, [])
  else do
    let colonIndex ← IndexOf line [':'] (arrowIndex + 2)
    if colonIndex < 0 then pure (st, [])
    else do
      let className := TrimSpace (← slice line 0 arrowIndex)
      let newClassName := TrimSpace (← slice line (arrowIndex + 2) colonIndex)
      let (st, interested) := processor.ProcessClassMapping st className newClassName
      if interested then pure (st, className) else pure (st, [])

/-- Line numbers read from the prefix `first:last:` of a method line
(`ProcessClassMemberMapping`, the block under `if colonIndex2 >= 0`): the
values of `firstLineNumber` and `lastLineNumber` after it, which are also those
of `newFirstLineNumber` and `newLastLineNumber`, or the error returned. The
error of the second `Atoi` is not tested by the source. -/
def leadingLineNumbers (line : Str) (colonIndex1 colonIndex2 : Int) :
    Option (Except GoError (Int × Int)) :=
  if colonIndex2 ≥ 0 then do
    let (firstLineNumber, err) := Atoi (TrimSpace (← sliceTo line colonIndex1))
    match err with
    | some e => pure (Except.error e)
    | none => do
      let (lastLineNumber, _) := Atoi (TrimSpace (← slice line (colonIndex1 + 1) colonIndex2))
      pure (Except.ok (firstLineNumber, lastLineNumber))
  else pure (Except.ok (0, 0))

/-- Line numbers read from the suffix `:first` or `:first:last` of a method
line (`ProcessClassMemberMapping`, the block under `if colonIndex3 >= 0`): the
values of `firstLineNumber` and `lastLineNumber` after it, or the error
returned. -/
def trailingLineNumbers (line : Str) (colonIndex3 colonIndex4 arrowIndex : Int)
    (firstLineNumber lastLineNumber : Int) : Option (Except GoError (Int × Int)) :=
  if colonIndex3 ≥ 0 then do
    let firstLineNumberLastIndex := if colonIndex4 > 0 then colonIndex4 else arrowIndex
    let (firstLineNumber, err) :=
      Atoi (TrimSpace (← slice line (colonIndex3 + 1) firstLineNumberLastIndex))
    match err with
    | some e => pure (Except.error e)
    | none =>
      if colonIndex4 < 0 then pure (Except.ok (firstLineNumber, firstLineNumber))
      else do
        let (lastLineNumber, err) := Atoi (TrimSpace (← slice line (colonIndex4 + 1) arrowIndex))
        match err with
        | some e => pure (Except.error e)
        | none => pure (Except.ok (firstLineNumber, lastLineNumber))
  else pure (Except.ok (firstLineNumber, lastLineNumber))

/-- The guarded assignment of `ProcessClassMemberMapping`,
`if index >= 0 { variable = index }`: the value of the variable after the
statement, `current` being its value before. -/
def assignIfFound (index current : Int) : Int :=
  if index ≥ 0 then index else current

/-- The guarded search of `ProcessClassMemberMapping`,
`if previous >= 0 { index = IndexOf(line, subStr, previous+1) }`, for an index
variable that was set to -1: the value of the variable after the statement. -/
def IndexOfAfter (line subStr : Str) (previous : Int) : Option Int :=
  if previous ≥ 0 then IndexOf line subStr (previous + 1) else some (-1)

/-- The block `// Process this class member mapping` of
`ProcessClassMemberMapping` (from `if len(classMemberType) > 0 ...` to the
final `return nil`), with the values that the variables of the function hold
when the block is entered. -/
def processMember (processor : MappingProcessor σ) (st : σ) (line : Str)
    (colonIndex1 colonIndex2 colonIndex3 colonIndex4 argumentIndex1 argumentIndex2
      arrowIndex : Int)
    (className classMemberType classMemberName newClassName newClassMemberName : Str) :
    Option (σ × Option GoError) :=
  if classMemberType.length > 0 ∧ classMemberName.length > 0 ∧
      newClassMemberName.length > 0 then
    -- Is it a field or a method
    if argumentIndex2 < 0 then
      pure (processor.ProcessFieldMapping st className classMemberType classMemberName
        newClassName newClassMemberName, none)
    else do
      match ← leadingLineNumbers line colonIndex1 colonIndex2 with
      | Except.error e => pure (st, some e)
      | Except.ok (newFirstLineNumber, newLastLineNumber) =>
        match ← trailingLineNumbers line colonIndex3 colonIndex4 arrowIndex
            newFirstLineNumber newLastLineNumber with
        | Except.error e => pure (st, some e)
        | Except.ok (firstLineNumber, lastLineNumber) => do
          let arguments := TrimSpace (← slice line (argumentIndex1 + 1) argumentIndex2)
          pure (processor.ProcessMethodMapping st className firstLineNumber lastLineNumber
            classMemberType classMemberName arguments newClassName newFirstLineNumber
            newLastLineNumber newClassMemberName, none)
  else pure (st, none)

/-- `MappingReader.ProcessClassMemberMapping`: the state of the processor
after the call and the returned error (`none` for `nil`). -/
def ProcessClassMemberMapping (processor : MappingProcessor σ) (st : σ)
    (className line : Str) : Option (σ × Option GoError) := do
  let colonIndex1 ← IndexOf line [':'] 0
  let colonIndex2 ← IndexOfAfter line [':'] colonIndex1
  let spaceIndex ← IndexOf line [' '] (colonIndex2 + 2)
  let cursor := spaceIndex
  let argumentIndex1 ← IndexOf line ['('] (spaceIndex + 1)
  let argumentIndex2 ← IndexOfAfter line [')'] argumentIndex1
  let cursor := assignIfFound argumentIndex2 cursor
  let colonIndex3 ← IndexOfAfter line [':'] argumentIndex2
  let cursor := assignIfFound colonIndex3 cursor
  let colonIndex4 ← IndexOfAfter line [':'] colonIndex3
  let cursor := assignIfFound colonIndex4 cursor
  let arrowIndex ← IndexOf line ['-', '>'] (cursor + 1)
  if spaceIndex < 0 ∨ arrowIndex < 0 then pure (st, some GoError.missingSpaceOrArrow)
  else do
    -- Extract the elements
    let classMemberType := TrimSpace (← slice line (colonIndex2 + 1) spaceIndex)
    let nameEndIndex := assignIfFound argumentIndex1 arrowIndex
    let classMemberName := TrimSpace (← slice line (spaceIndex + 1) nameEndIndex)
    let newClassMemberName := TrimSpace (← sliceFrom line (arrowIndex + 2))
    -- Does the method name contain an explicit original class name ?
    let newClassName := className
    let dotIndex := LastIndex classMemberName ['.']
    if dotIndex ≥ 0 then do
      let className ← sliceTo classMemberName dotIndex
      let classMemberName ← sliceFrom classMemberName (dotIndex + 1)
      processMember processor st line colonIndex1 colonIndex2 colonIndex3 colonIndex4
        argumentIndex1 argumentIndex2 arrowIndex className classMemberType classMemberName
        newClassName newClassMemberName
    else
      processMember processor st line colonIndex1 colonIndex2 colonIndex3 colonIndex4
        argumentIndex1 argumentIndex2 arrowIndex className classMemberType classMemberName
        newClassName newClassMemberName

/-- `dropCR` of Go `bufio`: one trailing carriage return removed. -/
def dropCR (data : Str) : Str :=
  if data.getLast? = some '\r' then data.dropLast else data

/-- Go `bufio.MaxScanTokenSize`, the size of the buffer of a `bufio.Scanner`
that is given no buffer of its own. -/
def MaxScanTokenSize : Nat := 64 * 1024

/-- The lines of the rest of an input, each without its newline; `cur` is the
current line, reversed. -/
def rawLinesAux : Str → Str → List Str
  | [], cur => if cur = [] then [] else [cur.reverse]
  | c :: cs, cur =>
    if c = '\n' then cur.reverse :: rawLinesAux cs [] else rawLinesAux cs (c :: cur)

/-- The lines of an input, each without its newline; a last line needs no
newline. -/
def rawLines (text : Str) : List Str := rawLinesAux text []

/-- The tokens that `bufio.Scanner` with `bufio.ScanLines` (the default)
returns for an input: its lines, without the end-of-line marker (a newline
with an optional carriage return before it). The scanner looks for the newline
in a buffer of `MaxScanTokenSize` bytes: at the first line that has that many
bytes or more before its newline, `Scan` returns false with the error
`bufio.ErrTooLong`, so the scan ends there and the lines before it are all the
tokens. The end of the input is seen by a read of its own, as with a file or a
`strings.Reader`. -/
def scanLines (text : Str) : List Str :=
  ((rawLines text).takeWhile (fun line => decide (byteLength line < MaxScanTokenSize))).map dropCR

/-- Body of the loop of `Pump` for one token of the scanner: the state of the
processor and the value of `className` after it. -/
def pumpLine (processor : MappingProcessor σ) (acc : σ × Str) (text : Str) :
    Option (σ × Str) :=
  let line := TrimSpace text
  if line.length = 0 then pure acc
  else if HasPrefix line ['#'] then pure acc
  else if HasSuffix line [':'] then ProcessClassMapping processor acc.1 line
  else if acc.2.length > 0 then do
    let (st, _) ← ProcessClassMemberMapping processor acc.1 acc.2 line
    pure (st, acc.2)
  else pure acc

/-- `MappingReader.Pump` over the text that the reader delivers: the state of
the processor after the call. The loop runs while `scanner.Scan()` is true, so
it is left at the end of the input and also at a line that the scanner refuses
as too long. The error that `Pump` returns is that of the scanner (`nil` at the
end of the input of a reader that does not fail); `Retrace` does not look at
it, and it is not part of the value. -/
def Pump (processor : MappingProcessor σ) (st : σ) (text : Str) : Option σ := do
  let (st, _) ← (scanLines text).foldlM (pumpLine processor) (st, [])
  pure st

end MappingReader

/-! ## Words used in the statements -/

/-- A text free of white space, colons and parentheses. -/
def plain (s : Str) : Bool :=
  s.all (fun c => !isSpace c && c != ':' && c != '(' && c != ')')

/-- A line number as a mapping file writes it: a non-empty string of decimal
digits whose value is a Go `int`. -/
def lineNumberText (s : Str) : Bool :=
  !s.isEmpty && s.all Char.isDigit && decide ((digitsValue s : Int) ≤ maxInt)

/-! ## Total descriptions of the remapper, used in the statements -/

/-- The file name that `getSourceFileName` returns for a class name (the call
never fails, see `getSourceFileName_eq`). -/
def sourceFileName (className : Str) : Str :=
  (FrameRemapper.getSourceFileName className).getD []

/-- The type that `getOriginalType` returns (the call never fails, see
`getOriginalType_eq`). -/
def originalType (remapper : FrameRemapper) (obfuscatedType : Str) : Str :=
  (remapper.getOriginalType obfuscatedType).getD []

/-- The text that `getOriginalArguments` returns (the call never fails, see
`getOriginalArguments_eq`). -/
def originalArguments (remapper : FrameRemapper) (obfuscatedArguments : Str) : Str :=
  (remapper.getOriginalArguments obfuscatedArguments).getD []

/-- The field infos stored under a class name and an obfuscated field name, in
the order of their insertion; none when a key is absent. -/
def storedFields (remapper : FrameRemapper) (className fieldName : Str) : List FieldInfo :=
  match remapper.ClassFieldMap className with
  | none => []
  | some fieldMap => (fieldMap fieldName).getD []

/-- The method infos stored under a class name and an obfuscated method name,
in the order of their insertion; none when a key is absent. -/
def storedMethods (remapper : FrameRemapper) (className methodName : Str) : List MethodInfo :=
  match remapper.ClassMethodMap className with
  | none => []
  | some methodMap => (methodMap methodName).getD []

/-- The frame that `transformFieldInfo` appends for a matching field info. -/
def fieldCandidate (obfuscatedFrame : FrameInfo) (fieldInfo : FieldInfo) : FrameInfo :=
  ⟨fieldInfo.OriginalClassName, sourceFileName fieldInfo.OriginalClassName,
    obfuscatedFrame.LineNumber, fieldInfo.OriginalType, fieldInfo.OriginalName,
    obfuscatedFrame.MethodName, obfuscatedFrame.Arguments⟩

/-- The frame that `transformMethodInfo` appends for a matching method info. -/
def methodCandidate (obfuscatedFrame : FrameInfo) (methodInfo : MethodInfo) : FrameInfo :=
  ⟨methodInfo.OriginalClassName, sourceFileName methodInfo.OriginalClassName,
    FrameRemapper.methodLineNumber methodInfo obfuscatedFrame.LineNumber,
    methodInfo.OriginalType, obfuscatedFrame.FieldName, methodInfo.OriginalName,
    methodInfo.OriginalArguments⟩

/-- The field frames of `Transform`: one for each stored field info, in the
order of `Values`, that matches the resolved type of the frame. -/
def fieldCandidates (order : ValuesOrder) (remapper : FrameRemapper)
    (obfuscatedFrame : FrameInfo) : List FrameInfo :=
  ((order.Values (storedFields remapper
      (remapper.GetOriginalClassName obfuscatedFrame.ClassName) obfuscatedFrame.FieldName)).filter
    (fun fieldInfo => fieldInfo.Matches (originalType remapper obfuscatedFrame.Type_))).map
    (fieldCandidate obfuscatedFrame)

/-- The method frames of `Transform`: one for each stored method info, in the
order of insertion, that matches the line number, the resolved type and the
resolved arguments of the frame. -/
def methodCandidates (remapper : FrameRemapper) (obfuscatedFrame : FrameInfo) :
    List FrameInfo :=
  ((storedMethods remapper
      (remapper.GetOriginalClassName obfuscatedFrame.ClassName) obfuscatedFrame.MethodName).filter
    (fun methodInfo => methodInfo.Matches obfuscatedFrame.LineNumber
      (originalType remapper obfuscatedFrame.Type_)
      (originalArguments remapper obfuscatedFrame.Arguments))).map
    (methodCandidate obfuscatedFrame)

/-- The frame that `Transform` returns when nothing was remapped. -/
def passthroughCandidate (remapper : FrameRemapper) (obfuscatedFrame : FrameInfo) : FrameInfo :=
  ⟨remapper.GetOriginalClassName obfuscatedFrame.ClassName,
    if obfuscatedFrame.SourceFile = [] then
      sourceFileName (remapper.GetOriginalClassName obfuscatedFrame.ClassName)
    else obfuscatedFrame.SourceFile,
    obfuscatedFrame.LineNumber, obfuscatedFrame.Type_, obfuscatedFrame.FieldName,
    obfuscatedFrame.MethodName, obfuscatedFrame.Arguments⟩

/-- The call of `ProcessMethodMapping` that registers the mapping described by
a `MethodInfo` under a class name and an obfuscated method name. -/
def registerMethod (newClassName newMethodName : Str) (remapper : FrameRemapper)
    (info : MethodInfo) : FrameRemapper :=
  remapper.ProcessMethodMapping info.OriginalClassName info.OriginalFirstLineNumber
    info.OriginalLastLineNumber info.OriginalType info.OriginalName info.OriginalArguments
    newClassName info.ObfuscatedFirstLineNumber info.ObfuscatedLastLineNumber newMethodName

/-- The table `after` holds all that the table `before` holds: every key of the
class table, and under every class name and obfuscated member name every field
info and every method info, the method infos in their order. -/
def tableGrows (before after : FrameRemapper) : Prop :=
  (∀ name, before.ClassMap name ≠ none → after.ClassMap name ≠ none) ∧
  (∀ c m, (storedFields before c m).Sublist (storedFields after c m)) ∧
  (∀ c m, (storedMethods before c m).Sublist (storedMethods after c m))

/-! ## The frame pattern (`frame_pattern.go`)

The regular expression engine is Go's `regexp` package. A compiled pattern is
kept as the text of its regular expression, and the function
`FindStringSubmatchIndex` of the compiled pattern is a parameter `find` of
`Parse` and `Format`: for a line it gives `none` when the line does not match,
and otherwise the list of the start and end offsets of the match and of every
capture group, -1 for a group that took no part in the match. -/

/-- Go `strings.ReplaceAll` for a non-empty `old`. -/
def ReplaceAll (s old new : Str) : Str := Join (Split s old) new

/-- Go `strconv.Itoa`. -/
def Itoa (n : Int) : Str :=
  (if n < 0 then ['-'] else []) ++ (Nat.repr n.natAbs).toList

def REGEX_CLASS : Str := "(?:[^\\s\\\":./()]+\\.)*[^\\s\":./()]+".toList

def REGEX_CLASS_SLASH : Str := "(?:[^\\s\\\":./()]+/)*[^\\s\":./()]+".toList

def REGEX_SOURCE_FILE : Str := "(?:[^:()\\d][^:()]*)?".toList

def REGEX_LINE_NUMBER : Str := "-?\\b\\d+\\b".toList

def REGEX_MEMBER : Str := "<?[^\\s\\\":./()]+>?".toList

def REGEX_TYPE : Str := REGEX_CLASS ++ "(?:\\[\\])*".toList

def REGEX_ARGUMENTS : Str :=
  "(?:".toList ++ REGEX_TYPE ++ "(?:\\s*,\\s*".toList ++ REGEX_TYPE ++ ")*)?".toList

structure FramePattern where
  RegularExpression : Str
  /-- The array `[32]string`. -/
  ExpressionTypes : List Str
  ExpressionTypeCount : Int
  /-- The text given to `regexp.MustCompile`. -/
  Pattern : Str
  Verbose : Bool
  deriving DecidableEq, Repr

/-- The local variables of the loop of `NewFramePattern`. -/
structure PatternScan where
  buffer : Str
  ExpressionTypes : List Str
  expressionTypeCount : Int
  index : Int
  deriving DecidableEq, Repr

/-- The text that the `switch` of `NewFramePattern` writes for an expression
type; nothing for a letter that is not a case. -/
def regexFragment (expressionType : Str) : Str :=
  if expressionType = ['c'] then REGEX_CLASS
  else if expressionType = ['C'] then REGEX_CLASS_SLASH
  else if expressionType = ['s'] then REGEX_SOURCE_FILE
  else if expressionType = ['l'] then REGEX_LINE_NUMBER
  else if expressionType = ['t'] then REGEX_TYPE
  else if expressionType = ['f'] then REGEX_MEMBER
  else if expressionType = ['m'] then REGEX_MEMBER
  else if expressionType = ['a'] then REGEX_ARGUMENTS
  else []

/-- Go array assignment `array[i] = v` for an array of 32 elements. -/
def arraySet (array : List Str) (i : Int) (v : Str) : Option (List Str) :=
  if 0 ≤ i ∧ i < 32 then some (array.set i.toNat v) else none

/-- Go array access `array[i]` for an array of 32 elements. -/
def arrayGet (array : List Str) (i : Int) : Option Str :=
  if 0 ≤ i ∧ i < 32 then array[i.toNat]? else none

/-- One pass through the body of the loop of `NewFramePattern`: `(false, s)`
when the loop is left by `break`, `(true, s)` with the new values of the
variables when the end of the body is reached. -/
def scanIteration (regularExpression : Str) (s : PatternScan) : Option (Bool × PatternScan) := do
  let rest ← sliceFrom regularExpression s.index
  let nextIndex := Index rest ['%']
  if nextIndex < 0 ∨ nextIndex = regularExpression.length - 1 ∨ s.expressionTypeCount = 32 then
    pure (false, s)
  else do
    let nextIndex := nextIndex + s.index
    -- Copy a literal piece of the input line.
    let literal ← slice regularExpression s.index nextIndex
    let expressionType ← slice regularExpression (nextIndex + 1) (nextIndex + 2)
    -- The source takes one byte. Of a character of several bytes that is the
    -- first byte; the loop goes on inside the character, the other bytes arrive
    -- in the text for `regexp.MustCompile`, and that panics: it is no UTF-8.
    if byteLength expressionType ≠ 1 then none else
    let buffer := s.buffer ++ literal ++ ['('] ++ regexFragment expressionType ++ [')']
    let expressionTypeCount := s.expressionTypeCount + 1
    let types ← arraySet s.ExpressionTypes expressionTypeCount expressionType
    pure (true, ⟨buffer, types, expressionTypeCount, nextIndex + 2⟩)

/-- The loop of `NewFramePattern`, for at most `fuel` passes through its body.
Every pass that does not leave the loop adds one to `expressionTypeCount`, and
the loop is left when the count is 32, so 33 passes are always enough. -/
def scanLoop (regularExpression : Str) : Nat → PatternScan → Option PatternScan
  | 0, _ => none
  | fuel + 1, s =>
    match scanIteration regularExpression s with
    | none => none
    | some (false, s) => some s
    | some (true, s) => scanLoop regularExpression fuel s

/-- `NewFramePattern`. Of the failures of `regexp.MustCompile` only the one in
`scanIteration` is part of the model. -/
def NewFramePattern (regularExpression : Str) (verbose : Bool) : Option FramePattern := do
  let s ← scanLoop regularExpression 33 ⟨[], List.replicate 32 [], 0, 0⟩
  -- Copy the last literal piece of the input line.
  let rest ← sliceFrom regularExpression s.index
  pure ⟨regularExpression, s.ExpressionTypes, s.expressionTypeCount, s.buffer ++ rest, verbose⟩

/-- The number of characters before the byte offset `n` of a string; `none`
when the offset lies behind the end of the string or inside a character. -/
def charOffset : Str → Nat → Option Nat
  | _, 0 => some 0
  | [], _ + 1 => none
  | c :: cs, n + 1 =>
    if c.utf8Size ≤ n + 1 then (charOffset cs (n + 1 - c.utf8Size)).map (· + 1) else none

/-- Go slice expression `s[lo:hi]` with byte offsets, as the regular expression
engine gives them. The source panics unless `0 ≤ lo ≤ hi ≤ len(s)`. -/
def byteSlice (s : Str) (lo hi : Int) : Option Str :=
  if 0 ≤ lo ∧ lo ≤ hi then do
    let a ← charOffset s lo.toNat
    let b ← charOffset s hi.toNat
    slice s a b
  else none

/-- Go slice expression `s[lo:]` with a byte offset. -/
def byteSliceFrom (s : Str) (lo : Int) : Option Str := byteSlice s lo (byteLength s)

/-- Go `(*Regexp).FindStringSubmatch`, from the result of
`FindStringSubmatchIndex` for the same string: the text of the match and of
every group, empty for a group that took no part; no element when there is no
match. -/
def FindStringSubmatch (s : Str) (loc : Option (List Int)) : Option (List Str) :=
  match loc with
  | none => some []
  | some a =>
    (List.range (a.length / 2)).mapM (fun i =>
      if a.getD (2 * i) (-1) ≥ 0 then byteSlice s (a.getD (2 * i) (-1)) (a.getD (2 * i + 1) (-1))
      else some [])

/-- Body of the loop of `Parse` for the result with index `i`. -/
def parseStep (f : FramePattern) (frame : FrameInfo) (item : Nat × Str) : Option FrameInfo :=
  if item.2.length = 0 then pure frame
  else do
    let expressionType ← arrayGet f.ExpressionTypes item.1
    if expressionType = ['c'] then pure { frame with ClassName := item.2 }
    else if expressionType = ['C'] then
      pure { frame with ClassName := ReplaceAll item.2 ['/'] ['.'] }
    else if expressionType = ['s'] then pure { frame with SourceFile := item.2 }
    else if expressionType = ['l'] then
      pure { frame with
        LineNumber := match Atoi item.2 with
          | (lineNumber, none) => lineNumber
          | (_, some _) => -1 }
    else if expressionType = ['t'] then pure { frame with Type_ := item.2 }
    else if expressionType = ['f'] then pure { frame with FieldName := item.2 }
    else if expressionType = ['m'] then pure { frame with MethodName := item.2 }
    else if expressionType = ['a'] then pure { frame with Arguments := item.2 }
    else pure frame

/-- `FramePattern.Parse`. -/
def FramePattern.Parse (f : FramePattern) (find : Str → Option (List Int)) (line : Str) :
    Option FrameInfo := do
  let results ← FindStringSubmatch line (find line)
  results.enum.foldlM (parseStep f) ⟨[], [], 0, [], [], [], []⟩

/-- The text that the `switch` of `Format` writes for an expression type. -/
def formatField (f : FramePattern) (frameInfo : FrameInfo) (expressionType : Str) : Str :=
  if expressionType = ['c'] then frameInfo.ClassName
  else if expressionType = ['C'] then ReplaceAll frameInfo.ClassName ['.'] ['/']
  else if expressionType = ['s'] then frameInfo.SourceFile
  else if expressionType = ['l'] then Itoa frameInfo.LineNumber
  else if expressionType = ['t'] then frameInfo.Type_
  else if expressionType = ['f'] then
    (if f.Verbose then frameInfo.Type_ ++ [' '] else []) ++ frameInfo.FieldName
  else if expressionType = ['m'] then
    (if f.Verbose then frameInfo.Type_ ++ [' '] else []) ++ frameInfo.MethodName ++
      (if f.Verbose then ['('] ++ frameInfo.Arguments ++ [')'] else [])
  else if expressionType = ['a'] then frameInfo.Arguments
  else []

/-- Go slice access `results[i]`. -/
def resultAt (results : List Int) (i : Int) : Option Int :=
  if 0 ≤ i ∧ i < results.length then results[i.toNat]? else none

/-- The loop of `Format` from the value `expressionTypeIndex` of its counter on,
`count` being the number of values of the counter that are still below
`ExpressionTypeCount`: the values of `formattedBuffer` and `lineIndex` when the
loop is left. -/
def formatLoop (f : FramePattern) (line : Str) (results : List Int) (frameInfo : FrameInfo) :
    Nat → Int → Str → Int → Option (Str × Int)
  | 0, _, formattedBuffer, lineIndex => some (formattedBuffer, lineIndex)
  | count + 1, expressionTypeIndex, formattedBuffer, lineIndex =>
    let matcherIndex := expressionTypeIndex * 2
    if matcherIndex > results.length then some (formattedBuffer, lineIndex)
    else
      match resultAt results matcherIndex with
      | none => none
      | some startIndex =>
        if startIndex < 0 then
          formatLoop f line results frameInfo count (expressionTypeIndex + 1) formattedBuffer
            lineIndex
        else
          match resultAt results (matcherIndex + 1), byteSlice line lineIndex startIndex,
            arrayGet f.ExpressionTypes expressionTypeIndex with
          | some endIndex, some literal, some expressionType =>
            formatLoop f line results frameInfo count (expressionTypeIndex + 1)
              (formattedBuffer ++ literal ++ formatField f frameInfo expressionType) endIndex
          | _, _, _ => none

/-- `FramePattern.Format`. -/
def FramePattern.Format (f : FramePattern) (find : Str → Option (List Int)) (line : Str)
    (frameInfo : FrameInfo) : Option Str := do
  let results := (find line).getD []
  -- Ignore the first result, which is the entire match.
  let (formattedBuffer, lineIndex) ←
    formatLoop f line results frameInfo (f.ExpressionTypeCount - 1).toNat 1 [] 0
  let rest ← byteSliceFrom line lineIndex
  pure (formattedBuffer ++ rest)

/-! ## The orchestrator (`retrace.go`) -/

/-- The bytes of a Go string: its UTF-8 encoding. -/
def utf8 (s : Str) : List UInt8 := s.flatMap String.utf8EncodeChar

/-- The first character of a UTF-8 text and the bytes behind it; `none` when the
bytes do not start with the encoding of a character. -/
def decodeRune : List UInt8 → Option (Char × List UInt8)
  | [] => none
  | b0 :: rest =>
    let n0 := b0.toNat
    if n0 < 0x80 then some (Char.ofNat n0, rest)
    else
      match rest with
      | [] => none
      | b1 :: rest =>
        let n1 := b1.toNat
        if 0xC2 ≤ n0 ∧ n0 ≤ 0xDF then
          if 0x80 ≤ n1 ∧ n1 ≤ 0xBF then some (Char.ofNat ((n0 - 0xC0) * 64 + (n1 - 0x80)), rest)
          else none
        else
          match rest with
          | [] => none
          | b2 :: rest =>
            let n2 := b2.toNat
            if 0xE0 ≤ n0 ∧ n0 ≤ 0xEF then
              if (if n0 = 0xE0 then 0xA0 else 0x80) ≤ n1 ∧
                  n1 ≤ (if n0 = 0xED then 0x9F else 0xBF) ∧ 0x80 ≤ n2 ∧ n2 ≤ 0xBF then
                some (Char.ofNat ((n0 - 0xE0) * 4096 + (n1 - 0x80) * 64 + (n2 - 0x80)), rest)
              else none
            else
              match rest with
              | [] => none
              | b3 :: rest =>
                let n3 := b3.toNat
                if 0xF0 ≤ n0 ∧ n0 ≤ 0xF4 ∧ (if n0 = 0xF0 then 0x90 else 0x80) ≤ n1 ∧
                    n1 ≤ (if n0 = 0xF4 then 0x8F else 0xBF) ∧ 0x80 ≤ n2 ∧ n2 ≤ 0xBF ∧
                    0x80 ≤ n3 ∧ n3 ≤ 0xBF then
                  some (Char.ofNat ((n0 - 0xF0) * 262144 + (n1 - 0x80) * 4096 +
                    (n2 - 0x80) * 64 + (n3 - 0x80)), rest)
                else none

/-- A text from bytes, for at most `fuel` characters. -/
def decodeUtf8Aux : Nat → List UInt8 → Option Str
  | _, [] => some []
  | 0, _ :: _ => none
  | fuel + 1, b :: rest => do
    let (c, rest) ← decodeRune (b :: rest)
    let s ← decodeUtf8Aux fuel rest
    pure (c :: s)

/-- The text that bytes encode; `none` when the bytes are no UTF-8 text. -/
def decodeUtf8 (bytes : List UInt8) : Option Str := decodeUtf8Aux bytes.length bytes

/-- `Retrace.FirstNonCommonIndex`, on the bytes of the two strings. -/
def FirstNonCommonIndex : List UInt8 → List UInt8 → Int
  | a :: s1, b :: s2 => if a ≠ b then 0 else FirstNonCommonIndex s1 s2 + 1
  | _, _ => 0

/-- Go slice expression `s[lo:]` on the bytes of a string. -/
def bytesFrom (s : List UInt8) (lo : Int) : Option (List UInt8) :=
  if 0 ≤ lo ∧ lo ≤ s.length then some (s.drop lo.toNat) else none

/-- `Retrace.Trim`, on the bytes of the two strings; the blank is the byte
32. -/
def Trim (string1 string2 : List UInt8) : Option (List UInt8) := do
  -- Find the common part.
  let trimEnd := FirstNonCommonIndex string1 string2
  -- Clear the common characters
  let rest ← bytesFrom string1 trimEnd
  pure (List.replicate trimEnd.toNat 32 ++ rest)

/-- Body of the loop of `handle` for one retraced frame: the values of `result`
and `previousLine` after it. `Trim` is given the bytes of the two lines; its
result is read as a text again, and has no value when the line was cut inside a
character. `deobfuscate` stands for `Retrace.Deobfuscate`
with the mapper, which uses `FieldsFuncWithDelims`, a function that is not
among the source files. -/
def handleStep (allClassNames : Bool) (deobfuscate : Str → Str) (pattern : FramePattern)
    (find : Str → Option (List Int)) (obfuscatedFrame : FrameInfo) (obfuscatedLine : Str)
    (acc : Str × Option Str) (retracedFrame : FrameInfo) : Option (Str × Option Str) := do
  let retracedLine ← pattern.Format find obfuscatedLine retracedFrame
  -- Clear the common first part of ambiguous alternative retraced lines.
  let trimmedLine ←
    match acc.2 with
    | some previousLine =>
      if obfuscatedFrame.LineNumber = 0 then do
        let trimmed ← Trim (utf8 retracedLine) (utf8 previousLine)
        decodeUtf8 trimmed
      else some retracedLine
    | none => some retracedLine
  -- Print out the retraced line
  let result :=
    if trimmedLine.length ≠ 0 then
      acc.1 ++ (if allClassNames then deobfuscate trimmedLine else trimmedLine)
    else acc.1
  pure (result, some retracedLine)

/-- `Retrace.handle`; the frame pointer it is given is never nil. -/
def handle (allClassNames : Bool) (deobfuscate : Str → Str) (order : ValuesOrder)
    (mapper : FrameRemapper) (pattern : FramePattern) (find : Str → Option (List Int))
    (obfuscatedFrame : FrameInfo) (obfuscatedLine : Str) : Option Str := do
  -- Transform the obfuscated frame back to one or more original frames.
  let retracedFrames ← mapper.Transform order obfuscatedFrame
  let (result, _) ←
    retracedFrames.foldlM
      (handleStep allClassNames deobfuscate pattern find obfuscatedFrame obfuscatedLine)
      ([], none)
  pure result

/-- Body of the loop of `Retrace.Retrace` for one line of the stack trace: the
text written for it. `find1` and `find2` are the functions
`FindStringSubmatchIndex` of the two compiled patterns. -/
def retraceLine (allClassNames : Bool) (deobfuscate : Str → Str) (order : ValuesOrder)
    (mapper : FrameRemapper) (pattern1 pattern2 : FramePattern)
    (find1 find2 : Str → Option (List Int)) (obfuscatedLine : Str) : Option Str := do
  let obfuscatedFrame1 ← pattern1.Parse find1 obfuscatedLine
  let obfuscatedFrame2 ← pattern2.Parse find2 obfuscatedLine
  let deobf ←
    handle allClassNames deobfuscate order mapper pattern1 find1 obfuscatedFrame1 obfuscatedLine
  handle allClassNames deobfuscate order mapper pattern2 find2 obfuscatedFrame2 deobf

/-- The lines that `bufio.Reader.ReadString('\n')` returns with a nil error,
one call after the other, for the rest of an input: each ends with its newline.
What follows the last newline comes back with the error `io.EOF`. `cur` is the
current line, reversed. -/
def readStringsAux : Str → Str → List Str
  | [], _ => []
  | c :: cs, cur =>
    if c = '\n' then (c :: cur).reverse :: readStringsAux cs []
    else readStringsAux cs (c :: cur)

/-- The lines that the loop of `Retrace.Retrace` reads from its input before it
is left. -/
def readStrings (input : Str) : List Str := readStringsAux input []

set_option linter.dupNamespace false in
/-- `Retrace.Retrace`: the text written to the writer for the text `input` of
the reader, `mapping` being the text of the mapping file. `regexp` stands for
the package of that name: for the text of a regular expression and a line it
gives the result of `FindStringSubmatchIndex` of the compiled expression.
`deobfuscate` stands for `Retrace.Deobfuscate`. -/
def Retrace (regularExpression regularExpression2 : Str) (allClassNames verbose : Bool)
    (deobfuscate : FrameRemapper → Str → Str) (order : ValuesOrder)
    (regexp : Str → Str → Option (List Int)) (mapping input : Str) : Option Str := do
  -- create a pattern for stack frames
  let pattern1 ← NewFramePattern regularExpression verbose
  let pattern2 ← NewFramePattern regularExpression2 verbose
  -- Read the mapping file
  let mapper ← MappingReader.Pump FrameRemapper.processor NewFrameRemapper mapping
  -- Read and process the lines of the stack trace.
  (readStrings input).foldlM
    (fun written obfuscatedLine => do
      let deobf ← retraceLine allClassNames (deobfuscate mapper) order mapper pattern1 pattern2
        (regexp pattern1.Pattern) (regexp pattern2.Pattern) obfuscatedLine
      pure (written ++ deobf))
    []

/-! ## Words used in the statements about the frame pattern -/

/-- Start offset of the group `i` in a result of `FindStringSubmatchIndex`
(the group 0 is the whole match). -/
def groupStart (results : List Int) (i : Nat) : Int := results.getD (2 * i) (-1)

/-- End offset of the group `i` in a result of `FindStringSubmatchIndex`. -/
def groupEnd (results : List Int) (i : Nat) : Int := results.getD (2 * i + 1) (-1)

/-- The text of the group `i`, empty for a group that took no part in the
match. -/
def groupText (line : Str) (results : List Int) (i : Nat) : Str :=
  if groupStart results i ≥ 0 then
    (byteSlice line (groupStart results i) (groupEnd results i)).getD []
  else []

/-- The expression type recorded for the group `i` of a pattern. -/
def typeAt (pattern : FramePattern) (i : Nat) : Str := pattern.ExpressionTypes.getD i []

/-- The field of `FrameInfo` that `Parse` sets for an expression type, numbered
in the order of the structure; `c` and `C` both stand for the class name. -/
def fieldOf (expressionType : Str) : Option Nat :=
  if expressionType = ['c'] then some 0
  else if expressionType = ['C'] then some 0
  else if expressionType = ['s'] then some 1
  else if expressionType = ['l'] then some 2
  else if expressionType = ['t'] then some 3
  else if expressionType = ['f'] then some 4
  else if expressionType = ['m'] then some 5
  else if expressionType = ['a'] then some 6
  else none

/-- What the package `regexp` grants for the result of `FindStringSubmatchIndex`
on a line that a pattern matches, when the groups of the pattern are the `n`
groups of the placeholders of a template, one after the other: two offsets for
the match and for each group; the offsets of a group that took part in the
match are byte offsets of the line between two characters (or at its start or
its end), the start not behind the end; and the groups that took part follow
each other in the line. -/
def submatchIndexes (n : Nat) (line : Str) (results : List Int) : Prop :=
  results.length = 2 * (n + 1) ∧
  (∀ i, i < n + 1 → groupStart results i < 0 ∨
    (0 ≤ groupStart results i ∧ groupStart results i ≤ groupEnd results i ∧
      (charOffset line (groupStart results i).toNat).isSome ∧
      (charOffset line (groupEnd results i).toNat).isSome)) ∧
  (∀ j, j < n + 1 → ∀ i, i < j →
    1 ≤ i ∧ 0 ≤ groupStart results i ∧ 0 ≤ groupStart results j →
      groupEnd results i ≤ groupStart results j)

/-- No two groups of the placeholders that took part in the match stand for the
same field of `FrameInfo`. -/
def distinctFields (pattern : FramePattern) (results : List Int) : Prop :=
  ∀ j, j < pattern.ExpressionTypeCount.toNat + 1 → ∀ i, i < j →
    1 ≤ i ∧ 0 ≤ groupStart results i ∧ 0 ≤ groupStart results j →
      fieldOf (typeAt pattern i) = none ∨
        fieldOf (typeAt pattern i) ≠ fieldOf (typeAt pattern j)

/-- A text that `Format` writes again from what `Parse` has kept of it, for a
group of the given expression type: for `l` the decimal text that `Itoa` prints
for an `int`; for `C` a text without a dot; for a letter that is no expression
type the empty text, as its group is `()`. -/
def keptText (expressionType text : Str) : Prop :=
  (expressionType = ['l'] → (Atoi text).2 = none ∧ Itoa (Atoi text).1 = text) ∧
  (expressionType = ['C'] → '.' ∉ text) ∧
  (fieldOf expressionType = none → text = [])

/-- The text of every group of a placeholder that took part in the match is a
`keptText` for the expression type of the group. -/
def keptTexts (pattern : FramePattern) (line : Str) (results : List Int) : Prop :=
  ∀ i, i < pattern.ExpressionTypeCount.toNat + 1 →
    1 ≤ i ∧ 0 ≤ groupStart results i → keptText (typeAt pattern i) (groupText line results i)

instance (n : Nat) (line : Str) (results : List Int) :
    Decidable (submatchIndexes n line results) := by
  unfold submatchIndexes
  infer_instance

instance (pattern : FramePattern) (results : List Int) :
    Decidable (distinctFields pattern results) := by
  unfold distinctFields
  infer_instance

instance (expressionType text : Str) : Decidable (keptText expressionType text) := by
  unfold keptText
  infer_instance

instance (pattern : FramePattern) (line : Str) (results : List Int) :
    Decidable (keptTexts pattern line results) := by
  unfold keptTexts
  infer_instance

end Retrace

namespace Retrace

/-! ## Library functions: basic facts -/

theorem Index_bounds (s substr : Str) :
    Index s substr = -1 ∨ (0 ≤ Index s substr ∧ Index s substr + substr.length ≤ s.length) := by
  induction s with
  | nil =>
    unfold Index
    by_cases h : substr = []
    · simp [h]
    · simp [h]
  | cons c cs ih =>
    unfold Index
    by_cases hp : substr.isPrefixOf (c :: cs) = true
    · right
      have hl : substr.length ≤ (c :: cs).length :=
        (List.isPrefixOf_iff_prefix.mp hp).length_le
      simp only [hp, if_true]
      constructor
      · omega
      · have : (substr.length : Int) ≤ ((c :: cs).length : Nat) := by exact_mod_cast hl
        simpa using this
    · simp only [hp]
      rcases ih with h | ⟨h0, h1⟩
      · left
        simp [h]
      · right
        have : ¬ Index cs substr < 0 := by omega
        simp only [Bool.false_eq_true, if_false, this, List.length_cons, Nat.cast_add, Nat.cast_one]
        omega

theorem Index_le_length (s substr : Str) : Index s substr ≤ s.length := by
  rcases Index_bounds s substr with h | ⟨_, h⟩ <;> omega

theorem Index_char_absent (s : Str) (c : Char) (h : c ∉ s) : Index s [c] = -1 := by
  induction s with
  | nil => simp [Index]
  | cons a t ih =>
    have ha : c ≠ a := fun e => h (by simp [e])
    have ht : c ∉ t := fun e => h (by simp [e])
    unfold Index
    simp [List.isPrefixOf, ha, ih ht]

theorem Index_char_found (mid rest : Str) (c : Char) (h : c ∉ mid) :
    Index (mid ++ c :: rest) [c] = mid.length := by
  induction mid with
  | nil => simp [Index, List.isPrefixOf]
  | cons a t ih =>
    have ha : c ≠ a := fun e => h (by simp [e])
    have ht : c ∉ t := fun e => h (by simp [e])
    have h2 := ih ht
    simp only [List.cons_append]
    unfold Index
    have h3 : ¬ ((t.length : Int) < 0) := by omega
    simp [List.isPrefixOf, ha, h2, h3]

theorem Index_arrow_found (mid rest : Str) (h : Index mid ['-', '>'] < 0) :
    Index (mid ++ ' ' :: '-' :: '>' :: rest) ['-', '>'] = mid.length + 1 := by
  induction mid with
  | nil => simp [Index, List.isPrefixOf]
  | cons a t ih =>
    unfold Index at h
    by_cases hp : List.isPrefixOf ['-', '>'] (a :: t) = true
    · simp [hp] at h
    · simp only [hp, Bool.false_eq_true, if_false] at h
      have ht : Index t ['-', '>'] < 0 := by
        by_contra hc
        simp only [hc, if_false] at h
        omega
      have h2 := ih ht
      have hq : List.isPrefixOf ['-', '>'] (a :: (t ++ ' ' :: '-' :: '>' :: rest)) = false := by
        cases t with
        | nil => simp [List.isPrefixOf]
        | cons b u =>
          simp only [List.isPrefixOf, List.cons_append] at hp ⊢
          simpa using hp
      simp only [List.cons_append]
      unfold Index
      have h3 : ¬ ((t.length : Int) + 1 < 0) := by omega
      simp only [hq, Bool.false_eq_true, if_false, h2, h3, List.length_cons, Nat.cast_add,
        Nat.cast_one]

theorem Index_arrow_absent (s : Str) (h : '-' ∉ s) : Index s ['-', '>'] = -1 := by
  induction s with
  | nil => simp [Index]
  | cons a t ih =>
    have ha : '-' ≠ a := fun e => h (by rw [e]; exact List.mem_cons_self _ _)
    have ht : '-' ∉ t := fun e => h (List.mem_cons_of_mem _ e)
    unfold Index
    simp [List.isPrefixOf, ha, ih ht]

theorem slice_eq (line pre mid rest : Str) (lo hi : Int) (hl : line = pre ++ (mid ++ rest))
    (hlo : lo = pre.length) (hhi : hi = pre.length + mid.length) :
    slice line lo hi = some mid := by
  subst hl hlo hhi
  unfold slice
  have h1 : (0 : Int) ≤ pre.length ∧ (pre.length : Int) ≤ pre.length + mid.length ∧
      (pre.length : Int) + mid.length ≤ ((pre ++ (mid ++ rest)).length : Nat) := by
    simp only [List.length_append, Nat.cast_add]
    omega
  rw [if_pos h1]
  have h2 : ((pre.length : Int) + mid.length).toNat - (pre.length : Int).toNat = mid.length := by
    omega
  have h3 : (pre.length : Int).toNat = pre.length := by omega
  rw [h2, h3]
  simp

theorem sliceFrom_eq (line pre rest : Str) (lo : Int) (hl : line = pre ++ rest)
    (hlo : lo = pre.length) : sliceFrom line lo = some rest := by
  unfold sliceFrom
  have := slice_eq line pre rest [] lo line.length (by simpa using hl) hlo
    (by subst hl; simp)
  simpa using this

theorem sliceTo_eq (line mid rest : Str) (hi : Int) (hl : line = mid ++ rest)
    (hhi : hi = mid.length) : sliceTo line hi = some mid := by
  unfold sliceTo
  exact slice_eq line [] mid rest 0 hi (by simpa using hl) (by simp) (by simpa using hhi)

theorem IndexOf_eq (line pre rest subStr : Str) (p : Int) (hl : line = pre ++ rest)
    (hp : p = pre.length) :
    IndexOf line subStr p =
      some (if Index rest subStr < 0 then Index rest subStr else p + Index rest subStr) := by
  unfold IndexOf
  rw [sliceFrom_eq line pre rest p hl hp]
  simp only [Option.bind_eq_bind, Option.some_bind]
  split <;> rfl

/-- A search that finds the character `c` right after `mid`. -/
theorem IndexOf_char_found (line pre mid rest : Str) (c : Char) (p : Int)
    (hl : line = pre ++ (mid ++ c :: rest)) (hp : p = pre.length) (h : c ∉ mid) :
    IndexOf line [c] p = some (p + mid.length) := by
  rw [IndexOf_eq line pre (mid ++ c :: rest) [c] p hl hp, Index_char_found mid rest c h]
  have : ¬ ((mid.length : Int) < 0) := by omega
  simp [this]

theorem IndexOf_char_absent (line pre rest : Str) (c : Char) (p : Int)
    (hl : line = pre ++ rest) (hp : p = pre.length) (h : c ∉ rest) :
    IndexOf line [c] p = some (-1) := by
  rw [IndexOf_eq line pre rest [c] p hl hp, Index_char_absent rest c h]
  simp

theorem IndexOf_arrow_found (line pre mid rest : Str) (p : Int)
    (hl : line = pre ++ (mid ++ ' ' :: '-' :: '>' :: rest)) (hp : p = pre.length)
    (h : Index mid ['-', '>'] < 0) :
    IndexOf line ['-', '>'] p = some (p + mid.length + 1) := by
  rw [IndexOf_eq line pre _ ['-', '>'] p hl hp, Index_arrow_found mid rest h]
  have : ¬ ((mid.length : Int) + 1 < 0) := by omega
  simp only [this, if_false]
  congr 1
  omega

end Retrace

namespace Retrace

theorem TrimSpace_of_noSpace (s : Str) (h : ∀ c ∈ s, isSpace c = false) : TrimSpace s = s := by
  unfold TrimSpace
  have h1 : s.dropWhile isSpace = s := by
    cases s with
    | nil => rfl
    | cons a t =>
      exact List.dropWhile_cons_of_neg (by simp [h a (List.mem_cons_self _ _)])
  rw [h1]
  rw [List.rdropWhile_eq_self_iff]
  intro hl
  simp [h _ (List.getLast_mem hl)]

theorem TrimSpace_space_left (s : Str) (h : ∀ c ∈ s, isSpace c = false) :
    TrimSpace (' ' :: s) = s := by
  have h0 : isSpace ' ' = true := by decide
  have : TrimSpace (' ' :: s) = TrimSpace s := by
    unfold TrimSpace
    rw [List.dropWhile_cons_of_pos h0]
  rw [this, TrimSpace_of_noSpace s h]

theorem TrimSpace_space_right (s : Str) (h : ∀ c ∈ s, isSpace c = false) :
    TrimSpace (s ++ [' ']) = s := by
  have h0 : isSpace ' ' = true := by decide
  unfold TrimSpace
  cases s with
  | nil => simp [List.dropWhile, h0, List.rdropWhile]
  | cons a t =>
    have ha : isSpace a = false := h a (List.mem_cons_self _ _)
    have h1 : List.dropWhile isSpace (a :: t ++ [' ']) = (a :: t) ++ [' '] := by
      simp only [List.cons_append]
      exact List.dropWhile_cons_of_neg (by simp [ha])
    rw [h1, List.rdropWhile_concat, if_pos h0]
    rw [List.rdropWhile_eq_self_iff]
    intro hl
    simp [h _ (List.getLast_mem hl)]

theorem isDigit_toNat (c : Char) (h : c.isDigit = true) : 48 ≤ c.toNat ∧ c.toNat ≤ 57 := by
  simp [Char.isDigit] at h
  exact ⟨h.1, h.2⟩

theorem isDigit_not_special (c : Char) (h : c.isDigit = true) :
    isSpace c = false ∧ c ≠ ':' ∧ c ≠ '(' ∧ c ≠ ')' ∧ c ≠ '-' ∧ c ≠ '+' ∧ c ≠ ' ' := by
  have hd := isDigit_toNat c h
  refine ⟨?_, ?_, ?_, ?_, ?_, ?_, ?_⟩
  · simp only [isSpace, Bool.or_eq_false_iff, Bool.and_eq_false_iff, decide_eq_false_iff_not,
      beq_eq_false_iff_ne]
    omega
  all_goals
    intro e
    subst e
    revert hd
    decide

theorem Atoi_digits (ds : Str) (h1 : ds ≠ []) (h2 : ds.all Char.isDigit = true)
    (h3 : (digitsValue ds : Int) ≤ maxInt) : Atoi ds = ((digitsValue ds : Int), none) := by
  obtain ⟨a, t, rfl⟩ := List.exists_cons_of_ne_nil h1
  have ha : a.isDigit = true := by
    simp only [List.all_cons, Bool.and_eq_true] at h2
    exact h2.1
  have hs := isDigit_not_special a ha
  have hm : ¬ (a = '-') := hs.2.2.2.2.1
  have hp : ¬ (a = '+') := hs.2.2.2.2.2.1
  unfold Atoi
  have h4 : ¬ (maxInt < (digitsValue (a :: t) : Int)) := by omega
  simp only [List.head?_cons, Option.some.injEq, hm, hp, or_self, if_false, decide_False,
    h2, Bool.true_eq_false, or_false, Bool.false_eq_true, h4]
  simp

end Retrace

namespace Retrace

theorem plain_spec (s : Str) (h : plain s = true) :
    (∀ c ∈ s, isSpace c = false) ∧ ':' ∉ s ∧ '(' ∉ s ∧ ')' ∉ s ∧ ' ' ∉ s := by
  unfold plain at h
  rw [List.all_eq_true] at h
  have key : ∀ c ∈ s, isSpace c = false ∧ c ≠ ':' ∧ c ≠ '(' ∧ c ≠ ')' := by
    intro c hc
    have := h c hc
    simp only [Bool.and_eq_true, Bool.not_eq_true', bne_iff_ne, ne_eq] at this
    exact ⟨this.1.1.1, this.1.1.2, this.1.2, this.2⟩
  refine ⟨fun c hc => (key c hc).1, fun hc => (key _ hc).2.1 rfl, fun hc => (key _ hc).2.2.1 rfl,
    fun hc => (key _ hc).2.2.2 rfl, fun hc => ?_⟩
  have := (key _ hc).1
  revert this
  decide

theorem lineNumberText_spec (s : Str) (h : lineNumberText s = true) :
    s ≠ [] ∧ s.all Char.isDigit = true ∧ (digitsValue s : Int) ≤ maxInt ∧
      (∀ c ∈ s, isSpace c = false) ∧ ':' ∉ s ∧ '-' ∉ s ∧ ' ' ∉ s := by
  unfold lineNumberText at h
  simp only [Bool.and_eq_true, Bool.not_eq_true', decide_eq_true_eq] at h
  obtain ⟨⟨h1, h2⟩, h3⟩ := h
  have hd : ∀ c ∈ s, c.isDigit = true := by
    intro c hc
    exact (List.all_eq_true.mp h2) c hc
  refine ⟨?_, h2, h3, fun c hc => (isDigit_not_special c (hd c hc)).1,
    fun hc => (isDigit_not_special _ (hd _ hc)).2.1 rfl,
    fun hc => (isDigit_not_special _ (hd _ hc)).2.2.2.2.1 rfl,
    fun hc => (isDigit_not_special _ (hd _ hc)).2.2.2.2.2.2 rfl⟩
  intro e
  subst e
  simp at h1

/-- `Atoi` of the text of a line number, as the reader calls it. -/
theorem Atoi_lineNumberText (s : Str) (h : lineNumberText s = true) :
    Atoi (TrimSpace s) = ((digitsValue s : Int), none) := by
  obtain ⟨h1, h2, h3, h4, _⟩ := lineNumberText_spec s h
  rw [TrimSpace_of_noSpace s h4]
  exact Atoi_digits s h1 h2 h3

theorem Atoi_lineNumberText_space (s : Str) (h : lineNumberText s = true) :
    Atoi (TrimSpace (s ++ [' '])) = ((digitsValue s : Int), none) := by
  obtain ⟨h1, h2, h3, h4, _⟩ := lineNumberText_spec s h
  rw [TrimSpace_space_right s h4]
  exact Atoi_digits s h1 h2 h3

theorem LastIndex_char_absent (s : Str) (c : Char) (h : c ∉ s) : LastIndex s [c] = -1 := by
  induction s with
  | nil => simp [LastIndex]
  | cons a t ih =>
    have ha : c ≠ a := fun e => h (by rw [e]; exact List.mem_cons_self _ _)
    have ht : c ∉ t := fun e => h (List.mem_cons_of_mem _ e)
    unfold LastIndex
    simp [List.isPrefixOf, ha, ih ht]

theorem LastIndex_char_found (pre rest : Str) (c : Char) (h : c ∉ rest) :
    LastIndex (pre ++ c :: rest) [c] = pre.length := by
  induction pre with
  | nil =>
    simp only [List.nil_append, List.length_nil, Nat.cast_zero]
    unfold LastIndex
    simp [List.isPrefixOf, LastIndex_char_absent rest c h]
  | cons a t ih =>
    simp only [List.cons_append]
    unfold LastIndex
    have : (0 : Int) ≤ t.length := by omega
    simp [ih, this]

end Retrace

namespace Retrace

open MappingReader

theorem some_bind_eq {α β : Type} (a : α) (f : α → Option β) : (some a >>= f) = f a := rfl

theorem IndexOfAfter_found (line subStr : Str) (previous : Int) (h : previous ≥ 0) :
    IndexOfAfter line subStr previous = IndexOf line subStr (previous + 1) := by
  unfold IndexOfAfter
  rw [if_pos h]

theorem IndexOfAfter_missing (line subStr : Str) (previous : Int) (h : previous < 0) :
    IndexOfAfter line subStr previous = some (-1) := by
  unfold IndexOfAfter
  rw [if_neg (by omega)]

theorem assignIfFound_found (index current : Int) (h : index ≥ 0) :
    assignIfFound index current = index := by
  unfold assignIfFound
  rw [if_pos h]

theorem assignIfFound_missing (index current : Int) (h : index < 0) :
    assignIfFound index current = current := by
  unfold assignIfFound
  rw [if_neg (by omega)]


/-- The member line `f:l:T name(A):F:L -> m`, for a name whose class part and
member part are `cls2` and `n`. -/
theorem member_full {σ : Type} (P : MappingProcessor σ) (st : σ)
    (cls cls2 df dl dF dL T nm n A m : Str)
    (hf : lineNumberText df = true) (hl : lineNumberText dl = true)
    (hF : lineNumberText dF = true) (hL : lineNumberText dL = true)
    (hT : plain T = true) (hT0 : T ≠ []) (hnm : plain nm = true) (hn0 : n ≠ [])
    (hA : plain A = true) (hm : plain m = true) (hm0 : m ≠ [])
    (hdot : (LastIndex nm ['.'] < 0 ∧ cls2 = cls ∧ n = nm) ∨
      (LastIndex nm ['.'] ≥ 0 ∧ sliceTo nm (LastIndex nm ['.']) = some cls2 ∧
        sliceFrom nm (LastIndex nm ['.'] + 1) = some n)) :
    ProcessClassMemberMapping P st cls
        (df ++ ':' :: (dl ++ ':' :: (T ++ ' ' :: (nm ++ '(' :: (A ++ ')' :: ':' ::
          (dF ++ ':' :: (dL ++ ' ' :: '-' :: '>' :: ' ' :: m))))))) =
      some (P.ProcessMethodMapping st cls2 (digitsValue dF) (digitsValue dL) T n A cls
        (digitsValue df) (digitsValue dl) m, none) := by
  obtain ⟨_, _, _, _, hfc, _, _⟩ := lineNumberText_spec df hf
  obtain ⟨_, _, _, _, hlc, _, _⟩ := lineNumberText_spec dl hl
  obtain ⟨_, _, _, _, hFc, _, _⟩ := lineNumberText_spec dF hF
  obtain ⟨_, _, _, _, hLc, hLm, _⟩ := lineNumberText_spec dL hL
  obtain ⟨hTs, _, _, _, hTsp⟩ := plain_spec T hT
  obtain ⟨hnms, _, hnmo, _, _⟩ := plain_spec nm hnm
  obtain ⟨hAs, _, _, hAc, _⟩ := plain_spec A hA
  obtain ⟨hms, _, _, _, _⟩ := plain_spec m hm
  obtain ⟨t0, T1, rfl⟩ := List.exists_cons_of_ne_nil hT0
  have ht1 : ' ' ∉ T1 := fun h => hTsp (List.mem_cons_of_mem _ h)
  generalize hline : (df ++ ':' :: (dl ++ ':' :: ((t0 :: T1) ++ ' ' :: (nm ++ '(' :: (A ++ ')' ::
    ':' :: (dF ++ ':' :: (dL ++ ' ' :: '-' :: '>' :: ' ' :: m))))))) = line
  obtain ⟨c1, e1⟩ : ∃ c1 : Int, c1 = df.length := ⟨_, rfl⟩
  obtain ⟨c2, e2⟩ : ∃ c2 : Int, c2 = c1 + 1 + dl.length := ⟨_, rfl⟩
  obtain ⟨sp, e3⟩ : ∃ sp : Int, sp = c2 + 2 + T1.length := ⟨_, rfl⟩
  obtain ⟨a1, e4⟩ : ∃ a1 : Int, a1 = sp + 1 + nm.length := ⟨_, rfl⟩
  obtain ⟨a2, e5⟩ : ∃ a2 : Int, a2 = a1 + 1 + A.length := ⟨_, rfl⟩
  obtain ⟨c3, e6⟩ : ∃ c3 : Int, c3 = a2 + 1 := ⟨_, rfl⟩
  obtain ⟨c4, e7⟩ : ∃ c4 : Int, c4 = c3 + 1 + dF.length := ⟨_, rfl⟩
  obtain ⟨ar, e8⟩ : ∃ ar : Int, ar = c4 + 1 + dL.length + 1 := ⟨_, rfl⟩
  have i1 : IndexOf line [':'] 0 = some c1 := by
    have := IndexOf_char_found line [] df _ ':' 0 (by rw [← hline]; simp only [List.append_assoc, List.cons_append, List.nil_append]; rfl) (by simp) hfc
    rw [this, e1]; simp
  have i2 : IndexOf line [':'] (c1 + 1) = some c2 := by
    have := IndexOf_char_found line (df ++ [':']) dl _ ':' (c1 + 1)
      (by rw [← hline]; simp only [List.append_assoc, List.cons_append, List.nil_append]; rfl) (by simp [e1]) hlc
    rw [this, e2]
  have i3 : IndexOf line [' '] (c2 + 2) = some sp := by
    have := IndexOf_char_found line (df ++ ':' :: (dl ++ [':', t0])) T1 _ ' ' (c2 + 2)
      (by rw [← hline]; simp only [List.append_assoc, List.cons_append, List.nil_append]; rfl) (by simp [e1, e2]; omega) ht1
    rw [this, e3]
  have i4 : IndexOf line ['('] (sp + 1) = some a1 := by
    have := IndexOf_char_found line (df ++ ':' :: (dl ++ ':' :: (t0 :: T1 ++ [' ']))) nm _ '('
      (sp + 1) (by rw [← hline]; simp only [List.append_assoc, List.cons_append, List.nil_append]; rfl) (by simp [e1, e2, e3]; omega) hnmo
    rw [this, e4]
  have i5 : IndexOf line [')'] (a1 + 1) = some a2 := by
    have := IndexOf_char_found line
      (df ++ ':' :: (dl ++ ':' :: (t0 :: T1 ++ ' ' :: (nm ++ ['('])))) A _ ')'
      (a1 + 1) (by rw [← hline]; simp only [List.append_assoc, List.cons_append, List.nil_append]; rfl) (by simp [e1, e2, e3, e4]; omega) hAc
    rw [this, e5]
  have i6 : IndexOf line [':'] (a2 + 1) = some c3 := by
    have := IndexOf_char_found line
      (df ++ ':' :: (dl ++ ':' :: (t0 :: T1 ++ ' ' :: (nm ++ '(' :: (A ++ [')']))))) [] _ ':'
      (a2 + 1) (by rw [← hline]; simp only [List.append_assoc, List.cons_append, List.nil_append]; rfl) (by simp [e1, e2, e3, e4, e5]; omega) (by simp)
    rw [this, e6]; simp
  have i7 : IndexOf line [':'] (c3 + 1) = some c4 := by
    have := IndexOf_char_found line
      (df ++ ':' :: (dl ++ ':' :: (t0 :: T1 ++ ' ' :: (nm ++ '(' :: (A ++ [')', ':'])))))
      dF _ ':' (c3 + 1) (by rw [← hline]; simp only [List.append_assoc, List.cons_append, List.nil_append]; rfl) (by simp [e1, e2, e3, e4, e5, e6]; omega) hFc
    rw [this, e7]
  have i8 : IndexOf line ['-', '>'] (c4 + 1) = some ar := by
    have := IndexOf_arrow_found line
      (df ++ ':' :: (dl ++ ':' :: (t0 :: T1 ++ ' ' :: (nm ++ '(' :: (A ++ ')' :: ':' ::
        (dF ++ [':'])))))) dL (' ' :: m) (c4 + 1) (by rw [← hline]; simp only [List.append_assoc, List.cons_append, List.nil_append])
      (by simp [e1, e2, e3, e4, e5, e6, e7]; omega)
      (by rw [Index_arrow_absent dL hLm]; decide)
    rw [this, e8]
  have s1 : slice line (c2 + 1) sp = some (t0 :: T1) :=
    slice_eq line (df ++ ':' :: (dl ++ [':'])) (t0 :: T1) _ _ _ (by rw [← hline]; simp only [List.append_assoc, List.cons_append, List.nil_append]; rfl)
      (by simp [e1, e2]; omega) (by simp [e1, e2, e3]; omega)
  have s2 : slice line (sp + 1) a1 = some nm :=
    slice_eq line (df ++ ':' :: (dl ++ ':' :: (t0 :: T1 ++ [' ']))) nm _ _ _
      (by rw [← hline]; simp only [List.append_assoc, List.cons_append, List.nil_append]; rfl) (by simp [e1, e2, e3]; omega) (by simp [e1, e2, e3, e4]; omega)
  have s3 : sliceFrom line (ar + 2) = some (' ' :: m) :=
    sliceFrom_eq line (df ++ ':' :: (dl ++ ':' :: (t0 :: T1 ++ ' ' :: (nm ++ '(' :: (A ++ ')' ::
      ':' :: (dF ++ ':' :: (dL ++ [' ', '-', '>']))))))) (' ' :: m) _ (by rw [← hline]; simp only [List.append_assoc, List.cons_append, List.nil_append])
      (by simp [e1, e2, e3, e4, e5, e6, e7, e8]; omega)
  have s4 : sliceTo line c1 = some df :=
    sliceTo_eq line df _ _ (by rw [← hline]) e1
  have s5 : slice line (c1 + 1) c2 = some dl :=
    slice_eq line (df ++ [':']) dl _ _ _ (by rw [← hline]; simp only [List.append_assoc, List.cons_append, List.nil_append]; rfl) (by simp [e1])
      (by simp [e1, e2])
  have s6 : slice line (c3 + 1) c4 = some dF :=
    slice_eq line (df ++ ':' :: (dl ++ ':' :: (t0 :: T1 ++ ' ' :: (nm ++ '(' :: (A ++ [')', ':'])))))
      dF _ _ _ (by rw [← hline]; simp only [List.append_assoc, List.cons_append, List.nil_append]; rfl) (by simp [e1, e2, e3, e4, e5, e6]; omega)
      (by simp [e1, e2, e3, e4, e5, e6, e7]; omega)
  have s7 : slice line (c4 + 1) ar = some (dL ++ [' ']) :=
    slice_eq line (df ++ ':' :: (dl ++ ':' :: (t0 :: T1 ++ ' ' :: (nm ++ '(' :: (A ++ ')' :: ':' ::
      (dF ++ [':'])))))) (dL ++ [' ']) _ _ _ (by rw [← hline]; simp only [List.append_assoc, List.cons_append, List.nil_append]; rfl)
      (by simp [e1, e2, e3, e4, e5, e6, e7]; omega)
      (by simp [e1, e2, e3, e4, e5, e6, e7, e8]; omega)
  have s8 : slice line (a1 + 1) a2 = some A :=
    slice_eq line (df ++ ':' :: (dl ++ ':' :: (t0 :: T1 ++ ' ' :: (nm ++ ['('])))) A _ _ _
      (by rw [← hline]; simp only [List.append_assoc, List.cons_append, List.nil_append]; rfl) (by simp [e1, e2, e3, e4]; omega)
      (by simp [e1, e2, e3, e4, e5]; omega)
  have p1 : c1 ≥ 0 := by omega
  have p2 : c2 ≥ 0 := by omega
  have p3 : ¬ sp < 0 := by omega
  have p4 : a1 ≥ 0 := by omega
  have p5 : a2 ≥ 0 := by omega
  have p5n : ¬ a2 < 0 := by omega
  have p6 : c3 ≥ 0 := by omega
  have p7 : c4 ≥ 0 := by omega
  have p7p : c4 > 0 := by omega
  have p7n : ¬ c4 < 0 := by omega
  have p8 : ¬ ar < 0 := by omega
  have q1 : (t0 :: T1).length > 0 := by simp
  have q2 : n.length > 0 := List.length_pos.mpr hn0
  have q3 : m.length > 0 := List.length_pos.mpr hm0
  have l1 : leadingLineNumbers line c1 c2 = some (Except.ok ((digitsValue df : Int), (digitsValue dl : Int))) := by
    unfold leadingLineNumbers
    simp only [p2, if_true, s4, s5, Option.bind_eq_bind, Option.some_bind,
      Atoi_lineNumberText df hf, TrimSpace_of_noSpace dl (lineNumberText_spec dl hl).2.2.2.1,
      Atoi_digits dl (lineNumberText_spec dl hl).1 (lineNumberText_spec dl hl).2.1
        (lineNumberText_spec dl hl).2.2.1]
    rfl
  have l2 : trailingLineNumbers line c3 c4 ar (digitsValue df) (digitsValue dl) =
      some (Except.ok ((digitsValue dF : Int), (digitsValue dL : Int))) := by
    unfold trailingLineNumbers
    simp only [p6, p7p, p7n, if_true, if_false, s6, s7, Option.bind_eq_bind, Option.some_bind,
      Atoi_lineNumberText dF hF, Atoi_lineNumberText_space dL hL]
    rfl
  have j2 : IndexOfAfter line [':'] c1 = some c2 := by
    rw [IndexOfAfter_found _ _ _ p1, i2]
  have j5 : IndexOfAfter line [')'] a1 = some a2 := by
    rw [IndexOfAfter_found _ _ _ p4, i5]
  have j6 : IndexOfAfter line [':'] a2 = some c3 := by
    rw [IndexOfAfter_found _ _ _ p5, i6]
  have j7 : IndexOfAfter line [':'] c3 = some c4 := by
    rw [IndexOfAfter_found _ _ _ p6, i7]
  have hpm : processMember P st line c1 c2 c3 c4 a1 a2 ar cls2 (t0 :: T1) n cls m =
      some (P.ProcessMethodMapping st cls2 (digitsValue dF) (digitsValue dL) (t0 :: T1) n A cls
        (digitsValue df) (digitsValue dl) m, none) := by
    unfold processMember
    simp only [q1, q2, q3, and_self, if_true, p5n, if_false, l1, l2, s8, Option.bind_eq_bind,
      Option.some_bind, TrimSpace_of_noSpace A hAs]
    rfl
  unfold ProcessClassMemberMapping
  rw [i1, some_bind_eq, j2, some_bind_eq, i3, some_bind_eq]
  simp only []
  rw [i4, some_bind_eq, j5, some_bind_eq, j6, some_bind_eq, j7, some_bind_eq,
    assignIfFound_found _ _ p7, i8, some_bind_eq, if_neg (by omega), s1, some_bind_eq,
    assignIfFound_found _ _ p4, s2, some_bind_eq, s3, some_bind_eq]
  simp only [TrimSpace_of_noSpace _ hTs, TrimSpace_of_noSpace nm hnms,
    TrimSpace_space_left m hms]
  rcases hdot with ⟨hd, rfl, rfl⟩ | ⟨hd, hd1, hd2⟩
  · rw [if_neg (by omega)]
    exact hpm
  · rw [if_pos hd, hd1, some_bind_eq, hd2, some_bind_eq]
    exact hpm

end Retrace

namespace Retrace

open MappingReader

/-- The member line `f:l:T name(A) -> m`. -/
theorem member_numbered_plain {σ : Type} (P : MappingProcessor σ) (st : σ)
    (cls cls2 df dl T nm n A m : Str)
    (hf : lineNumberText df = true) (hl : lineNumberText dl = true)
    (hT : plain T = true) (hT0 : T ≠ []) (hnm : plain nm = true) (hn0 : n ≠ [])
    (hA : plain A = true) (hm : plain m = true) (hm0 : m ≠ [])
    (hdot : (LastIndex nm ['.'] < 0 ∧ cls2 = cls ∧ n = nm) ∨
      (LastIndex nm ['.'] ≥ 0 ∧ sliceTo nm (LastIndex nm ['.']) = some cls2 ∧
        sliceFrom nm (LastIndex nm ['.'] + 1) = some n)) :
    ProcessClassMemberMapping P st cls
        (df ++ ':' :: (dl ++ ':' :: (T ++ ' ' :: (nm ++ '(' :: (A ++ ')' ::
          ' ' :: '-' :: '>' :: ' ' :: m))))) =
      some (P.ProcessMethodMapping st cls2 (digitsValue df) (digitsValue dl) T n A cls
        (digitsValue df) (digitsValue dl) m, none) := by
  obtain ⟨_, _, _, _, hfc, _, _⟩ := lineNumberText_spec df hf
  obtain ⟨_, _, _, _, hlc, _, _⟩ := lineNumberText_spec dl hl
  obtain ⟨hTs, _, _, _, hTsp⟩ := plain_spec T hT
  obtain ⟨hnms, _, hnmo, _, _⟩ := plain_spec nm hnm
  obtain ⟨hAs, _, _, hAc, _⟩ := plain_spec A hA
  obtain ⟨hms, hmc, _, _, _⟩ := plain_spec m hm
  obtain ⟨t0, T1, rfl⟩ := List.exists_cons_of_ne_nil hT0
  have ht1 : ' ' ∉ T1 := fun h => hTsp (List.mem_cons_of_mem _ h)
  generalize hline : (df ++ ':' :: (dl ++ ':' :: ((t0 :: T1) ++ ' ' :: (nm ++ '(' :: (A ++ ')' ::
    ' ' :: '-' :: '>' :: ' ' :: m))))) = line
  obtain ⟨c1, e1⟩ : ∃ c1 : Int, c1 = df.length := ⟨_, rfl⟩
  obtain ⟨c2, e2⟩ : ∃ c2 : Int, c2 = c1 + 1 + dl.length := ⟨_, rfl⟩
  obtain ⟨sp, e3⟩ : ∃ sp : Int, sp = c2 + 2 + T1.length := ⟨_, rfl⟩
  obtain ⟨a1, e4⟩ : ∃ a1 : Int, a1 = sp + 1 + nm.length := ⟨_, rfl⟩
  obtain ⟨a2, e5⟩ : ∃ a2 : Int, a2 = a1 + 1 + A.length := ⟨_, rfl⟩
  obtain ⟨ar, e8⟩ : ∃ ar : Int, ar = a2 + 1 + 1 := ⟨_, rfl⟩
  have i1 : IndexOf line [':'] 0 = some c1 := by
    have := IndexOf_char_found line [] df _ ':' 0
      (by rw [← hline]; simp only [List.append_assoc, List.cons_append, List.nil_append]; rfl)
      (by simp) hfc
    rw [this, e1]; simp
  have i2 : IndexOf line [':'] (c1 + 1) = some c2 := by
    have := IndexOf_char_found line (df ++ [':']) dl _ ':' (c1 + 1)
      (by rw [← hline]; simp only [List.append_assoc, List.cons_append, List.nil_append]; rfl)
      (by simp [e1]) hlc
    rw [this, e2]
  have i3 : IndexOf line [' '] (c2 + 2) = some sp := by
    have := IndexOf_char_found line (df ++ ':' :: (dl ++ [':', t0])) T1 _ ' ' (c2 + 2)
      (by rw [← hline]; simp only [List.append_assoc, List.cons_append, List.nil_append]; rfl)
      (by simp [e1, e2]; omega) ht1
    rw [this, e3]
  have i4 : IndexOf line ['('] (sp + 1) = some a1 := by
    have := IndexOf_char_found line (df ++ ':' :: (dl ++ ':' :: (t0 :: T1 ++ [' ']))) nm _ '('
      (sp + 1)
      (by rw [← hline]; simp only [List.append_assoc, List.cons_append, List.nil_append]; rfl)
      (by simp [e1, e2, e3]; omega) hnmo
    rw [this, e4]
  have i5 : IndexOf line [')'] (a1 + 1) = some a2 := by
    have := IndexOf_char_found line
      (df ++ ':' :: (dl ++ ':' :: (t0 :: T1 ++ ' ' :: (nm ++ ['('])))) A _ ')' (a1 + 1)
      (by rw [← hline]; simp only [List.append_assoc, List.cons_append, List.nil_append]; rfl)
      (by simp [e1, e2, e3, e4]; omega) hAc
    rw [this, e5]
  have i6 : IndexOf line [':'] (a2 + 1) = some (-1) :=
    IndexOf_char_absent line
      (df ++ ':' :: (dl ++ ':' :: (t0 :: T1 ++ ' ' :: (nm ++ '(' :: (A ++ [')'])))))
      (' ' :: '-' :: '>' :: ' ' :: m) ':' (a2 + 1)
      (by rw [← hline]; simp only [List.append_assoc, List.cons_append, List.nil_append])
      (by simp [e1, e2, e3, e4, e5]; omega)
      (by
        intro h
        simp only [List.mem_cons] at h
        rcases h with h | h | h | h | h
        · exact absurd h (by decide)
        · exact absurd h (by decide)
        · exact absurd h (by decide)
        · exact absurd h (by decide)
        · exact hmc h)
  have i8 : IndexOf line ['-', '>'] (a2 + 1) = some ar := by
    have := IndexOf_arrow_found line
      (df ++ ':' :: (dl ++ ':' :: (t0 :: T1 ++ ' ' :: (nm ++ '(' :: (A ++ [')'])))))
      [] (' ' :: m) (a2 + 1)
      (by rw [← hline]; simp only [List.append_assoc, List.cons_append, List.nil_append])
      (by simp [e1, e2, e3, e4, e5]; omega) (by decide)
    rw [this, e8]; simp
  have s1 : slice line (c2 + 1) sp = some (t0 :: T1) :=
    slice_eq line (df ++ ':' :: (dl ++ [':'])) (t0 :: T1) _ _ _
      (by rw [← hline]; simp only [List.append_assoc, List.cons_append, List.nil_append]; rfl)
      (by simp [e1, e2]; omega) (by simp [e1, e2, e3]; omega)
  have s2 : slice line (sp + 1) a1 = some nm :=
    slice_eq line (df ++ ':' :: (dl ++ ':' :: (t0 :: T1 ++ [' ']))) nm _ _ _
      (by rw [← hline]; simp only [List.append_assoc, List.cons_append, List.nil_append]; rfl)
      (by simp [e1, e2, e3]; omega) (by simp [e1, e2, e3, e4]; omega)
  have s3 : sliceFrom line (ar + 2) = some (' ' :: m) :=
    sliceFrom_eq line (df ++ ':' :: (dl ++ ':' :: (t0 :: T1 ++ ' ' :: (nm ++ '(' :: (A ++
      [')', ' ', '-', '>']))))) (' ' :: m) _
      (by rw [← hline]; simp only [List.append_assoc, List.cons_append, List.nil_append])
      (by simp [e1, e2, e3, e4, e5, e8]; omega)
  have s4 : sliceTo line c1 = some df :=
    sliceTo_eq line df _ _ (by rw [← hline]) e1
  have s5 : slice line (c1 + 1) c2 = some dl :=
    slice_eq line (df ++ [':']) dl _ _ _
      (by rw [← hline]; simp only [List.append_assoc, List.cons_append, List.nil_append]; rfl)
      (by simp [e1]) (by simp [e1, e2])
  have s8 : slice line (a1 + 1) a2 = some A :=
    slice_eq line (df ++ ':' :: (dl ++ ':' :: (t0 :: T1 ++ ' ' :: (nm ++ ['('])))) A _ _ _
      (by rw [← hline]; simp only [List.append_assoc, List.cons_append, List.nil_append]; rfl)
      (by simp [e1, e2, e3, e4]; omega) (by simp [e1, e2, e3, e4, e5]; omega)
  have p1 : c1 ≥ 0 := by omega
  have p2 : c2 ≥ 0 := by omega
  have p4 : a1 ≥ 0 := by omega
  have p5 : a2 ≥ 0 := by omega
  have p5n : ¬ a2 < 0 := by omega
  have q1 : (t0 :: T1).length > 0 := by simp
  have q2 : n.length > 0 := List.length_pos.mpr hn0
  have q3 : m.length > 0 := List.length_pos.mpr hm0
  have l1 : leadingLineNumbers line c1 c2 =
      some (Except.ok ((digitsValue df : Int), (digitsValue dl : Int))) := by
    unfold leadingLineNumbers
    simp only [p2, if_true, s4, s5, Option.bind_eq_bind, Option.some_bind,
      Atoi_lineNumberText df hf, Atoi_lineNumberText dl hl]
    rfl
  have l2 : trailingLineNumbers line (-1) (-1) ar (digitsValue df) (digitsValue dl) =
      some (Except.ok ((digitsValue df : Int), (digitsValue dl : Int))) := by
    unfold trailingLineNumbers
    rw [if_neg (by decide)]
    rfl
  have j2 : IndexOfAfter line [':'] c1 = some c2 := by
    rw [IndexOfAfter_found _ _ _ p1, i2]
  have j5 : IndexOfAfter line [')'] a1 = some a2 := by
    rw [IndexOfAfter_found _ _ _ p4, i5]
  have j6 : IndexOfAfter line [':'] a2 = some (-1) := by
    rw [IndexOfAfter_found _ _ _ p5, i6]
  have j7 : IndexOfAfter line [':'] (-1) = some (-1) :=
    IndexOfAfter_missing _ _ _ (by decide)
  have hpm : processMember P st line c1 c2 (-1) (-1) a1 a2 ar cls2 (t0 :: T1) n cls m =
      some (P.ProcessMethodMapping st cls2 (digitsValue df) (digitsValue dl) (t0 :: T1) n A cls
        (digitsValue df) (digitsValue dl) m, none) := by
    unfold processMember
    simp only [q1, q2, q3, and_self, if_true, p5n, if_false, l1, l2, s8, Option.bind_eq_bind,
      Option.some_bind, TrimSpace_of_noSpace A hAs]
    rfl
  unfold ProcessClassMemberMapping
  rw [i1, some_bind_eq, j2, some_bind_eq, i3, some_bind_eq]
  simp only []
  rw [i4, some_bind_eq, j5, some_bind_eq, j6, some_bind_eq, j7, some_bind_eq,
    assignIfFound_missing _ _ (by decide : (-1 : Int) < 0),
    assignIfFound_missing _ _ (by decide : (-1 : Int) < 0), assignIfFound_found _ _ p5,
    i8, some_bind_eq, if_neg (by omega), s1, some_bind_eq,
    assignIfFound_found _ _ p4, s2, some_bind_eq, s3, some_bind_eq]
  simp only [TrimSpace_of_noSpace _ hTs, TrimSpace_of_noSpace nm hnms,
    TrimSpace_space_left m hms]
  rcases hdot with ⟨hd, rfl, rfl⟩ | ⟨hd, hd1, hd2⟩
  · rw [if_neg (by omega)]
    exact hpm
  · rw [if_pos hd, hd1, some_bind_eq, hd2, some_bind_eq]
    exact hpm

end Retrace

namespace Retrace

open MappingReader

theorem not_mem_arrow_tail (c : Char) (m : Str) (h1 : c ≠ ' ') (h2 : c ≠ '-') (h3 : c ≠ '>')
    (hm : c ∉ m) : c ∉ (' ' :: '-' :: '>' :: ' ' :: m) := by
  intro h
  simp only [List.mem_cons] at h
  rcases h with h | h | h | h | h
  · exact h1 h
  · exact h2 h
  · exact h3 h
  · exact h1 h
  · exact hm h

/-- The member line `f:l:T name(A):F -> m`. -/
theorem member_numbered_single {σ : Type} (P : MappingProcessor σ) (st : σ)
    (cls cls2 df dl dF T nm n A m : Str)
    (hf : lineNumberText df = true) (hl : lineNumberText dl = true)
    (hF : lineNumberText dF = true)
    (hT : plain T = true) (hT0 : T ≠ []) (hnm : plain nm = true) (hn0 : n ≠ [])
    (hA : plain A = true) (hm : plain m = true) (hm0 : m ≠ [])
    (hdot : (LastIndex nm ['.'] < 0 ∧ cls2 = cls ∧ n = nm) ∨
      (LastIndex nm ['.'] ≥ 0 ∧ sliceTo nm (LastIndex nm ['.']) = some cls2 ∧
        sliceFrom nm (LastIndex nm ['.'] + 1) = some n)) :
    ProcessClassMemberMapping P st cls
        (df ++ ':' :: (dl ++ ':' :: (T ++ ' ' :: (nm ++ '(' :: (A ++ ')' :: ':' ::
          (dF ++ ' ' :: '-' :: '>' :: ' ' :: m)))))) =
      some (P.ProcessMethodMapping st cls2 (digitsValue dF) (digitsValue dF) T n A cls
        (digitsValue df) (digitsValue dl) m, none) := by
  obtain ⟨_, _, _, _, hfc, _, _⟩ := lineNumberText_spec df hf
  obtain ⟨_, _, _, _, hlc, _, _⟩ := lineNumberText_spec dl hl
  obtain ⟨_, _, _, _, hFc, hFm, _⟩ := lineNumberText_spec dF hF
  obtain ⟨hTs, _, _, _, hTsp⟩ := plain_spec T hT
  obtain ⟨hnms, _, hnmo, _, _⟩ := plain_spec nm hnm
  obtain ⟨hAs, _, _, hAc, _⟩ := plain_spec A hA
  obtain ⟨hms, hmc, _, _, _⟩ := plain_spec m hm
  obtain ⟨t0, T1, rfl⟩ := List.exists_cons_of_ne_nil hT0
  have ht1 : ' ' ∉ T1 := fun h => hTsp (List.mem_cons_of_mem _ h)
  generalize hline : (df ++ ':' :: (dl ++ ':' :: ((t0 :: T1) ++ ' ' :: (nm ++ '(' :: (A ++ ')' ::
    ':' :: (dF ++ ' ' :: '-' :: '>' :: ' ' :: m)))))) = line
  obtain ⟨c1, e1⟩ : ∃ c1 : Int, c1 = df.length := ⟨_, rfl⟩
  obtain ⟨c2, e2⟩ : ∃ c2 : Int, c2 = c1 + 1 + dl.length := ⟨_, rfl⟩
  obtain ⟨sp, e3⟩ : ∃ sp : Int, sp = c2 + 2 + T1.length := ⟨_, rfl⟩
  obtain ⟨a1, e4⟩ : ∃ a1 : Int, a1 = sp + 1 + nm.length := ⟨_, rfl⟩
  obtain ⟨a2, e5⟩ : ∃ a2 : Int, a2 = a1 + 1 + A.length := ⟨_, rfl⟩
  obtain ⟨c3, e6⟩ : ∃ c3 : Int, c3 = a2 + 1 := ⟨_, rfl⟩
  obtain ⟨ar, e8⟩ : ∃ ar : Int, ar = c3 + 1 + dF.length + 1 := ⟨_, rfl⟩
  have i1 : IndexOf line [':'] 0 = some c1 := by
    have := IndexOf_char_found line [] df _ ':' 0
      (by rw [← hline]; simp only [List.append_assoc, List.cons_append, List.nil_append]; rfl)
      (by simp) hfc
    rw [this, e1]; simp
  have i2 : IndexOf line [':'] (c1 + 1) = some c2 := by
    have := IndexOf_char_found line (df ++ [':']) dl _ ':' (c1 + 1)
      (by rw [← hline]; simp only [List.append_assoc, List.cons_append, List.nil_append]; rfl)
      (by simp [e1]) hlc
    rw [this, e2]
  have i3 : IndexOf line [' '] (c2 + 2) = some sp := by
    have := IndexOf_char_found line (df ++ ':' :: (dl ++ [':', t0])) T1 _ ' ' (c2 + 2)
      (by rw [← hline]; simp only [List.append_assoc, List.cons_append, List.nil_append]; rfl)
      (by simp [e1, e2]; omega) ht1
    rw [this, e3]
  have i4 : IndexOf line ['('] (sp + 1) = some a1 := by
    have := IndexOf_char_found line (df ++ ':' :: (dl ++ ':' :: (t0 :: T1 ++ [' ']))) nm _ '('
      (sp + 1)
      (by rw [← hline]; simp only [List.append_assoc, List.cons_append, List.nil_append]; rfl)
      (by simp [e1, e2, e3]; omega) hnmo
    rw [this, e4]
  have i5 : IndexOf line [')'] (a1 + 1) = some a2 := by
    have := IndexOf_char_found line
      (df ++ ':' :: (dl ++ ':' :: (t0 :: T1 ++ ' ' :: (nm ++ ['('])))) A _ ')' (a1 + 1)
      (by rw [← hline]; simp only [List.append_assoc, List.cons_append, List.nil_append]; rfl)
      (by simp [e1, e2, e3, e4]; omega) hAc
    rw [this, e5]
  have i6 : IndexOf line [':'] (a2 + 1) = some c3 := by
    have := IndexOf_char_found line
      (df ++ ':' :: (dl ++ ':' :: (t0 :: T1 ++ ' ' :: (nm ++ '(' :: (A ++ [')']))))) [] _ ':'
      (a2 + 1)
      (by rw [← hline]; simp only [List.append_assoc, List.cons_append, List.nil_append]; rfl)
      (by simp [e1, e2, e3, e4, e5]; omega) (by simp)
    rw [this, e6]; simp
  have i7 : IndexOf line [':'] (c3 + 1) = some (-1) :=
    IndexOf_char_absent line
      (df ++ ':' :: (dl ++ ':' :: (t0 :: T1 ++ ' ' :: (nm ++ '(' :: (A ++ [')', ':'])))))
      (dF ++ ' ' :: '-' :: '>' :: ' ' :: m) ':' (c3 + 1)
      (by rw [← hline]; simp only [List.append_assoc, List.cons_append, List.nil_append])
      (by simp [e1, e2, e3, e4, e5, e6]; omega)
      (by
        intro h
        rcases List.mem_append.mp h with h | h
        · exact hFc h
        · exact not_mem_arrow_tail ':' m (by decide) (by decide) (by decide) hmc h)
  have i8 : IndexOf line ['-', '>'] (c3 + 1) = some ar := by
    have := IndexOf_arrow_found line
      (df ++ ':' :: (dl ++ ':' :: (t0 :: T1 ++ ' ' :: (nm ++ '(' :: (A ++ [')', ':'])))))
      dF (' ' :: m) (c3 + 1)
      (by rw [← hline]; simp only [List.append_assoc, List.cons_append, List.nil_append])
      (by simp [e1, e2, e3, e4, e5, e6]; omega)
      (by rw [Index_arrow_absent dF hFm]; decide)
    rw [this, e8]
  have s1 : slice line (c2 + 1) sp = some (t0 :: T1) :=
    slice_eq line (df ++ ':' :: (dl ++ [':'])) (t0 :: T1) _ _ _
      (by rw [← hline]; simp only [List.append_assoc, List.cons_append, List.nil_append]; rfl)
      (by simp [e1, e2]; omega) (by simp [e1, e2, e3]; omega)
  have s2 : slice line (sp + 1) a1 = some nm :=
    slice_eq line (df ++ ':' :: (dl ++ ':' :: (t0 :: T1 ++ [' ']))) nm _ _ _
      (by rw [← hline]; simp only [List.append_assoc, List.cons_append, List.nil_append]; rfl)
      (by simp [e1, e2, e3]; omega) (by simp [e1, e2, e3, e4]; omega)
  have s3 : sliceFrom line (ar + 2) = some (' ' :: m) :=
    sliceFrom_eq line (df ++ ':' :: (dl ++ ':' :: (t0 :: T1 ++ ' ' :: (nm ++ '(' :: (A ++ ')' ::
      ':' :: (dF ++ [' ', '-', '>'])))))) (' ' :: m) _
      (by rw [← hline]; simp only [List.append_assoc, List.cons_append, List.nil_append])
      (by simp [e1, e2, e3, e4, e5, e6, e8]; omega)
  have s4 : sliceTo line c1 = some df :=
    sliceTo_eq line df _ _ (by rw [← hline]) e1
  have s5 : slice line (c1 + 1) c2 = some dl :=
    slice_eq line (df ++ [':']) dl _ _ _
      (by rw [← hline]; simp only [List.append_assoc, List.cons_append, List.nil_append]; rfl)
      (by simp [e1]) (by simp [e1, e2])
  have s6 : slice line (c3 + 1) ar = some (dF ++ [' ']) :=
    slice_eq line (df ++ ':' :: (dl ++ ':' :: (t0 :: T1 ++ ' ' :: (nm ++ '(' :: (A ++
      [')', ':']))))) (dF ++ [' ']) _ _ _
      (by rw [← hline]; simp only [List.append_assoc, List.cons_append, List.nil_append]; rfl)
      (by simp [e1, e2, e3, e4, e5, e6]; omega)
      (by simp [e1, e2, e3, e4, e5, e6, e8]; omega)
  have s8 : slice line (a1 + 1) a2 = some A :=
    slice_eq line (df ++ ':' :: (dl ++ ':' :: (t0 :: T1 ++ ' ' :: (nm ++ ['('])))) A _ _ _
      (by rw [← hline]; simp only [List.append_assoc, List.cons_append, List.nil_append]; rfl)
      (by simp [e1, e2, e3, e4]; omega) (by simp [e1, e2, e3, e4, e5]; omega)
  have p1 : c1 ≥ 0 := by omega
  have p2 : c2 ≥ 0 := by omega
  have p4 : a1 ≥ 0 := by omega
  have p5 : a2 ≥ 0 := by omega
  have p5n : ¬ a2 < 0 := by omega
  have p6 : c3 ≥ 0 := by omega
  have q1 : (t0 :: T1).length > 0 := by simp
  have q2 : n.length > 0 := List.length_pos.mpr hn0
  have q3 : m.length > 0 := List.length_pos.mpr hm0
  have l1 : leadingLineNumbers line c1 c2 =
      some (Except.ok ((digitsValue df : Int), (digitsValue dl : Int))) := by
    unfold leadingLineNumbers
    simp only [p2, if_true, s4, s5, Option.bind_eq_bind, Option.some_bind,
      Atoi_lineNumberText df hf, Atoi_lineNumberText dl hl]
    rfl
  have l2 : trailingLineNumbers line c3 (-1) ar (digitsValue df) (digitsValue dl) =
      some (Except.ok ((digitsValue dF : Int), (digitsValue dF : Int))) := by
    unfold trailingLineNumbers
    rw [if_pos p6, if_neg (by decide)]
    simp only [s6, Option.bind_eq_bind, Option.some_bind, Atoi_lineNumberText_space dF hF]
    rw [if_pos (by decide)]
    rfl
  have j2 : IndexOfAfter line [':'] c1 = some c2 := by
    rw [IndexOfAfter_found _ _ _ p1, i2]
  have j5 : IndexOfAfter line [')'] a1 = some a2 := by
    rw [IndexOfAfter_found _ _ _ p4, i5]
  have j6 : IndexOfAfter line [':'] a2 = some c3 := by
    rw [IndexOfAfter_found _ _ _ p5, i6]
  have j7 : IndexOfAfter line [':'] c3 = some (-1) := by
    rw [IndexOfAfter_found _ _ _ p6, i7]
  have hpm : processMember P st line c1 c2 c3 (-1) a1 a2 ar cls2 (t0 :: T1) n cls m =
      some (P.ProcessMethodMapping st cls2 (digitsValue dF) (digitsValue dF) (t0 :: T1) n A cls
        (digitsValue df) (digitsValue dl) m, none) := by
    unfold processMember
    simp only [q1, q2, q3, and_self, if_true, p5n, if_false, l1, l2, s8, Option.bind_eq_bind,
      Option.some_bind, TrimSpace_of_noSpace A hAs]
    rfl
  unfold ProcessClassMemberMapping
  rw [i1, some_bind_eq, j2, some_bind_eq, i3, some_bind_eq]
  simp only []
  rw [i4, some_bind_eq, j5, some_bind_eq, j6, some_bind_eq, j7, some_bind_eq,
    assignIfFound_missing _ _ (by decide : (-1 : Int) < 0), assignIfFound_found _ _ p6,
    i8, some_bind_eq, if_neg (by omega), s1, some_bind_eq,
    assignIfFound_found _ _ p4, s2, some_bind_eq, s3, some_bind_eq]
  simp only [TrimSpace_of_noSpace _ hTs, TrimSpace_of_noSpace nm hnms,
    TrimSpace_space_left m hms]
  rcases hdot with ⟨hd, rfl, rfl⟩ | ⟨hd, hd1, hd2⟩
  · rw [if_neg (by omega)]
    exact hpm
  · rw [if_pos hd, hd1, some_bind_eq, hd2, some_bind_eq]
    exact hpm

/-- The member line `T name(A) -> m`. -/
theorem member_unnumbered {σ : Type} (P : MappingProcessor σ) (st : σ)
    (cls cls2 T nm n A m : Str)
    (hT : plain T = true) (hT0 : T ≠ []) (hnm : plain nm = true) (hn0 : n ≠ [])
    (hA : plain A = true) (hm : plain m = true) (hm0 : m ≠ [])
    (hdot : (LastIndex nm ['.'] < 0 ∧ cls2 = cls ∧ n = nm) ∨
      (LastIndex nm ['.'] ≥ 0 ∧ sliceTo nm (LastIndex nm ['.']) = some cls2 ∧
        sliceFrom nm (LastIndex nm ['.'] + 1) = some n)) :
    ProcessClassMemberMapping P st cls
        (T ++ ' ' :: (nm ++ '(' :: (A ++ ')' :: ' ' :: '-' :: '>' :: ' ' :: m))) =
      some (P.ProcessMethodMapping st cls2 0 0 T n A cls 0 0 m, none) := by
  obtain ⟨hTs, hTc, _, _, hTsp⟩ := plain_spec T hT
  obtain ⟨hnms, hnmc, hnmo, _, _⟩ := plain_spec nm hnm
  obtain ⟨hAs, hAcc, _, hAc, _⟩ := plain_spec A hA
  obtain ⟨hms, hmc, _, _, _⟩ := plain_spec m hm
  obtain ⟨t0, T1, rfl⟩ := List.exists_cons_of_ne_nil hT0
  have ht1 : ' ' ∉ T1 := fun h => hTsp (List.mem_cons_of_mem _ h)
  generalize hline : ((t0 :: T1) ++ ' ' :: (nm ++ '(' :: (A ++ ')' ::
    ' ' :: '-' :: '>' :: ' ' :: m))) = line
  obtain ⟨sp, e3⟩ : ∃ sp : Int, sp = 1 + T1.length := ⟨_, rfl⟩
  obtain ⟨a1, e4⟩ : ∃ a1 : Int, a1 = sp + 1 + nm.length := ⟨_, rfl⟩
  obtain ⟨a2, e5⟩ : ∃ a2 : Int, a2 = a1 + 1 + A.length := ⟨_, rfl⟩
  obtain ⟨ar, e8⟩ : ∃ ar : Int, ar = a2 + 1 + 1 := ⟨_, rfl⟩
  have hcolon : ':' ∉ line := by
    rw [← hline]
    intro h
    rcases List.mem_append.mp h with h | h
    · exact hTc h
    · rcases List.mem_cons.mp h with h | h
      · exact absurd h (by decide)
      · rcases List.mem_append.mp h with h | h
        · exact hnmc h
        · rcases List.mem_cons.mp h with h | h
          · exact absurd h (by decide)
          · rcases List.mem_append.mp h with h | h
            · exact hAcc h
            · rcases List.mem_cons.mp h with h | h
              · exact absurd h (by decide)
              · exact not_mem_arrow_tail ':' m (by decide) (by decide) (by decide) hmc h
  have i1 : IndexOf line [':'] 0 = some (-1) :=
    IndexOf_char_absent line [] line ':' 0 (by simp) (by simp) hcolon
  have i3 : IndexOf line [' '] (-1 + 2) = some sp := by
    have := IndexOf_char_found line [t0] T1 _ ' ' (-1 + 2)
      (by rw [← hline]; simp only [List.append_assoc, List.cons_append, List.nil_append]; rfl)
      (by simp) ht1
    rw [this, e3]; simp
  have i4 : IndexOf line ['('] (sp + 1) = some a1 := by
    have := IndexOf_char_found line (t0 :: T1 ++ [' ']) nm _ '(' (sp + 1)
      (by rw [← hline]; simp only [List.append_assoc, List.cons_append, List.nil_append]; rfl)
      (by simp [e3]; omega) hnmo
    rw [this, e4]
  have i5 : IndexOf line [')'] (a1 + 1) = some a2 := by
    have := IndexOf_char_found line (t0 :: T1 ++ ' ' :: (nm ++ ['('])) A _ ')' (a1 + 1)
      (by rw [← hline]; simp only [List.append_assoc, List.cons_append, List.nil_append]; rfl)
      (by simp [e3, e4]; omega) hAc
    rw [this, e5]
  have i6 : IndexOf line [':'] (a2 + 1) = some (-1) :=
    IndexOf_char_absent line (t0 :: T1 ++ ' ' :: (nm ++ '(' :: (A ++ [')'])))
      (' ' :: '-' :: '>' :: ' ' :: m) ':' (a2 + 1)
      (by rw [← hline]; simp only [List.append_assoc, List.cons_append, List.nil_append])
      (by simp [e3, e4, e5]; omega)
      (not_mem_arrow_tail ':' m (by decide) (by decide) (by decide) hmc)
  have i8 : IndexOf line ['-', '>'] (a2 + 1) = some ar := by
    have := IndexOf_arrow_found line (t0 :: T1 ++ ' ' :: (nm ++ '(' :: (A ++ [')'])))
      [] (' ' :: m) (a2 + 1)
      (by rw [← hline]; simp only [List.append_assoc, List.cons_append, List.nil_append])
      (by simp [e3, e4, e5]; omega) (by decide)
    rw [this, e8]; simp
  have s1 : slice line (-1 + 1) sp = some (t0 :: T1) :=
    slice_eq line [] (t0 :: T1) _ _ _
      (by rw [← hline]; simp only [List.append_assoc, List.cons_append, List.nil_append]; rfl)
      (by simp) (by simp [e3]; omega)
  have s2 : slice line (sp + 1) a1 = some nm :=
    slice_eq line (t0 :: T1 ++ [' ']) nm _ _ _
      (by rw [← hline]; simp only [List.append_assoc, List.cons_append, List.nil_append]; rfl)
      (by simp [e3]; omega) (by simp [e3, e4]; omega)
  have s3 : sliceFrom line (ar + 2) = some (' ' :: m) :=
    sliceFrom_eq line (t0 :: T1 ++ ' ' :: (nm ++ '(' :: (A ++ [')', ' ', '-', '>'])))
      (' ' :: m) _
      (by rw [← hline]; simp only [List.append_assoc, List.cons_append, List.nil_append])
      (by simp [e3, e4, e5, e8]; omega)
  have s8 : slice line (a1 + 1) a2 = some A :=
    slice_eq line (t0 :: T1 ++ ' ' :: (nm ++ ['('])) A _ _ _
      (by rw [← hline]; simp only [List.append_assoc, List.cons_append, List.nil_append]; rfl)
      (by simp [e3, e4]; omega) (by simp [e3, e4, e5]; omega)
  have p4 : a1 ≥ 0 := by omega
  have p5 : a2 ≥ 0 := by omega
  have p5n : ¬ a2 < 0 := by omega
  have q1 : (t0 :: T1).length > 0 := by simp
  have q2 : n.length > 0 := List.length_pos.mpr hn0
  have q3 : m.length > 0 := List.length_pos.mpr hm0
  have l1 : leadingLineNumbers line (-1) (-1) = some (Except.ok ((0 : Int), (0 : Int))) := by
    unfold leadingLineNumbers
    rw [if_neg (by decide)]
    rfl
  have l2 : trailingLineNumbers line (-1) (-1) ar 0 0 =
      some (Except.ok ((0 : Int), (0 : Int))) := by
    unfold trailingLineNumbers
    rw [if_neg (by decide)]
    rfl
  have j2 : IndexOfAfter line [':'] (-1) = some (-1) :=
    IndexOfAfter_missing _ _ _ (by decide)
  have j5 : IndexOfAfter line [')'] a1 = some a2 := by
    rw [IndexOfAfter_found _ _ _ p4, i5]
  have j6 : IndexOfAfter line [':'] a2 = some (-1) := by
    rw [IndexOfAfter_found _ _ _ p5, i6]
  have hpm : processMember P st line (-1) (-1) (-1) (-1) a1 a2 ar cls2 (t0 :: T1) n cls m =
      some (P.ProcessMethodMapping st cls2 0 0 (t0 :: T1) n A cls 0 0 m, none) := by
    unfold processMember
    simp only [q1, q2, q3, and_self, if_true, p5n, if_false, l1, l2, s8, Option.bind_eq_bind,
      Option.some_bind, TrimSpace_of_noSpace A hAs]
    rfl
  unfold ProcessClassMemberMapping
  rw [i1, some_bind_eq, j2, some_bind_eq, i3, some_bind_eq]
  simp only []
  rw [i4, some_bind_eq, j5, some_bind_eq, j6, some_bind_eq, j2, some_bind_eq,
    assignIfFound_missing _ _ (by decide : (-1 : Int) < 0),
    assignIfFound_missing _ _ (by decide : (-1 : Int) < 0), assignIfFound_found _ _ p5,
    i8, some_bind_eq, if_neg (by omega), s1, some_bind_eq,
    assignIfFound_found _ _ p4, s2, some_bind_eq, s3, some_bind_eq]
  simp only [TrimSpace_of_noSpace _ hTs, TrimSpace_of_noSpace nm hnms,
    TrimSpace_space_left m hms]
  rcases hdot with ⟨hd, rfl, rfl⟩ | ⟨hd, hd1, hd2⟩
  · rw [if_neg (by omega)]
    exact hpm
  · rw [if_pos hd, hd1, some_bind_eq, hd2, some_bind_eq]
    exact hpm

/-- The member line `T name -> m`. -/
theorem member_field {σ : Type} (P : MappingProcessor σ) (st : σ)
    (cls cls2 T nm n m : Str)
    (hT : plain T = true) (hT0 : T ≠ []) (hnm : plain nm = true) (hn0 : n ≠ [])
    (harrow : Index nm ['-', '>'] < 0) (hm : plain m = true) (hm0 : m ≠ [])
    (hdot : (LastIndex nm ['.'] < 0 ∧ cls2 = cls ∧ n = nm) ∨
      (LastIndex nm ['.'] ≥ 0 ∧ sliceTo nm (LastIndex nm ['.']) = some cls2 ∧
        sliceFrom nm (LastIndex nm ['.'] + 1) = some n)) :
    ProcessClassMemberMapping P st cls (T ++ ' ' :: (nm ++ ' ' :: '-' :: '>' :: ' ' :: m)) =
      some (P.ProcessFieldMapping st cls2 T n cls m, none) := by
  obtain ⟨hTs, hTc, _, _, hTsp⟩ := plain_spec T hT
  obtain ⟨hnms, hnmc, hnmo, _, _⟩ := plain_spec nm hnm
  obtain ⟨hms, hmc, hmo, _, _⟩ := plain_spec m hm
  obtain ⟨t0, T1, rfl⟩ := List.exists_cons_of_ne_nil hT0
  have ht1 : ' ' ∉ T1 := fun h => hTsp (List.mem_cons_of_mem _ h)
  generalize hline : ((t0 :: T1) ++ ' ' :: (nm ++ ' ' :: '-' :: '>' :: ' ' :: m)) = line
  obtain ⟨sp, e3⟩ : ∃ sp : Int, sp = 1 + T1.length := ⟨_, rfl⟩
  obtain ⟨ar, e8⟩ : ∃ ar : Int, ar = sp + 1 + nm.length + 1 := ⟨_, rfl⟩
  have hcolon : ':' ∉ line := by
    rw [← hline]
    intro h
    rcases List.mem_append.mp h with h | h
    · exact hTc h
    · rcases List.mem_cons.mp h with h | h
      · exact absurd h (by decide)
      · rcases List.mem_append.mp h with h | h
        · exact hnmc h
        · exact not_mem_arrow_tail ':' m (by decide) (by decide) (by decide) hmc h
  have i1 : IndexOf line [':'] 0 = some (-1) :=
    IndexOf_char_absent line [] line ':' 0 (by simp) (by simp) hcolon
  have i3 : IndexOf line [' '] (-1 + 2) = some sp := by
    have := IndexOf_char_found line [t0] T1 _ ' ' (-1 + 2)
      (by rw [← hline]; simp only [List.append_assoc, List.cons_append, List.nil_append]; rfl)
      (by simp) ht1
    rw [this, e3]; simp
  have i4 : IndexOf line ['('] (sp + 1) = some (-1) :=
    IndexOf_char_absent line (t0 :: T1 ++ [' ']) (nm ++ ' ' :: '-' :: '>' :: ' ' :: m) '('
      (sp + 1)
      (by rw [← hline]; simp only [List.append_assoc, List.cons_append, List.nil_append])
      (by simp [e3]; omega)
      (by
        intro h
        rcases List.mem_append.mp h with h | h
        · exact hnmo h
        · exact not_mem_arrow_tail '(' m (by decide) (by decide) (by decide) hmo h)
  have i8 : IndexOf line ['-', '>'] (sp + 1) = some ar := by
    have := IndexOf_arrow_found line (t0 :: T1 ++ [' ']) nm (' ' :: m) (sp + 1)
      (by rw [← hline]; simp only [List.append_assoc, List.cons_append, List.nil_append])
      (by simp [e3]; omega) harrow
    rw [this, e8]
  have s1 : slice line (-1 + 1) sp = some (t0 :: T1) :=
    slice_eq line [] (t0 :: T1) _ _ _
      (by rw [← hline]; simp only [List.append_assoc, List.cons_append, List.nil_append]; rfl)
      (by simp) (by simp [e3]; omega)
  have s2 : slice line (sp + 1) ar = some (nm ++ [' ']) :=
    slice_eq line (t0 :: T1 ++ [' ']) (nm ++ [' ']) _ _ _
      (by rw [← hline]; simp only [List.append_assoc, List.cons_append, List.nil_append]; rfl)
      (by simp [e3]; omega) (by simp [e3, e8]; omega)
  have s3 : sliceFrom line (ar + 2) = some (' ' :: m) :=
    sliceFrom_eq line (t0 :: T1 ++ ' ' :: (nm ++ [' ', '-', '>'])) (' ' :: m) _
      (by rw [← hline]; simp only [List.append_assoc, List.cons_append, List.nil_append])
      (by simp [e3, e8]; omega)
  have q1 : (t0 :: T1).length > 0 := by simp
  have q2 : n.length > 0 := List.length_pos.mpr hn0
  have q3 : m.length > 0 := List.length_pos.mpr hm0
  have j2 : IndexOfAfter line [':'] (-1) = some (-1) :=
    IndexOfAfter_missing _ _ _ (by decide)
  have j5 : IndexOfAfter line [')'] (-1) = some (-1) :=
    IndexOfAfter_missing _ _ _ (by decide)
  have hpm : processMember P st line (-1) (-1) (-1) (-1) (-1) (-1) ar cls2 (t0 :: T1) n cls m =
      some (P.ProcessFieldMapping st cls2 (t0 :: T1) n cls m, none) := by
    unfold processMember
    simp only [q1, q2, q3, and_self, if_true]
    rw [if_pos (by decide)]
    rfl
  have hsp : ¬ (sp < 0 ∨ ar < 0) := by omega
  unfold ProcessClassMemberMapping
  rw [i1, some_bind_eq, j2, some_bind_eq, i3, some_bind_eq]
  simp only []
  rw [i4, some_bind_eq, j5, some_bind_eq, j2, some_bind_eq, j2, some_bind_eq,
    assignIfFound_missing _ _ (by decide : (-1 : Int) < 0),
    assignIfFound_missing _ _ (by decide : (-1 : Int) < 0),
    assignIfFound_missing _ _ (by decide : (-1 : Int) < 0),
    i8, some_bind_eq, if_neg hsp, s1, some_bind_eq,
    assignIfFound_missing _ _ (by decide : (-1 : Int) < 0), s2, some_bind_eq, s3, some_bind_eq]
  simp only [TrimSpace_of_noSpace _ hTs, TrimSpace_space_right nm hnms,
    TrimSpace_space_left m hms]
  rcases hdot with ⟨hd, rfl, rfl⟩ | ⟨hd, hd1, hd2⟩
  · rw [if_neg (by omega)]
    exact hpm
  · rw [if_pos hd, hd1, some_bind_eq, hd2, some_bind_eq]
    exact hpm

end Retrace

namespace Retrace

open MappingReader

theorem dot_absent (cls n : Str) (h : '.' ∉ n) :
    (LastIndex n ['.'] < 0 ∧ cls = cls ∧ n = n) ∨
      (LastIndex n ['.'] ≥ 0 ∧ sliceTo n (LastIndex n ['.']) = some cls ∧
        sliceFrom n (LastIndex n ['.'] + 1) = some n) := by
  left
  rw [LastIndex_char_absent n '.' h]
  exact ⟨by decide, rfl, rfl⟩

theorem dot_present (cls q n : Str) (h : '.' ∉ n) :
    (LastIndex (q ++ '.' :: n) ['.'] < 0 ∧ q = cls ∧ n = q ++ '.' :: n) ∨
      (LastIndex (q ++ '.' :: n) ['.'] ≥ 0 ∧
        sliceTo (q ++ '.' :: n) (LastIndex (q ++ '.' :: n) ['.']) = some q ∧
        sliceFrom (q ++ '.' :: n) (LastIndex (q ++ '.' :: n) ['.'] + 1) = some n) := by
  right
  rw [LastIndex_char_found q n '.' h]
  refine ⟨by omega, sliceTo_eq _ q ('.' :: n) _ rfl rfl, ?_⟩
  exact sliceFrom_eq _ (q ++ ['.']) n _ (by simp) (by simp)

/-- C6: for every class name `cls`, every processor and state, line numbers
`f`, `l`, `F`, `L` written in decimal, and texts `T`, `n`, `A`, `m` free of white
space, colons and parentheses (`T`, `n`, `m` not empty, `n` without a dot),
`ProcessClassMemberMapping(cls, "f:l:T n(A):F:L -> m")` returns no error and
makes exactly the call
`ProcessMethodMapping(cls, F, L, T, n, A, cls, f, l, m)`: the trailing pair is
the original range, the leading pair the obfuscated range. For the recording
processor the calls received are the earlier ones followed by this one call. -/
theorem C6_method_line_with_both_ranges {σ : Type} (P : MappingProcessor σ) (st : σ)
    (calls : List Call) (cls df dl dF dL T n A m : Str)
    (hf : lineNumberText df = true) (hl : lineNumberText dl = true)
    (hF : lineNumberText dF = true) (hL : lineNumberText dL = true)
    (hT : plain T = true) (hT0 : T ≠ []) (hn : plain n = true) (hn0 : n ≠ [])
    (hdot : '.' ∉ n) (hA : plain A = true) (hm : plain m = true) (hm0 : m ≠ []) :
    ProcessClassMemberMapping P st cls
        (df ++ [':'] ++ dl ++ [':'] ++ T ++ [' '] ++ n ++ ['('] ++ A ++ [')', ':'] ++ dF ++ [':'] ++
          dL ++ [' ', '-', '>', ' '] ++ m) =
      some (P.ProcessMethodMapping st cls (digitsValue dF) (digitsValue dL) T n A cls
        (digitsValue df) (digitsValue dl) m, none) ∧
    ProcessClassMemberMapping recorder calls cls
        (df ++ [':'] ++ dl ++ [':'] ++ T ++ [' '] ++ n ++ ['('] ++ A ++ [')', ':'] ++ dF ++ [':'] ++
          dL ++ [' ', '-', '>', ' '] ++ m) =
      some (calls ++ [Call.methodMapping cls (digitsValue dF) (digitsValue dL) T n A cls
        (digitsValue df) (digitsValue dl) m], none) := by
  simp only [List.append_assoc, List.cons_append, List.nil_append]
  exact ⟨member_full P st cls cls df dl dF dL T n n A m hf hl hF hL hT hT0 hn hn0 hA hm hm0
      (dot_absent cls n hdot),
    member_full recorder calls cls cls df dl dF dL T n n A m hf hl hF hL hT hT0 hn hn0 hA hm hm0
      (dot_absent cls n hdot)⟩

/-- Witness of C6: the line `1:3:void foo():10:12 -> a` under the class `Orig`. -/
theorem C6_method_line_with_both_ranges_witness :
    ProcessClassMemberMapping recorder [] "Orig".toList "1:3:void foo():10:12 -> a".toList =
      some ([Call.methodMapping "Orig".toList 10 12 "void".toList "foo".toList [] "Orig".toList
        1 3 "a".toList], none) :=
  (C6_method_line_with_both_ranges recorder [] [] "Orig".toList "1".toList "3".toList
    "10".toList "12".toList "void".toList "foo".toList [] "a".toList
    (by decide) (by decide) (by decide) (by decide) (by decide) (by decide) (by decide)
    (by decide) (by decide) (by decide) (by decide) (by decide)).2

end Retrace

namespace Retrace

open MappingReader

/-- C7: the defaults of the line numbers of a method line, for every class
name `cls`, decimal line numbers `f`, `l`, `F` and texts `T`, `n`, `A`, `m` free
of white space, colons and parentheses (`T`, `n`, `m` not empty, `n` without a
dot). `f:l:T n(A) -> m` gives the original range `f`, `l` and the obfuscated
range `f`, `l`; `f:l:T n(A):F -> m` gives the original range `F`, `F` and the
obfuscated range `f`, `l`; `T n(A) -> m` gives 0 for all four. Each line makes
this one call and returns no error. -/
theorem C7_method_line_number_defaults (calls : List Call) (cls df dl dF T n A m : Str)
    (hf : lineNumberText df = true) (hl : lineNumberText dl = true)
    (hF : lineNumberText dF = true)
    (hT : plain T = true) (hT0 : T ≠ []) (hn : plain n = true) (hn0 : n ≠ [])
    (hdot : '.' ∉ n) (hA : plain A = true) (hm : plain m = true) (hm0 : m ≠ []) :
    ProcessClassMemberMapping recorder calls cls
        (df ++ [':'] ++ dl ++ [':'] ++ T ++ [' '] ++ n ++ ['('] ++ A ++ [')'] ++
          [' ', '-', '>', ' '] ++ m) =
      some (calls ++ [Call.methodMapping cls (digitsValue df) (digitsValue dl) T n A cls
        (digitsValue df) (digitsValue dl) m], none) ∧
    ProcessClassMemberMapping recorder calls cls
        (df ++ [':'] ++ dl ++ [':'] ++ T ++ [' '] ++ n ++ ['('] ++ A ++ [')', ':'] ++ dF ++
          [' ', '-', '>', ' '] ++ m) =
      some (calls ++ [Call.methodMapping cls (digitsValue dF) (digitsValue dF) T n A cls
        (digitsValue df) (digitsValue dl) m], none) ∧
    ProcessClassMemberMapping recorder calls cls
        (T ++ [' '] ++ n ++ ['('] ++ A ++ [')'] ++ [' ', '-', '>', ' '] ++ m) =
      some (calls ++ [Call.methodMapping cls 0 0 T n A cls 0 0 m], none) := by
  simp only [List.append_assoc, List.cons_append, List.nil_append]
  exact ⟨member_numbered_plain recorder calls cls cls df dl T n n A m hf hl hT hT0 hn hn0 hA hm
      hm0 (dot_absent cls n hdot),
    member_numbered_single recorder calls cls cls df dl dF T n n A m hf hl hF hT hT0 hn hn0 hA hm
      hm0 (dot_absent cls n hdot),
    member_unnumbered recorder calls cls cls T n n A m hT hT0 hn hn0 hA hm hm0
      (dot_absent cls n hdot)⟩

/-- Witness of C7: the lines `2:2:void execute(java.lang.Runnable) -> b`,
`2:2:void execute(java.lang.Runnable):45 -> b` and
`void execute(java.lang.Runnable) -> b` under the class `a.B`. -/
theorem C7_method_line_number_defaults_witness :
    ProcessClassMemberMapping recorder [] "a.B".toList
        "2:2:void execute(java.lang.Runnable) -> b".toList =
      some ([Call.methodMapping "a.B".toList 2 2 "void".toList "execute".toList
        "java.lang.Runnable".toList "a.B".toList 2 2 "b".toList], none) ∧
    ProcessClassMemberMapping recorder [] "a.B".toList
        "2:2:void execute(java.lang.Runnable):45 -> b".toList =
      some ([Call.methodMapping "a.B".toList 45 45 "void".toList "execute".toList
        "java.lang.Runnable".toList "a.B".toList 2 2 "b".toList], none) ∧
    ProcessClassMemberMapping recorder [] "a.B".toList
        "void execute(java.lang.Runnable) -> b".toList =
      some ([Call.methodMapping "a.B".toList 0 0 "void".toList "execute".toList
        "java.lang.Runnable".toList "a.B".toList 0 0 "b".toList], none) :=
  C7_method_line_number_defaults [] "a.B".toList "2".toList "2".toList "45".toList
    "void".toList "execute".toList "java.lang.Runnable".toList "b".toList
    (by decide) (by decide) (by decide) (by decide) (by decide) (by decide) (by decide)
    (by decide) (by decide) (by decide) (by decide)

/-- C8: for every class name `cls`, every processor and state, and texts `T`,
`n`, `m` that are not empty and free of white space, colons, parentheses and
`->` (`n` without a dot), `ProcessClassMemberMapping(cls, "T n -> m")` returns
no error and makes exactly the call `ProcessFieldMapping(cls, T, n, cls, m)`;
the recording processor receives this one call and no method mapping. Of the
three texts only `n` has to be free of `->` for this. -/
theorem C8_field_line {σ : Type} (P : MappingProcessor σ) (st : σ) (calls : List Call)
    (cls T n m : Str)
    (hT : plain T = true) (hT0 : T ≠ [])
    (hn : plain n = true) (hn0 : n ≠ []) (hna : Index n ['-', '>'] < 0) (hdot : '.' ∉ n)
    (hm : plain m = true) (hm0 : m ≠ []) :
    ProcessClassMemberMapping P st cls (T ++ [' '] ++ n ++ [' ', '-', '>', ' '] ++ m) =
      some (P.ProcessFieldMapping st cls T n cls m, none) ∧
    ProcessClassMemberMapping recorder calls cls (T ++ [' '] ++ n ++ [' ', '-', '>', ' '] ++ m) =
      some (calls ++ [Call.fieldMapping cls T n cls m], none) := by
  simp only [List.append_assoc, List.cons_append, List.nil_append]
  exact ⟨member_field P st cls cls T n n m hT hT0 hn hn0 hna hm hm0 (dot_absent cls n hdot),
    member_field recorder calls cls cls T n n m hT hT0 hn hn0 hna hm hm0 (dot_absent cls n hdot)⟩

/-- Witness of C8: the line `java.util.HashMap mHashMap -> ze` under the class
`c.A`. -/
theorem C8_field_line_witness :
    ProcessClassMemberMapping recorder [] "c.A".toList
        "java.util.HashMap mHashMap -> ze".toList =
      some ([Call.fieldMapping "c.A".toList "java.util.HashMap".toList
        "mHashMap".toList "c.A".toList "ze".toList], none) :=
  (C8_field_line recorder [] [] "c.A".toList "java.util.HashMap".toList
    "mHashMap".toList "ze".toList
    (by decide) (by decide) (by decide) (by decide) (by decide) (by decide) (by decide)
    (by decide)).2

end Retrace

namespace Retrace

open FrameRemapper

theorem LastIndex_bounds (s substr : Str) :
    LastIndex s substr = -1 ∨
      (0 ≤ LastIndex s substr ∧ LastIndex s substr + substr.length ≤ s.length) := by
  induction s with
  | nil =>
    unfold LastIndex
    by_cases h : substr = []
    · simp [h]
    · simp [h]
  | cons c cs ih =>
    unfold LastIndex
    rcases ih with h | ⟨h0, h1⟩
    · have hn : ¬ (0 : Int) ≤ LastIndex cs substr := by rw [h]; decide
      simp only [hn, if_false]
      by_cases hp : substr.isPrefixOf (c :: cs) = true
      · right
        have hl : substr.length ≤ (c :: cs).length :=
          (List.isPrefixOf_iff_prefix.mp hp).length_le
        have : (substr.length : Int) ≤ ((c :: cs).length : Nat) := by exact_mod_cast hl
        simp only [hp, if_true]
        constructor
        · omega
        · simpa using this
      · left
        simp [hp]
    · right
      simp only [h0, if_true, List.length_cons, Nat.cast_add, Nat.cast_one]
      omega

theorem slice_isSome (s : Str) (lo hi : Int) (h : 0 ≤ lo ∧ lo ≤ hi ∧ hi ≤ s.length) :
    ∃ t, slice s lo hi = some t := by
  unfold slice
  rw [if_pos h]
  exact ⟨_, rfl⟩

theorem sliceFrom_isSome (s : Str) (lo : Int) (h : 0 ≤ lo ∧ lo ≤ s.length) :
    ∃ t, sliceFrom s lo = some t ∧ (t.length : Int) = s.length - lo := by
  unfold sliceFrom slice
  rw [if_pos ⟨h.1, h.2, le_refl _⟩]
  refine ⟨_, rfl, ?_⟩
  simp only [Int.toNat_ofNat, List.length_take, List.length_drop]
  omega

/-- A search from a position inside the string does not fail, and what it
finds lies between the position and the end of the string. -/
theorem IndexOf_bounds (s subStr : Str) (p : Int) (h : 0 ≤ p ∧ p ≤ s.length) :
    ∃ i, IndexOf s subStr p = some i ∧ (i = -1 ∨ (p ≤ i ∧ i + subStr.length ≤ s.length)) := by
  obtain ⟨t, ht, hlen⟩ := sliceFrom_isSome s p h
  unfold IndexOf
  rw [ht]
  simp only [Option.bind_eq_bind, Option.some_bind]
  rcases Index_bounds t subStr with hi | ⟨h0, h1⟩
  · refine ⟨-1, ?_, Or.inl rfl⟩
    rw [hi]
    rfl
  · refine ⟨p + Index t subStr, ?_, Or.inr ⟨by omega, by omega⟩⟩
    have : ¬ Index t subStr < 0 := by omega
    rw [if_neg this]
    rfl

theorem getSourceFileName_isSome (className : Str) :
    ∃ s, getSourceFileName className = some s := by
  unfold getSourceFileName
  by_cases h0 : className.length = 0
  · rw [if_pos h0]
    exact ⟨_, rfl⟩
  · rw [if_neg h0]
    have hb : 0 ≤ LastIndex className ['.'] + 1 ∧
        LastIndex className ['.'] + 1 ≤ className.length := by
      rcases LastIndex_bounds className ['.'] with h | ⟨h1, h2⟩
      · rw [h]
        constructor
        · decide
        · omega
      · simp only [List.length_singleton, Nat.cast_one] at h2
        omega
    obtain ⟨i, hi, hr⟩ := IndexOf_bounds className ['$'] _ hb
    simp only [hi, Option.bind_eq_bind, Option.some_bind]
    by_cases hpos : i > 0
    · rw [if_pos hpos]
      rcases hr with hr | ⟨hr1, hr2⟩
      · omega
      · simp only [List.length_singleton, Nat.cast_one] at hr2
        exact slice_isSome _ _ _ ⟨hb.1, hr1, by omega⟩
    · rw [if_neg hpos]
      obtain ⟨t, ht, _⟩ := sliceFrom_isSome className _ hb
      simp only [ht, Option.bind_eq_bind, Option.some_bind]
      exact ⟨_, rfl⟩

theorem getSourceFileName_eq (className : Str) :
    getSourceFileName className = some (sourceFileName className) := by
  obtain ⟨s, hs⟩ := getSourceFileName_isSome className
  unfold sourceFileName
  rw [hs]
  rfl

theorem getOriginalType_isSome (remapper : FrameRemapper) (obfuscatedType : Str) :
    ∃ s, remapper.getOriginalType obfuscatedType = some s := by
  unfold getOriginalType
  by_cases h : Index obfuscatedType ['['] ≥ 0
  · obtain ⟨a, ha⟩ := slice_isSome obfuscatedType 0 (Index obfuscatedType ['['])
      ⟨le_refl _, h, Index_le_length _ _⟩
    obtain ⟨b, hb, _⟩ := sliceFrom_isSome obfuscatedType (Index obfuscatedType ['['])
      ⟨h, Index_le_length _ _⟩
    simp only [h, if_true, ha, hb, Option.bind_eq_bind, Option.some_bind]
    exact ⟨_, rfl⟩
  · simp only [h, if_false]
    exact ⟨_, rfl⟩

theorem getOriginalType_eq (remapper : FrameRemapper) (obfuscatedType : Str) :
    remapper.getOriginalType obfuscatedType = some (originalType remapper obfuscatedType) := by
  obtain ⟨s, hs⟩ := getOriginalType_isSome remapper obfuscatedType
  unfold originalType
  rw [hs]
  rfl

theorem mapM_getOriginalType_isSome (remapper : FrameRemapper) (tokens : List Str) :
    ∃ l, tokens.mapM (fun token => remapper.getOriginalType (TrimSpace token)) = some l := by
  induction tokens with
  | nil => exact ⟨[], rfl⟩
  | cons a t ih =>
    obtain ⟨l, hl⟩ := ih
    obtain ⟨x, hx⟩ := getOriginalType_isSome remapper (TrimSpace a)
    refine ⟨x :: l, ?_⟩
    rw [List.mapM_cons, hx, hl]
    rfl

theorem getOriginalArguments_isSome (remapper : FrameRemapper) (obfuscatedArguments : Str) :
    ∃ s, remapper.getOriginalArguments obfuscatedArguments = some s := by
  unfold getOriginalArguments
  obtain ⟨l, hl⟩ := mapM_getOriginalType_isSome remapper (Split obfuscatedArguments [','])
  by_cases h : (Split obfuscatedArguments [',']).length < 1
  · simp only [h, if_true]
    exact ⟨_, rfl⟩
  · simp only [h, if_false, hl, Option.bind_eq_bind, Option.some_bind]
    exact ⟨_, rfl⟩

theorem getOriginalArguments_eq (remapper : FrameRemapper) (obfuscatedArguments : Str) :
    remapper.getOriginalArguments obfuscatedArguments =
      some (originalArguments remapper obfuscatedArguments) := by
  obtain ⟨s, hs⟩ := getOriginalArguments_isSome remapper obfuscatedArguments
  unfold originalArguments
  rw [hs]
  rfl

theorem originalType_nil (remapper : FrameRemapper) :
    originalType remapper [] = remapper.GetOriginalClassName [] := by
  unfold originalType getOriginalType
  rfl

theorem originalArguments_nil (remapper : FrameRemapper) :
    originalArguments remapper [] = remapper.GetOriginalClassName [] := by
  unfold originalArguments getOriginalArguments
  have h1 : Split [] [','] = [[]] := by decide
  have h2 : TrimSpace [] = [] := by decide
  have h3 : remapper.getOriginalType [] = some (remapper.GetOriginalClassName []) := rfl
  rw [h1]
  simp only [List.length_singleton, Nat.lt_irrefl, if_false, List.mapM_cons, h2, h3,
    Option.bind_eq_bind, Option.some_bind, List.mapM_nil, Option.pure_def, Option.getD_some]
  simp [Join, List.intercalate, List.intersperse]

end Retrace

namespace Retrace

open FrameRemapper

theorem foldlM_fieldStep (obfuscatedFrame : FrameInfo) (ty : Str) (items : List FieldInfo)
    (acc : List FrameInfo) :
    items.foldlM (fieldStep obfuscatedFrame ty) acc =
      some (acc ++ (items.filter (fun i => i.Matches ty)).map (fieldCandidate obfuscatedFrame)) := by
  induction items generalizing acc with
  | nil => simp
  | cons a t ih =>
    rw [List.foldlM_cons]
    by_cases hm : a.Matches ty = true
    · have hs : fieldStep obfuscatedFrame ty acc a =
          some (acc ++ [fieldCandidate obfuscatedFrame a]) := by
        unfold fieldStep
        simp only [hm, Bool.not_true, Bool.false_eq_true, if_false, getSourceFileName_eq,
          Option.bind_eq_bind, Option.some_bind]
        rfl
      rw [hs]
      simp only [Option.bind_eq_bind, Option.some_bind, ih, List.filter_cons, hm, if_true,
        List.map_cons, List.append_assoc, List.singleton_append]
    · have hs : fieldStep obfuscatedFrame ty acc a = some acc := by
        unfold fieldStep
        simp only [hm, Bool.not_false, if_true]
        rfl
      rw [hs]
      simp only [Option.bind_eq_bind, Option.some_bind, ih, List.filter_cons, hm,
        Bool.false_eq_true, if_false]

theorem foldlM_methodStep (obfuscatedFrame : FrameInfo) (ty args : Str)
    (items : List MethodInfo) (acc : List FrameInfo) :
    items.foldlM (methodStep obfuscatedFrame ty args) acc =
      some (acc ++ (items.filter
        (fun i => i.Matches obfuscatedFrame.LineNumber ty args)).map
          (methodCandidate obfuscatedFrame)) := by
  induction items generalizing acc with
  | nil => simp
  | cons a t ih =>
    rw [List.foldlM_cons]
    by_cases hm : a.Matches obfuscatedFrame.LineNumber ty args = true
    · have hs : methodStep obfuscatedFrame ty args acc a =
          some (acc ++ [methodCandidate obfuscatedFrame a]) := by
        unfold methodStep
        simp only [hm, Bool.not_true, Bool.false_eq_true, if_false, getSourceFileName_eq,
          Option.bind_eq_bind, Option.some_bind]
        rfl
      rw [hs]
      simp only [Option.bind_eq_bind, Option.some_bind, ih, List.filter_cons, hm, if_true,
        List.map_cons, List.append_assoc, List.singleton_append]
    · have hs : methodStep obfuscatedFrame ty args acc a = some acc := by
        unfold methodStep
        simp only [hm, Bool.not_false, if_true]
        rfl
      rw [hs]
      simp only [Option.bind_eq_bind, Option.some_bind, ih, List.filter_cons, hm,
        Bool.false_eq_true, if_false]

theorem Values_nil (order : ValuesOrder) : order.Values [] = [] :=
  List.perm_nil.mp (order.perm [])

theorem transformFieldInfo_eq (order : ValuesOrder) (remapper : FrameRemapper)
    (obfuscatedFrame : FrameInfo) (acc : List FrameInfo) :
    remapper.transformFieldInfo order obfuscatedFrame
        (remapper.GetOriginalClassName obfuscatedFrame.ClassName) acc =
      some (acc ++ fieldCandidates order remapper obfuscatedFrame) := by
  unfold transformFieldInfo fieldCandidates storedFields
  cases h1 : remapper.ClassFieldMap (remapper.GetOriginalClassName obfuscatedFrame.ClassName) with
  | none => simp [Values_nil]
  | some fieldMap =>
    cases h2 : fieldMap obfuscatedFrame.FieldName with
    | none => simp [h2, Values_nil]
    | some fieldSet =>
      simp only [h2, getOriginalType_eq, Option.bind_eq_bind, Option.some_bind, foldlM_fieldStep,
        Option.getD_some]

theorem transformMethodInfo_eq (remapper : FrameRemapper)
    (obfuscatedFrame : FrameInfo) (acc : List FrameInfo) :
    remapper.transformMethodInfo obfuscatedFrame
        (remapper.GetOriginalClassName obfuscatedFrame.ClassName) acc =
      some (acc ++ methodCandidates remapper obfuscatedFrame) := by
  unfold transformMethodInfo methodCandidates storedMethods
  cases h1 : remapper.ClassMethodMap (remapper.GetOriginalClassName obfuscatedFrame.ClassName) with
  | none => simp
  | some methodMap =>
    cases h2 : methodMap obfuscatedFrame.MethodName with
    | none => simp [h2]
    | some methodSet =>
      simp only [h2, getOriginalType_eq, getOriginalArguments_eq, Option.bind_eq_bind,
        Option.some_bind, foldlM_methodStep, Option.getD_some]

/-- `Transform` never fails; it returns the field frames followed by the method
frames, or the one passthrough frame when there is neither. -/
theorem Transform_eq (order : ValuesOrder) (remapper : FrameRemapper)
    (obfuscatedFrame : FrameInfo) :
    remapper.Transform order obfuscatedFrame =
      some (if fieldCandidates order remapper obfuscatedFrame ++
            methodCandidates remapper obfuscatedFrame = [] then
          [passthroughCandidate remapper obfuscatedFrame]
        else fieldCandidates order remapper obfuscatedFrame ++
          methodCandidates remapper obfuscatedFrame) := by
  unfold Transform
  simp only [transformFieldInfo_eq, transformMethodInfo_eq, Option.bind_eq_bind,
    Option.some_bind, List.nil_append]
  by_cases h : fieldCandidates order remapper obfuscatedFrame ++
      methodCandidates remapper obfuscatedFrame = []
  · have hl : (fieldCandidates order remapper obfuscatedFrame ++
        methodCandidates remapper obfuscatedFrame).length = 0 := by rw [h]; rfl
    rw [if_pos hl, if_pos h, h]
    unfold passthroughCandidate
    by_cases hs : obfuscatedFrame.SourceFile = []
    · have c1 : obfuscatedFrame.SourceFile.length = 0 ∧
          obfuscatedFrame.SourceFile ≠ "Unknown Source".toList ∧
          obfuscatedFrame.SourceFile ≠ "Native Method".toList := by
        rw [hs]
        exact ⟨rfl, by decide, by decide⟩
      rw [if_pos c1, if_pos hs, getSourceFileName_eq]
      rfl
    · have c1 : ¬ (obfuscatedFrame.SourceFile.length = 0 ∧
          obfuscatedFrame.SourceFile ≠ "Unknown Source".toList ∧
          obfuscatedFrame.SourceFile ≠ "Native Method".toList) := by
        intro hc
        exact hs (List.length_eq_zero.mp hc.1)
      rw [if_neg c1, if_neg hs]
      rfl
  · have hl : ¬ (fieldCandidates order remapper obfuscatedFrame ++
        methodCandidates remapper obfuscatedFrame).length = 0 := by
      intro hc
      exact h (List.length_eq_zero.mp hc)
    rw [if_neg hl, if_neg h]
    rfl

end Retrace

namespace Retrace

open FrameRemapper

/-- C4: after any sequence of `ProcessClassMapping` calls on a fresh
`FrameRemapper` (each call is a pair of its class name and its new class
name), `GetOriginalClassName(n)` is the class name of the last call whose new
name is `n`, and `n` itself when no call had the new name `n`. -/
theorem C4_class_table_last_write_wins (calls : List (Str × Str)) (n : Str) :
    GetOriginalClassName
        (calls.foldl (fun remapper call => (remapper.ProcessClassMapping call.1 call.2).1)
          NewFrameRemapper) n =
      match calls.reverse.find? (fun call => decide (call.2 = n)) with
      | some call => call.1
      | none => n := by
  induction calls using List.reverseRecOn with
  | nil => rfl
  | append_singleton l a ih =>
    rw [List.foldl_append, List.reverse_append]
    simp only [List.foldl_cons, List.foldl_nil, List.reverse_cons, List.reverse_nil,
      List.nil_append, List.singleton_append, List.find?_cons]
    by_cases h : a.2 = n
    · simp only [h, decide_True]
      unfold GetOriginalClassName ProcessClassMapping GoMap.set
      simp [h]
    · simp only [h, decide_False]
      rw [← ih]
      unfold GetOriginalClassName ProcessClassMapping GoMap.set
      have : ¬ n = a.2 := fun e => h e.symm
      simp [this]

theorem fieldCandidates_of_no_fields (order : ValuesOrder) (remapper : FrameRemapper)
    (frame : FrameInfo)
    (h : remapper.ClassFieldMap (remapper.GetOriginalClassName frame.ClassName) = none) :
    fieldCandidates order remapper frame = [] := by
  unfold fieldCandidates storedFields
  rw [h]
  simp [Values_nil]

theorem methodCandidates_of_no_methods (remapper : FrameRemapper) (frame : FrameInfo)
    (h : remapper.ClassMethodMap (remapper.GetOriginalClassName frame.ClassName) = none) :
    methodCandidates remapper frame = [] := by
  unfold methodCandidates storedMethods
  rw [h]
  rfl

/-- C2: for a table with the class mapping `orig -> obf` and no field or method
mappings, `Transform` of a frame whose class is `obf` and whose source file is
empty returns exactly one frame: its class is `orig`, its source file is what
`getSourceFileName(orig)` returns, and its line number, type, field, method
and arguments are those of the frame. -/
theorem C2_class_only_passthrough (order : ValuesOrder) (remapper : FrameRemapper)
    (orig obf : Str) (frame : FrameInfo)
    (hclass : remapper.ClassMap obf = some orig)
    (hfields : ∀ c, remapper.ClassFieldMap c = none)
    (hmethods : ∀ c, remapper.ClassMethodMap c = none)
    (hframe : frame.ClassName = obf) (hsource : frame.SourceFile = []) :
    getSourceFileName orig = some (sourceFileName orig) ∧
    remapper.Transform order frame =
      some [⟨orig, sourceFileName orig, frame.LineNumber, frame.Type_, frame.FieldName,
        frame.MethodName, frame.Arguments⟩] := by
  refine ⟨getSourceFileName_eq orig, ?_⟩
  have hcn : remapper.GetOriginalClassName frame.ClassName = orig := by
    unfold GetOriginalClassName
    rw [hframe, hclass]
  rw [Transform_eq, fieldCandidates_of_no_fields order remapper frame (hfields _),
    methodCandidates_of_no_methods remapper frame (hmethods _)]
  simp only [List.append_nil, if_true]
  unfold passthroughCandidate
  rw [hcn, if_pos hsource]

/-- Witness of C2: the class mapping `a.b.C -> x` and a frame of class `x`; the
source file of the frame returned is `C.java`. -/
theorem C2_class_only_passthrough_witness :
    getSourceFileName "a.b.C".toList = some "C.java".toList ∧
    (NewFrameRemapper.ProcessClassMapping "a.b.C".toList "x".toList).1.Transform insertionOrder
        ⟨"x".toList, [], 7, "int".toList, "f".toList, "m".toList, "int".toList⟩ =
      some [⟨"a.b.C".toList, "C.java".toList, 7, "int".toList, "f".toList, "m".toList,
        "int".toList⟩] :=
  C2_class_only_passthrough insertionOrder
    (NewFrameRemapper.ProcessClassMapping "a.b.C".toList "x".toList).1 "a.b.C".toList "x".toList
    ⟨"x".toList, [], 7, "int".toList, "f".toList, "m".toList, "int".toList⟩
    (by decide) (fun _ => rfl) (fun _ => rfl) rfl rfl

end Retrace

namespace Retrace

open FrameRemapper

theorem wrapInt_of_range (x : Int) (h1 : minInt ≤ x) (h2 : x ≤ maxInt) : wrapInt x = x := by
  unfold minInt at h1
  unfold maxInt at h2
  unfold wrapInt
  omega

theorem intAdd_intSub (a b c : Int) : intAdd (intSub a b) c = wrapInt (a - b + c) := by
  unfold intAdd intSub wrapInt
  omega

theorem matches_wildcards (info : MethodInfo) (k : Int)
    (h : k = 0 ∨ info.ObfuscatedLastLineNumber = 0 ∨
      (info.ObfuscatedFirstLineNumber ≤ k ∧ k ≤ info.ObfuscatedLastLineNumber)) :
    info.Matches k [] [] = true := by
  unfold MethodInfo.Matches
  rcases h with h | h | ⟨h1, h2⟩
  · simp [h]
  · simp [h]
  · simp [h1, h2]

/-- C1, as amended: the table holds the class mapping `O -> N`, `N` not empty,
and the one method entry registered under class `O` and obfuscated name `m`
with obfuscated range `f`, `l` and original range `F`, `L`, where `f ≠ 0`,
`F ≠ f`, `L ≠ 0` and `L ≠ F`. `Transform` of a frame with class `N`, method `m`,
empty type, empty arguments and a line number `k ≠ 0` with `f ≤ k ≤ l` returns
exactly one frame; its class is `O`, its method is the original method name
and its line number is `F - f + k` in the arithmetic of Go `int`, which is
`F - f + k` whenever that number is an `int`. -/
theorem C1_method_line_shift (order : ValuesOrder) (O N m T name A src fld : Str)
    (f l F L k : Int) (hN : N ≠ []) (hf0 : f ≠ 0) (hFf : F ≠ f) (hL0 : L ≠ 0) (hLF : L ≠ F)
    (hk0 : k ≠ 0) (hfk : f ≤ k) (hkl : k ≤ l) :
    ((NewFrameRemapper.ProcessClassMapping O N).1.ProcessMethodMapping O F L T name A O f l
        m).Transform order ⟨N, src, k, [], fld, m, []⟩ =
      some [⟨O, sourceFileName O, wrapInt (F - f + k), T, fld, name, A⟩] ∧
    (minInt ≤ F - f + k → F - f + k ≤ maxInt → wrapInt (F - f + k) = F - f + k) := by
  refine ⟨?_, wrapInt_of_range _⟩
  generalize hr : (NewFrameRemapper.ProcessClassMapping O N).1.ProcessMethodMapping O F L T name
    A O f l m = r
  have hcn : r.GetOriginalClassName N = O := by
    rw [← hr]
    unfold GetOriginalClassName ProcessMethodMapping ProcessClassMapping NewFrameRemapper
      GoMap.set
    simp
  have hnil : r.GetOriginalClassName [] = [] := by
    rw [← hr]
    unfold GetOriginalClassName ProcessMethodMapping ProcessClassMapping NewFrameRemapper
      GoMap.set GoMap.empty
    have : ¬ ([] : Str) = N := fun e => hN e.symm
    simp [this]
  have hfm : r.ClassFieldMap O = none := by
    rw [← hr]
    rfl
  have hst : storedMethods r O m = [⟨f, l, O, F, L, T, name, A⟩] := by
    rw [← hr]
    unfold storedMethods ProcessMethodMapping ProcessClassMapping NewFrameRemapper GoMap.set
      GoMap.empty setAdd
    simp
  have hfc : fieldCandidates order r ⟨N, src, k, [], fld, m, []⟩ = [] :=
    fieldCandidates_of_no_fields order r _ (by rw [hcn]; exact hfm)
  have hmc : methodCandidates r ⟨N, src, k, [], fld, m, []⟩ =
      [⟨O, sourceFileName O, wrapInt (F - f + k), T, fld, name, A⟩] := by
    unfold methodCandidates
    simp only [hcn, hst, originalType_nil, originalArguments_nil, hnil, List.filter_cons,
      matches_wildcards ⟨f, l, O, F, L, T, name, A⟩ k (Or.inr (Or.inr ⟨hfk, hkl⟩)), if_true,
      List.filter_nil, List.map_cons, List.map_nil]
    unfold methodCandidate methodLineNumber
    simp only [ne_eq, hFf, not_false_eq_true, if_true, hL0, hLF, hf0, hk0, and_self,
      intAdd_intSub]
  rw [Transform_eq, hfc, hmc]
  rfl

/-- Witness of C1: the mapping `1:3:void foo():10:12 -> a` under `Orig -> Obf`
and the frame of class `Obf`, method `a`, line 2: the line returned is 11. -/
theorem C1_method_line_shift_witness :
    ((NewFrameRemapper.ProcessClassMapping "Orig".toList "Obf".toList).1.ProcessMethodMapping
        "Orig".toList 10 12 "void".toList "foo".toList [] "Orig".toList 1 3
        "a".toList).Transform insertionOrder ⟨"Obf".toList, [], 2, [], [], "a".toList, []⟩ =
      some [⟨"Orig".toList, "Orig.java".toList, 11, "void".toList, [], "foo".toList, []⟩] :=
  (C1_method_line_shift insertionOrder "Orig".toList "Obf".toList "a".toList "void".toList
    "foo".toList [] [] [] 1 3 10 12 2 (by decide) (by decide) (by decide) (by decide)
    (by decide) (by decide) (by decide) (by decide)).1

/-- Counterexample to C1 as stated: with the class mapping `Orig -> ` (the
obfuscated name is empty) and the method entry `1:3:void foo():10:12 -> a`, the
frame with the empty class name, method `a`, empty type, empty arguments and
line 2 satisfies the conditions of the claim, but the one frame returned keeps
the method `a` and the line 2: the empty type of the frame is resolved through
the class table to `Orig`, which is not the type `void` of the entry. -/
theorem C1_counterexample_empty_obfuscated_name :
    ((1 : Int) ≠ 0 ∧ (10 : Int) ≠ 1 ∧ (12 : Int) ≠ 0 ∧ (12 : Int) ≠ 10 ∧ (2 : Int) ≠ 0 ∧
      (1 : Int) ≤ 2 ∧ (2 : Int) ≤ 3) ∧
    ((NewFrameRemapper.ProcessClassMapping "Orig".toList []).1.ProcessMethodMapping
        "Orig".toList 10 12 "void".toList "foo".toList [] "Orig".toList 1 3
        "a".toList).Transform insertionOrder ⟨[], [], 2, [], [], "a".toList, []⟩ =
      some [⟨"Orig".toList, "Orig.java".toList, 2, [], [], "a".toList, []⟩] := by
  refine ⟨by decide, ?_⟩
  decide

end Retrace

namespace Retrace

open FrameRemapper

theorem storedMethods_ProcessMethodMapping (remapper : FrameRemapper)
    (className : Str) (first last : Int) (ty name args newClassName : Str)
    (newFirst newLast : Int) (newMethodName : Str) :
    storedMethods (remapper.ProcessMethodMapping className first last ty name args newClassName
        newFirst newLast newMethodName) newClassName newMethodName =
      setAdd (storedMethods remapper newClassName newMethodName)
        ⟨newFirst, newLast, className, first, last, ty, name, args⟩ := by
  unfold storedMethods ProcessMethodMapping GoMap.set
  simp only [if_true]
  cases h1 : remapper.ClassMethodMap newClassName with
  | none => simp [GoMap.empty]
  | some methodMap =>
    cases h2 : methodMap newMethodName with
    | none => simp [h2]
    | some methodSet => simp [h2]

theorem storedMethods_registerMethod (remapper : FrameRemapper) (C m : Str) (i : MethodInfo) :
    storedMethods (registerMethod C m remapper i) C m = setAdd (storedMethods remapper C m) i :=
  storedMethods_ProcessMethodMapping remapper _ _ _ _ _ _ C _ _ m

theorem foldl_registerMethod (C m : Str) (infos : List MethodInfo) (remapper : FrameRemapper) :
    (infos.foldl (registerMethod C m) remapper).ClassMap = remapper.ClassMap ∧
    (infos.foldl (registerMethod C m) remapper).ClassFieldMap = remapper.ClassFieldMap ∧
    storedMethods (infos.foldl (registerMethod C m) remapper) C m =
      infos.foldl setAdd (storedMethods remapper C m) := by
  induction infos generalizing remapper with
  | nil => exact ⟨rfl, rfl, rfl⟩
  | cons a t ih =>
    simp only [List.foldl_cons]
    obtain ⟨h1, h2, h3⟩ := ih (registerMethod C m remapper a)
    exact ⟨h1, h2, by rw [h3, storedMethods_registerMethod]⟩

theorem setAdd_of_mem {α : Type} [DecidableEq α] (items : List α) (item : α)
    (h : item ∈ items) : setAdd items item = items := by
  unfold setAdd
  rw [if_pos h]

theorem setAdd_of_not_mem {α : Type} [DecidableEq α] (items : List α) (item : α)
    (h : item ∉ items) : setAdd items item = items ++ [item] := by
  unfold setAdd
  rw [if_neg h]

/-- The items of a set built by `Add` from the empty set: each item of the
sequence once, ordered by first occurrence. -/
theorem foldl_setAdd_spec {α : Type} [DecidableEq α] (l : List α) :
    (∀ x, x ∈ l.foldl setAdd [] ↔ x ∈ l) ∧
    (l.foldl setAdd []).Pairwise (fun a b => l.indexOf a < l.indexOf b) := by
  induction l using List.reverseRecOn with
  | nil => simp
  | append_singleton l a ih =>
    obtain ⟨hmem, hpw⟩ := ih
    rw [List.foldl_append]
    simp only [List.foldl_cons, List.foldl_nil]
    by_cases ha : a ∈ l.foldl setAdd []
    · rw [setAdd_of_mem _ _ ha]
      have hal : a ∈ l := (hmem a).mp ha
      constructor
      · intro x
        rw [hmem x]
        simp only [List.mem_append, List.mem_singleton]
        constructor
        · exact Or.inl
        · rintro (h | h)
          · exact h
          · rw [h]; exact hal
      · refine List.Pairwise.imp_of_mem ?_ hpw
        intro x y hx hy hxy
        rw [List.indexOf_append_of_mem ((hmem x).mp hx),
          List.indexOf_append_of_mem ((hmem y).mp hy)]
        exact hxy
    · rw [setAdd_of_not_mem _ _ ha]
      have hal : a ∉ l := fun h => ha ((hmem a).mpr h)
      constructor
      · intro x
        simp only [List.mem_append, List.mem_singleton, hmem x]
      · rw [List.pairwise_append]
        refine ⟨?_, List.pairwise_singleton _ _, ?_⟩
        · refine List.Pairwise.imp_of_mem ?_ hpw
          intro x y hx hy hxy
          rw [List.indexOf_append_of_mem ((hmem x).mp hx),
            List.indexOf_append_of_mem ((hmem y).mp hy)]
          exact hxy
        · intro x hx y hy
          rw [List.mem_singleton] at hy
          subst hy
          rw [List.indexOf_append_of_mem ((hmem x).mp hx), List.indexOf_append_of_not_mem hal]
          have := List.indexOf_lt_length.mpr ((hmem x).mp hx)
          omega

theorem pairwise_indexOf_nodup {α : Type} [DecidableEq α] (l s : List α)
    (h : s.Pairwise (fun a b => l.indexOf a < l.indexOf b)) : s.Nodup := by
  refine List.Pairwise.imp ?_ h
  intro a b hab e
  rw [e] at hab
  exact lt_irrefl _ hab

/-- C5: a sequence of method mappings, not empty, is registered on a fresh
`FrameRemapper` under one class `C` and one obfuscated method name `m`.
`Transform` of a frame with class `C`, method `m`, line number 0, empty type
and empty arguments returns one frame for each distinct mapping of the
sequence, in the order in which the mappings first occur in the sequence; the
frame of a mapping has its original class, type, name and arguments. -/
theorem C5_candidates_in_declaration_order (order : ValuesOrder) (C m src fld : Str)
    (infos : List MethodInfo) (hne : infos ≠ []) :
    ∃ stored : List MethodInfo,
      (∀ i, i ∈ stored ↔ i ∈ infos) ∧
      stored.Pairwise (fun a b => infos.indexOf a < infos.indexOf b) ∧
      stored.length = infos.toFinset.card ∧
      (infos.foldl (registerMethod C m) NewFrameRemapper).Transform order
          ⟨C, src, 0, [], fld, m, []⟩ =
        some (stored.map (fun i =>
          ⟨i.OriginalClassName, sourceFileName i.OriginalClassName,
            if i.OriginalFirstLineNumber ≠ i.ObfuscatedFirstLineNumber then
              i.OriginalFirstLineNumber
            else 0,
            i.OriginalType, fld, i.OriginalName, i.OriginalArguments⟩)) := by
  obtain ⟨hmem, hpw⟩ := foldl_setAdd_spec infos
  refine ⟨infos.foldl setAdd [], hmem, hpw, ?_, ?_⟩
  · rw [← List.toFinset_card_of_nodup (pairwise_indexOf_nodup infos _ hpw)]
    congr 1
    ext x
    simp only [List.mem_toFinset, hmem x]
  · generalize hr : infos.foldl (registerMethod C m) NewFrameRemapper = r
    obtain ⟨h1, h2, h3⟩ := foldl_registerMethod C m infos NewFrameRemapper
    rw [hr] at h1 h2 h3
    have hid : ∀ n, r.GetOriginalClassName n = n := by
      intro n
      unfold GetOriginalClassName
      rw [h1]
      rfl
    have hfc : fieldCandidates order r ⟨C, src, 0, [], fld, m, []⟩ = [] :=
      fieldCandidates_of_no_fields order r _ (by rw [h2]; rfl)
    have hst : storedMethods r C m = infos.foldl setAdd [] := by
      rw [h3]
      rfl
    have hmc : methodCandidates r ⟨C, src, 0, [], fld, m, []⟩ =
        (infos.foldl setAdd []).map (methodCandidate ⟨C, src, 0, [], fld, m, []⟩) := by
      unfold methodCandidates
      simp only [hid, hst, originalType_nil, originalArguments_nil]
      congr 1
      rw [List.filter_eq_self]
      intro a _
      exact matches_wildcards a 0 (Or.inl rfl)
    have hne2 : infos.foldl setAdd [] ≠ [] := by
      obtain ⟨a, t, rfl⟩ := List.exists_cons_of_ne_nil hne
      intro e
      have := (hmem a).mpr (List.mem_cons_self _ _)
      rw [e] at this
      exact List.not_mem_nil _ this
    rw [Transform_eq, hfc, hmc, List.nil_append]
    have hne3 : (infos.foldl setAdd []).map (methodCandidate ⟨C, src, 0, [], fld, m, []⟩) ≠
        [] := by
      intro e
      exact hne2 (List.map_eq_nil_iff.mp e)
    rw [if_neg hne3]
    congr 1
    apply List.map_congr_left
    intro i _
    unfold methodCandidate methodLineNumber
    simp

/-- Witness of C5: the mappings `void foo() -> a`, `int foo(int) -> a` and
`void foo() -> a` again, under the class `p.Q`: two frames, `foo()` before
`foo(int)`. -/
theorem C5_candidates_in_declaration_order_witness :
    ∃ stored : List MethodInfo,
      (∀ i, i ∈ stored ↔ i ∈ [(⟨0, 0, "p.Q".toList, 0, 0, "void".toList, "foo".toList, []⟩ :
          MethodInfo), ⟨0, 0, "p.Q".toList, 0, 0, "int".toList, "foo".toList, "int".toList⟩,
          ⟨0, 0, "p.Q".toList, 0, 0, "void".toList, "foo".toList, []⟩]) ∧
      stored.Pairwise (fun a b =>
        [(⟨0, 0, "p.Q".toList, 0, 0, "void".toList, "foo".toList, []⟩ : MethodInfo),
          ⟨0, 0, "p.Q".toList, 0, 0, "int".toList, "foo".toList, "int".toList⟩,
          ⟨0, 0, "p.Q".toList, 0, 0, "void".toList, "foo".toList, []⟩].indexOf a <
        [(⟨0, 0, "p.Q".toList, 0, 0, "void".toList, "foo".toList, []⟩ : MethodInfo),
          ⟨0, 0, "p.Q".toList, 0, 0, "int".toList, "foo".toList, "int".toList⟩,
          ⟨0, 0, "p.Q".toList, 0, 0, "void".toList, "foo".toList, []⟩].indexOf b) ∧
      stored.length = [(⟨0, 0, "p.Q".toList, 0, 0, "void".toList, "foo".toList, []⟩ :
          MethodInfo), ⟨0, 0, "p.Q".toList, 0, 0, "int".toList, "foo".toList, "int".toList⟩,
          ⟨0, 0, "p.Q".toList, 0, 0, "void".toList, "foo".toList, []⟩].toFinset.card ∧
      ([(⟨0, 0, "p.Q".toList, 0, 0, "void".toList, "foo".toList, []⟩ : MethodInfo),
          ⟨0, 0, "p.Q".toList, 0, 0, "int".toList, "foo".toList, "int".toList⟩,
          ⟨0, 0, "p.Q".toList, 0, 0, "void".toList, "foo".toList, []⟩].foldl
            (registerMethod "p.Q".toList "a".toList) NewFrameRemapper).Transform insertionOrder
          ⟨"p.Q".toList, [], 0, [], [], "a".toList, []⟩ =
        some (stored.map (fun i =>
          ⟨i.OriginalClassName, sourceFileName i.OriginalClassName,
            if i.OriginalFirstLineNumber ≠ i.ObfuscatedFirstLineNumber then
              i.OriginalFirstLineNumber
            else 0,
            i.OriginalType, [], i.OriginalName, i.OriginalArguments⟩)) :=
  C5_candidates_in_declaration_order insertionOrder "p.Q".toList "a".toList [] []
    [⟨0, 0, "p.Q".toList, 0, 0, "void".toList, "foo".toList, []⟩,
      ⟨0, 0, "p.Q".toList, 0, 0, "int".toList, "foo".toList, "int".toList⟩,
      ⟨0, 0, "p.Q".toList, 0, 0, "void".toList, "foo".toList, []⟩] (by decide)

end Retrace

namespace Retrace

open MappingReader

theorem Index_nonneg_iff_occurs (s substr : Str) : 0 ≤ Index s substr ↔ substr <:+: s := by
  induction s with
  | nil =>
    unfold Index
    by_cases h : substr = []
    · simp [h]
    · simp [h]
  | cons c cs ih =>
    unfold Index
    by_cases hp : substr.isPrefixOf (c :: cs) = true
    · simp only [hp, if_true, le_refl, true_iff]
      exact (List.isPrefixOf_iff_prefix.mp hp).isInfix
    · simp only [hp, Bool.false_eq_true, if_false]
      rw [List.infix_cons_iff]
      have hnp : ¬ substr <+: c :: cs := fun h => hp (List.isPrefixOf_iff_prefix.mpr h)
      rcases Index_bounds cs substr with h | ⟨h0, _⟩
      · have hn : ¬ (0 ≤ Index cs substr) := by omega
        have hlt : Index cs substr < 0 := by omega
        simp only [hlt, if_true]
        constructor
        · intro h1
          omega
        · rintro (h1 | h1)
          · exact absurd h1 hnp
          · exact absurd (ih.mpr h1) hn
      · have hlt : ¬ Index cs substr < 0 := by omega
        simp only [hlt, if_false]
        constructor
        · intro _
          exact Or.inr (ih.mp h0)
        · intro _
          omega

theorem Index_neg_of_part (s t substr : Str) (h : Index s substr < 0) (ht : t <:+: s) :
    Index t substr < 0 := by
  by_contra hc
  have h1 : substr <:+: t := (Index_nonneg_iff_occurs t substr).mp (by omega)
  have h2 : 0 ≤ Index s substr := (Index_nonneg_iff_occurs s substr).mpr (h1.trans ht)
  omega

theorem TrimSpace_is_part (s : Str) : TrimSpace s <:+: s := by
  unfold TrimSpace
  exact (List.rdropWhile_prefix _ _).isInfix.trans (List.dropWhile_suffix _).isInfix

theorem sliceFrom_eq_drop (s : Str) (p : Int) (h : 0 ≤ p ∧ p ≤ s.length) :
    sliceFrom s p = some (s.drop p.toNat) := by
  unfold sliceFrom slice
  rw [if_pos ⟨h.1, h.2, le_refl _⟩]
  congr 1
  apply List.take_of_length_le
  simp only [List.length_drop, Int.toNat_ofNat]
  omega

/-- A search for a text that does not occur in the line finds nothing. -/
theorem IndexOf_of_absent (line subStr : Str) (p : Int) (h : Index line subStr < 0)
    (hp : 0 ≤ p ∧ p ≤ line.length) : IndexOf line subStr p = some (-1) := by
  unfold IndexOf
  rw [sliceFrom_eq_drop line p hp]
  have hlt := Index_neg_of_part line (line.drop p.toNat) subStr h
    (List.drop_suffix _ _).isInfix
  have : Index (line.drop p.toNat) subStr = -1 := by
    rcases Index_bounds (line.drop p.toNat) subStr with h1 | ⟨h1, _⟩
    · exact h1
    · omega
  simp only [Option.bind_eq_bind, Option.some_bind, this]
  rfl

theorem Index_char_get (t : Str) (c : Char) (h : 0 ≤ Index t [c]) :
    t[(Index t [c]).toNat]? = some c := by
  induction t with
  | nil => simp [Index] at h
  | cons a u ih =>
    unfold Index at h ⊢
    by_cases hp : List.isPrefixOf [c] (a :: u) = true
    · simp only [hp, if_true]
      simp only [List.isPrefixOf, Bool.and_true, beq_iff_eq] at hp
      simp [hp]
    · simp only [hp, Bool.false_eq_true, if_false] at h ⊢
      by_cases hlt : Index u [c] < 0
      · simp only [hlt, if_true] at h
        omega
      · simp only [hlt, if_false]
        have h0 : 0 ≤ Index u [c] := by omega
        have := ih h0
        have e : (Index u [c] + 1).toNat = (Index u [c]).toNat + 1 := by omega
        rw [e]
        simpa using this

/-- A character found by `IndexOf` is not the last one of a line that ends
with another character. -/
theorem IndexOf_char_not_last (line : Str) (c : Char) (p i : Int)
    (hp : 0 ≤ p ∧ p ≤ line.length) (hi : IndexOf line [c] p = some i) (h0 : 0 ≤ i)
    (hlast : ∀ hne : line ≠ [], line.getLast hne ≠ c) : i + 2 ≤ line.length := by
  unfold IndexOf at hi
  rw [sliceFrom_eq_drop line p hp] at hi
  simp only [Option.bind_eq_bind, Option.some_bind] at hi
  by_cases hlt : Index (line.drop p.toNat) [c] < 0
  · simp only [hlt, if_true, Option.pure_def, Option.some.injEq] at hi
    omega
  · simp only [hlt, if_false, Option.pure_def, Option.some.injEq] at hi
    have hg := Index_char_get (line.drop p.toNat) c (by omega)
    rw [List.getElem?_drop] at hg
    have hlen : p.toNat + (Index (line.drop p.toNat) [c]).toNat < line.length := by
      by_contra hc
      rw [List.getElem?_eq_none (by omega)] at hg
      exact absurd hg (by simp)
    by_contra hcon
    have hne : line ≠ [] := by
      intro e
      rw [e] at hlen
      simp at hlen
    have hidx : p.toNat + (Index (line.drop p.toNat) [c]).toNat = line.length - 1 := by omega
    rw [hidx, ← List.getLast?_eq_getElem?, List.getLast?_eq_getLast _ hne] at hg
    exact hlast hne (Option.some.inj hg)

end Retrace

namespace Retrace

open MappingReader

theorem IndexOfAfter_bounds (line subStr : Str) (previous : Int)
    (h : previous < 0 ∨ previous + 1 ≤ line.length) :
    ∃ i, IndexOfAfter line subStr previous = some i ∧
      (i = -1 ∨ (0 ≤ i ∧ i + subStr.length ≤ line.length ∧
        IndexOf line subStr (previous + 1) = some i ∧ 0 ≤ previous)) := by
  by_cases hp : previous ≥ 0
  · have hb : 0 ≤ previous + 1 ∧ previous + 1 ≤ line.length := by omega
    obtain ⟨i, hi, hr⟩ := IndexOf_bounds line subStr _ hb
    refine ⟨i, by rw [IndexOfAfter_found _ _ _ hp, hi], ?_⟩
    rcases hr with hr | ⟨h1, h2⟩
    · exact Or.inl hr
    · exact Or.inr ⟨by omega, h2, hi, hp⟩
  · exact ⟨-1, IndexOfAfter_missing _ _ _ (by omega), Or.inl rfl⟩

/-- A member line without `->`: `ProcessClassMemberMapping` returns the error
and makes no call. The line is not empty and does not end with a colon, as the
lines that `Pump` passes on. -/
theorem member_no_arrow {σ : Type} (P : MappingProcessor σ) (st : σ) (cls line : Str)
    (hne : line ≠ []) (hlast : ∀ h : line ≠ [], line.getLast h ≠ ':')
    (harrow : Index line ['-', '>'] < 0) :
    ProcessClassMemberMapping P st cls line = some (st, some GoError.missingSpaceOrArrow) := by
  have hlen : 1 ≤ (line.length : Int) := by
    have := List.length_pos.mpr hne
    omega
  obtain ⟨c1, i1, r1⟩ := IndexOf_bounds line [':'] 0 ⟨le_refl _, by omega⟩
  have b1 : c1 = -1 ∨ (0 ≤ c1 ∧ c1 + 2 ≤ line.length) := by
    rcases r1 with r | ⟨r, _⟩
    · exact Or.inl r
    · exact Or.inr ⟨r, IndexOf_char_not_last line ':' 0 c1 ⟨le_refl _, by omega⟩ i1 r hlast⟩
  obtain ⟨c2, j2, r2⟩ := IndexOfAfter_bounds line [':'] c1 (by omega)
  have b2 : c2 = -1 ∨ (0 ≤ c2 ∧ c2 + 2 ≤ line.length) := by
    rcases r2 with r | ⟨r, _, hi, hc⟩
    · exact Or.inl r
    · exact Or.inr ⟨r, IndexOf_char_not_last line ':' (c1 + 1) c2 (by omega) hi r hlast⟩
  obtain ⟨sp, i3, r3⟩ := IndexOf_bounds line [' '] (c2 + 2) (by omega)
  simp only [List.length_singleton, Nat.cast_one] at r3
  obtain ⟨a1, i4, r4⟩ := IndexOf_bounds line ['('] (sp + 1) (by omega)
  simp only [List.length_singleton, Nat.cast_one] at r4
  obtain ⟨a2, j5, r5⟩ := IndexOfAfter_bounds line [')'] a1 (by omega)
  simp only [List.length_singleton, Nat.cast_one] at r5
  obtain ⟨c3, j6, r6⟩ := IndexOfAfter_bounds line [':'] a2 (by omega)
  simp only [List.length_singleton, Nat.cast_one] at r6
  obtain ⟨c4, j7, r7⟩ := IndexOfAfter_bounds line [':'] c3 (by omega)
  simp only [List.length_singleton, Nat.cast_one] at r7
  have hcur : 0 ≤ assignIfFound c4 (assignIfFound c3 (assignIfFound a2 sp)) + 1 ∧
      assignIfFound c4 (assignIfFound c3 (assignIfFound a2 sp)) + 1 ≤ line.length := by
    unfold assignIfFound
    split_ifs <;> omega
  have i8 := IndexOf_of_absent line ['-', '>'] _ harrow hcur
  unfold ProcessClassMemberMapping
  rw [i1, some_bind_eq, j2, some_bind_eq, i3, some_bind_eq]
  simp only []
  rw [i4, some_bind_eq, j5, some_bind_eq, j6, some_bind_eq, j7, some_bind_eq, i8, some_bind_eq,
    if_pos (Or.inr (by decide))]
  rfl

end Retrace

namespace Retrace

open MappingReader

theorem HasSuffix_colon_false (line : Str) (h : HasSuffix line [':'] = false) :
    ∀ hne : line ≠ [], line.getLast hne ≠ ':' := by
  intro hne e
  have hs : [':'] <:+ line := by
    refine ⟨line.dropLast, ?_⟩
    rw [← e]
    exact List.dropLast_append_getLast hne
  have : HasSuffix line [':'] = true := by
    unfold HasSuffix
    exact List.isSuffixOf_iff_suffix.mpr hs
  rw [h] at this
  exact absurd this (by decide)

/-- A line without `->` that does not end with a colon changes neither the
state of the processor nor the current class name. -/
theorem pumpLine_no_arrow {σ : Type} (P : MappingProcessor σ) (acc : σ × Str) (text : Str)
    (harrow : Index text ['-', '>'] < 0) (hcolon : HasSuffix (TrimSpace text) [':'] = false) :
    pumpLine P acc text = some acc := by
  unfold pumpLine
  simp only []
  by_cases h0 : (TrimSpace text).length = 0
  · rw [if_pos h0]
    rfl
  · rw [if_neg h0]
    by_cases h1 : HasPrefix (TrimSpace text) ['#'] = true
    · rw [if_pos h1]
      rfl
    · rw [if_neg h1, hcolon, if_neg (by decide)]
      by_cases h2 : acc.2.length > 0
      · rw [if_pos h2]
        have hne : TrimSpace text ≠ [] := fun e => h0 (by rw [e]; rfl)
        rw [member_no_arrow P acc.1 acc.2 (TrimSpace text) hne
          (HasSuffix_colon_false _ hcolon)
          (Index_neg_of_part text _ _ harrow (TrimSpace_is_part text))]
        rfl
      · rw [if_neg h2]
        rfl

theorem ProcessClassMapping_no_arrow {σ : Type} (P : MappingProcessor σ) (st : σ) (line : Str)
    (harrow : Index line ['-', '>'] < 0) :
    MappingReader.ProcessClassMapping P st line = some (st, []) := by
  unfold MappingReader.ProcessClassMapping
  rw [IndexOf_of_absent line ['-', '>'] 0 harrow ⟨le_refl _, by omega⟩, some_bind_eq,
    if_pos (by decide)]
  rfl

/-- A line that is not a comment, ends with a colon and has no `->`: no call is
made and the current class name becomes empty. -/
theorem pumpLine_header_no_arrow {σ : Type} (P : MappingProcessor σ) (acc : σ × Str)
    (text : Str) (harrow : Index text ['-', '>'] < 0)
    (hcomment : HasPrefix (TrimSpace text) ['#'] = false)
    (hcolon : HasSuffix (TrimSpace text) [':'] = true) :
    pumpLine P acc text = some (acc.1, []) := by
  unfold pumpLine
  simp only []
  have h0 : ¬ (TrimSpace text).length = 0 := by
    intro e
    rw [List.length_eq_zero.mp e] at hcolon
    exact absurd hcolon (by decide)
  rw [if_neg h0, hcomment, if_neg (by decide), hcolon, if_pos rfl]
  exact ProcessClassMapping_no_arrow P acc.1 _
    (Index_neg_of_part text _ _ harrow (TrimSpace_is_part text))

/-- With no current class, a line that does not end with a colon is passed
over. -/
theorem pumpLine_no_class {σ : Type} (P : MappingProcessor σ) (st : σ) (text : Str)
    (hcolon : HasSuffix (TrimSpace text) [':'] = false) :
    pumpLine P (st, []) text = some (st, []) := by
  unfold pumpLine
  simp only []
  by_cases h0 : (TrimSpace text).length = 0
  · rw [if_pos h0]
    rfl
  · rw [if_neg h0]
    by_cases h1 : HasPrefix (TrimSpace text) ['#'] = true
    · rw [if_pos h1]
      rfl
    · rw [if_neg h1, hcolon, if_neg (by decide), if_neg (by decide)]
      rfl

theorem rawLinesAux_cons (c : Char) (cs cur : Str) :
    rawLinesAux (c :: cs) cur =
      if c = '\n' then cur.reverse :: rawLinesAux cs [] else rawLinesAux cs (c :: cur) := by
  rw [rawLinesAux]

theorem rawLinesAux_line (l rest cur : Str) (h : '\n' ∉ l) :
    rawLinesAux (l ++ '\n' :: rest) cur = (cur.reverse ++ l) :: rawLinesAux rest [] := by
  induction l generalizing cur with
  | nil => simp [rawLinesAux]
  | cons a t ih =>
    have ha : a ≠ '\n' := fun e => h (by rw [e]; exact List.mem_cons_self _ _)
    have ht : '\n' ∉ t := fun e => h (List.mem_cons_of_mem _ e)
    simp only [List.cons_append]
    rw [rawLinesAux_cons, if_neg ha, ih (a :: cur) ht]
    simp

theorem rawLines_line (l rest : Str) (h : '\n' ∉ l) :
    rawLines (l ++ '\n' :: rest) = l :: rawLines rest := by
  unfold rawLines
  rw [rawLinesAux_line l rest [] h]
  rfl

/-- A line shorter than the buffer of the scanner is a token, and the scan goes
on behind it. -/
theorem scanLines_line (l rest : Str) (h : '\n' ∉ l) (hlen : byteLength l < MaxScanTokenSize) :
    scanLines (l ++ '\n' :: rest) = dropCR l :: scanLines rest := by
  unfold scanLines
  rw [rawLines_line l rest h, List.takeWhile_cons_of_pos (by simpa using hlen)]
  rfl

theorem scanLines_nil : scanLines [] = [] := rfl

/-- At a line that fills the buffer of the scanner the scan ends: the line and
what follows it give no token. -/
theorem scanLines_too_long (l rest : Str) (h : '\n' ∉ l)
    (hlen : MaxScanTokenSize ≤ byteLength l) : scanLines (l ++ '\n' :: rest) = [] := by
  unfold scanLines
  rw [rawLines_line l rest h, List.takeWhile_cons_of_neg (by simpa using hlen)]
  rfl

theorem rawLinesAux_append (A B cur : Str) :
    rawLinesAux (A ++ '\n' :: B) cur = rawLinesAux (A ++ ['\n']) cur ++ rawLinesAux B [] := by
  induction A generalizing cur with
  | nil => simp [rawLinesAux]
  | cons a t ih =>
    simp only [List.cons_append]
    rw [rawLinesAux_cons, rawLinesAux_cons]
    by_cases ha : a = '\n'
    · rw [if_pos ha, if_pos ha, ih []]
      rfl
    · rw [if_neg ha, if_neg ha, ih (a :: cur)]

theorem rawLines_append (A B : Str) :
    rawLines (A ++ '\n' :: B) = rawLines (A ++ ['\n']) ++ rawLines B := by
  unfold rawLines
  exact rawLinesAux_append A B []

theorem takeWhile_append_all {α : Type} (p : α → Bool) (xs ys : List α) :
    (xs ++ ys).takeWhile p = xs.takeWhile p ++ (if xs.all p then ys.takeWhile p else []) := by
  induction xs with
  | nil => simp
  | cons a t ih =>
    by_cases ha : p a = true
    · simp only [List.cons_append, List.takeWhile_cons_of_pos ha, ih, List.all_cons, ha,
        Bool.true_and]
    · simp only [List.cons_append, List.takeWhile_cons_of_neg ha, List.all_cons, ha,
        Bool.false_and]
      simp

/-- The lines of a text that follows a complete line are scanned on their own,
when the scan gets there. -/
theorem scanLines_append (A B : Str) :
    scanLines (A ++ '\n' :: B) =
      scanLines (A ++ ['\n']) ++
        (if (rawLines (A ++ ['\n'])).all
            (fun line => decide (byteLength line < MaxScanTokenSize)) then
          scanLines B
        else []) := by
  unfold scanLines
  rw [rawLines_append, takeWhile_append_all, List.map_append]
  split <;> simp

theorem TrimSpace_concat_space (l : Str) (c : Char) (hc : isSpace c = true) :
    TrimSpace (l ++ [c]) = TrimSpace l := by
  induction l with
  | nil =>
    unfold TrimSpace
    simp [List.dropWhile, hc, List.rdropWhile]
  | cons a t ih =>
    by_cases ha : isSpace a = true
    · have e1 : TrimSpace (a :: t ++ [c]) = TrimSpace (t ++ [c]) := by
        unfold TrimSpace
        simp only [List.cons_append]
        rw [List.dropWhile_cons_of_pos ha]
      have e2 : TrimSpace (a :: t) = TrimSpace t := by
        unfold TrimSpace
        rw [List.dropWhile_cons_of_pos ha]
      rw [e1, e2, ih]
    · unfold TrimSpace
      have e1 : List.dropWhile isSpace (a :: t ++ [c]) = (a :: t) ++ [c] := by
        simp only [List.cons_append]
        exact List.dropWhile_cons_of_neg ha
      rw [e1, List.dropWhile_cons_of_neg ha, List.rdropWhile_concat, if_pos hc]

theorem TrimSpace_dropCR (l : Str) : TrimSpace (dropCR l) = TrimSpace l := by
  unfold dropCR
  by_cases h : l.getLast? = some '\r'
  · rw [if_pos h]
    have hne : l ≠ [] := by
      intro e
      rw [e] at h
      exact absurd h (by simp)
    have e : l = l.dropLast ++ ['\r'] := by
      have := List.dropLast_append_getLast hne
      rw [List.getLast?_eq_getLast _ hne] at h
      rw [Option.some.inj h] at this
      exact this.symm
    conv_rhs => rw [e]
    rw [TrimSpace_concat_space _ '\r' (by decide)]
  · rw [if_neg h]

theorem pumpLine_dropCR {σ : Type} (P : MappingProcessor σ) (acc : σ × Str) (text : Str) :
    pumpLine P acc (dropCR text) = pumpLine P acc text := by
  unfold pumpLine
  rw [TrimSpace_dropCR]

end Retrace

namespace Retrace

open MappingReader

theorem foldlM_pumpLine_skip {σ : Type} (P : MappingProcessor σ) (acc : σ × Str) (x : Str)
    (lines : List Str) (harrow : Index x ['-', '>'] < 0)
    (hcolon : HasSuffix (TrimSpace x) [':'] = false) :
    (dropCR x :: lines).foldlM (pumpLine P) acc = lines.foldlM (pumpLine P) acc := by
  rw [List.foldlM_cons, pumpLine_dropCR, pumpLine_no_arrow P acc x harrow hcolon]
  rfl

/-- `Pump` over a text whose first line fills the buffer of the scanner gives
nothing to the processor, whatever follows the line. -/
theorem Pump_too_long {σ : Type} (P : MappingProcessor σ) (st : σ) (l rest : Str)
    (h : '\n' ∉ l) (hlen : MaxScanTokenSize ≤ byteLength l) :
    Pump P st (l ++ '\n' :: rest) = some st := by
  unfold Pump
  rw [scanLines_too_long l rest h hlen]
  rfl

/-- C10, as amended: a line `x` of fewer than 65536 bytes that contains no
`->` and, once trimmed, does not end with a colon is inserted at a line
boundary of a mapping text (`A` is empty or ends with a newline). For every
processor and state `Pump` over the text with the line ends in the same state
as `Pump` over the text without it: the processor receives the same class,
field and method mappings. -/
theorem C10_line_without_arrow_is_skipped {σ : Type} (P : MappingProcessor σ) (st : σ)
    (A x B : Str) (hA : A = [] ∨ ∃ A0, A = A0 ++ ['\n']) (hx : '\n' ∉ x)
    (hlen : byteLength x < MaxScanTokenSize)
    (harrow : Index x ['-', '>'] < 0) (hcolon : HasSuffix (TrimSpace x) [':'] = false) :
    Pump P st (A ++ x ++ ['\n'] ++ B) = Pump P st (A ++ B) := by
  have key : ∀ acc : σ × Str,
      (scanLines (x ++ '\n' :: B)).foldlM (pumpLine P) acc =
        (scanLines B).foldlM (pumpLine P) acc := by
    intro acc
    rw [scanLines_line x B hx hlen]
    exact foldlM_pumpLine_skip P acc x _ harrow hcolon
  unfold Pump
  rcases hA with rfl | ⟨A0, rfl⟩
  · simp only [List.nil_append, List.append_assoc, List.singleton_append]
    rw [key]
  · have e1 : A0 ++ ['\n'] ++ x ++ ['\n'] ++ B = A0 ++ '\n' :: (x ++ '\n' :: B) := by simp
    have e2 : A0 ++ ['\n'] ++ B = A0 ++ '\n' :: B := by simp
    rw [e1, e2, scanLines_append A0 (x ++ '\n' :: B), scanLines_append A0 B]
    split
    · rw [List.foldlM_append, List.foldlM_append]
      cases List.foldlM (pumpLine P) (st, []) (scanLines (A0 ++ ['\n'])) with
      | none => rfl
      | some acc =>
        simp only [Option.bind_eq_bind, Option.some_bind]
        rw [key]
    · rfl

/-- Witness of C10: the line `no arrow here` between a class header and a field
line; the recording processor receives the class mapping and the field mapping
with and without it. -/
theorem C10_line_without_arrow_is_skipped_witness :
    Pump recorder [] "A -> a:\nno arrow here\nint x -> y\n".toList =
      Pump recorder [] "A -> a:\nint x -> y\n".toList ∧
    Pump recorder [] "A -> a:\nint x -> y\n".toList =
      some [Call.classMapping "A".toList "a".toList,
        Call.fieldMapping "A".toList "int".toList "x".toList "A".toList "y".toList] :=
  ⟨C10_line_without_arrow_is_skipped recorder [] "A -> a:\n".toList "no arrow here".toList
    "int x -> y\n".toList (Or.inr ⟨"A -> a:".toList, rfl⟩) (by decide) (by decide) (by decide)
    (by decide),
    by decide⟩

/-- Counterexample to C10 as stated: the line `foo:` contains no `->`. With it
between the class header and the field line the processor receives the class
mapping only, without it the class mapping and the field mapping. -/
theorem C10_counterexample_line_ending_with_colon :
    Index "foo:".toList ['-', '>'] < 0 ∧
    Pump recorder [] "A -> a:\nfoo:\nint x -> y\n".toList =
      some [Call.classMapping "A".toList "a".toList] ∧
    Pump recorder [] "A -> a:\nint x -> y\n".toList =
      some [Call.classMapping "A".toList "a".toList,
        Call.fieldMapping "A".toList "int".toList "x".toList "A".toList "y".toList] := by
  decide

/-- C12, as amended: a line that is not a comment, ends with a colon once
trimmed and contains no `->`, followed by any lines that do not end with a
colon (member lines, comments, blank lines). Whatever the processor, its state
and the current class name before, the loop of `Pump` over these lines leaves
the state of the processor as it was, so no class, field or method mapping is
emitted, and ends with the empty class name. -/
theorem C12_header_without_arrow_clears_class {σ : Type} (P : MappingProcessor σ) (st : σ)
    (className text : Str) (following : List Str)
    (harrow : Index text ['-', '>'] < 0)
    (hcomment : HasPrefix (TrimSpace text) ['#'] = false)
    (hcolon : HasSuffix (TrimSpace text) [':'] = true)
    (hfollowing : ∀ l ∈ following, HasSuffix (TrimSpace l) [':'] = false) :
    pumpLine P (st, className) text = some (st, []) ∧
    (text :: following).foldlM (pumpLine P) (st, className) = some (st, []) := by
  have h1 := pumpLine_header_no_arrow P (st, className) text harrow hcomment hcolon
  refine ⟨h1, ?_⟩
  rw [List.foldlM_cons, h1]
  simp only [Option.bind_eq_bind, Option.some_bind]
  induction following with
  | nil => rfl
  | cons a t ih =>
    rw [List.foldlM_cons, pumpLine_no_class P st a (hfollowing a (List.mem_cons_self _ _))]
    simp only [Option.bind_eq_bind, Option.some_bind]
    exact ih (fun l hl => hfollowing l (List.mem_cons_of_mem _ hl))

/-- Witness of C12: the line `foo:` after the class `A`, followed by a field
line and a method line; the recording processor receives nothing. -/
theorem C12_header_without_arrow_clears_class_witness :
    pumpLine recorder ([], "A".toList) "foo:".toList = some ([], []) ∧
    ["foo:".toList, "    int x -> y".toList, "    1:2:void f() -> g".toList].foldlM
      (pumpLine recorder) ([], "A".toList) = some ([], []) :=
  C12_header_without_arrow_clears_class recorder [] "A".toList "foo:".toList
    ["    int x -> y".toList, "    1:2:void f() -> g".toList]
    (by decide) (by decide) (by decide) (by decide)

/-- Counterexample to C12 as stated: the line `#note:` ends with a colon and
contains no `->`, but it is a comment: the class `A` stays current and the
field line after it is emitted. -/
theorem C12_counterexample_comment_line :
    HasSuffix "#note:".toList [':'] = true ∧ Index "#note:".toList ['-', '>'] < 0 ∧
    Pump recorder [] "A -> a:\n#note:\nint x -> y\n".toList =
      some [Call.classMapping "A".toList "a".toList,
        Call.fieldMapping "A".toList "int".toList "x".toList "A".toList "y".toList] := by
  decide

end Retrace

namespace Retrace

open MappingReader FrameRemapper

theorem TrimSpace_of_ends (s : Str) (h1 : ∀ a, s.head? = some a → isSpace a = false)
    (h2 : ∀ a, s.getLast? = some a → isSpace a = false) : TrimSpace s = s := by
  unfold TrimSpace
  have e1 : s.dropWhile isSpace = s := by
    cases s with
    | nil => rfl
    | cons a t => exact List.dropWhile_cons_of_neg (by simp [h1 a rfl])
  rw [e1, List.rdropWhile_eq_self_iff]
  intro hne
  have := h2 _ (List.getLast?_eq_getLast _ hne)
  simp [this]

theorem HasSuffix_colon_of_last (s : Str) (c : Char) (hc : c ≠ ':') :
    HasSuffix (s ++ [c]) [':'] = false := by
  by_contra h
  have ht : HasSuffix (s ++ [c]) [':'] = true := by simpa using h
  unfold HasSuffix at ht
  obtain ⟨t, e⟩ := List.isSuffixOf_iff_suffix.mp ht
  have := List.append_inj' e rfl
  exact hc (List.singleton_inj.mp this.2).symm

/-- The class line `O -> N:`. -/
theorem pumpLine_header {σ : Type} (P : MappingProcessor σ) (acc : σ × Str) (O N : Str)
    (hO : plain O = true) (hO0 : O ≠ []) (hOa : Index O ['-', '>'] < 0)
    (hOc : O.head? ≠ some '#') (hN : plain N = true) :
    pumpLine P acc (O ++ ' ' :: '-' :: '>' :: ' ' :: (N ++ [':'])) =
      some ((P.ProcessClassMapping acc.1 O N).1,
        if (P.ProcessClassMapping acc.1 O N).2 = true then O else []) := by
  obtain ⟨hOs, _, _, _, _⟩ := plain_spec O hO
  obtain ⟨hNs, hNc, _, _, _⟩ := plain_spec N hN
  obtain ⟨o0, O1, rfl⟩ := List.exists_cons_of_ne_nil hO0
  generalize hline : (o0 :: O1) ++ ' ' :: '-' :: '>' :: ' ' :: (N ++ [':']) = line
  have hlast : line.getLast? = some ':' := by
    rw [← hline]
    have : (o0 :: O1) ++ ' ' :: '-' :: '>' :: ' ' :: (N ++ [':']) =
        ((o0 :: O1) ++ ' ' :: '-' :: '>' :: ' ' :: N) ++ [':'] := by simp
    rw [this, List.getLast?_append]
    rfl
  have hhead : line.head? = some o0 := by
    rw [← hline]
    rfl
  have htrim : TrimSpace line = line := by
    apply TrimSpace_of_ends
    · intro a ha
      rw [hhead] at ha
      rw [← Option.some.inj ha]
      exact hOs o0 (List.mem_cons_self _ _)
    · intro a ha
      rw [hlast] at ha
      rw [← Option.some.inj ha]
      decide
  have hlen : ¬ line.length = 0 := by
    rw [← hline]
    simp
  have hcomment : HasPrefix line ['#'] = false := by
    rw [← hline]
    unfold HasPrefix
    have : ¬ ('#' = o0) := fun e => hOc (by rw [e]; rfl)
    simp [List.isPrefixOf, this]
  have hsuffix : HasSuffix line [':'] = true := by
    unfold HasSuffix
    rw [List.isSuffixOf_iff_suffix, ← hline]
    exact ⟨(o0 :: O1) ++ ' ' :: '-' :: '>' :: ' ' :: N, by simp⟩
  obtain ⟨ar, e1⟩ : ∃ ar : Int, ar = (0 : Int) + (o0 :: O1).length + 1 := ⟨_, rfl⟩
  obtain ⟨co, e2⟩ : ∃ co : Int, co = ar + 2 + ((' ' :: N).length : Nat) := ⟨_, rfl⟩
  have i1 : IndexOf line ['-', '>'] 0 = some ar := by
    rw [IndexOf_arrow_found line [] (o0 :: O1) (' ' :: (N ++ [':'])) 0
      (by rw [← hline]; rfl) (by simp) hOa, e1]
  have i2 : IndexOf line [':'] (ar + 2) = some co := by
    rw [IndexOf_char_found line ((o0 :: O1) ++ [' ', '-', '>']) (' ' :: N) [] ':' (ar + 2)
      (by rw [← hline]; simp) (by simp [e1]; omega)
      (by
        intro h
        rcases List.mem_cons.mp h with h | h
        · exact absurd h (by decide)
        · exact hNc h), e2]
  have s1 : slice line 0 ar = some ((o0 :: O1) ++ [' ']) :=
    slice_eq line [] ((o0 :: O1) ++ [' ']) ('-' :: '>' :: ' ' :: (N ++ [':'])) _ _
      (by rw [← hline]; simp) (by simp) (by simp [e1])
  have s2 : slice line (ar + 2) co = some (' ' :: N) :=
    slice_eq line ((o0 :: O1) ++ [' ', '-', '>']) (' ' :: N) [':'] _ _
      (by rw [← hline]; simp) (by simp [e1]; omega) (by simp [e1, e2]; omega)
  have hpc : MappingReader.ProcessClassMapping P acc.1 line =
      some ((P.ProcessClassMapping acc.1 (o0 :: O1) N).1,
        if (P.ProcessClassMapping acc.1 (o0 :: O1) N).2 = true then o0 :: O1 else []) := by
    unfold MappingReader.ProcessClassMapping
    rw [i1, some_bind_eq, if_neg (by omega), i2, some_bind_eq, if_neg (by omega), s1,
      some_bind_eq, s2, some_bind_eq, TrimSpace_space_right _ hOs, TrimSpace_space_left _ hNs]
    cases h : (P.ProcessClassMapping acc.1 (o0 :: O1) N).2 <;> simp [h]
  unfold pumpLine
  simp only [htrim]
  rw [if_neg hlen, hcomment, if_neg (by decide), hsuffix, if_pos rfl, hpc]

/-- The field line `T name -> m` under the current class `cls`. -/
theorem pumpLine_field {σ : Type} (P : MappingProcessor σ) (st : σ) (cls cls2 T nm n m : Str)
    (hcls : cls ≠ [])
    (hT : plain T = true) (hT0 : T ≠ []) (hTc : T.head? ≠ some '#')
    (hnm : plain nm = true) (hn0 : n ≠ [])
    (harrow : Index nm ['-', '>'] < 0) (hm : plain m = true) (hm0 : m ≠ [])
    (hdot : (LastIndex nm ['.'] < 0 ∧ cls2 = cls ∧ n = nm) ∨
      (LastIndex nm ['.'] ≥ 0 ∧ sliceTo nm (LastIndex nm ['.']) = some cls2 ∧
        sliceFrom nm (LastIndex nm ['.'] + 1) = some n)) :
    pumpLine P (st, cls) (T ++ ' ' :: (nm ++ ' ' :: '-' :: '>' :: ' ' :: m)) =
      some (P.ProcessFieldMapping st cls2 T n cls m, cls) := by
  have hmf := member_field P st cls cls2 T nm n m hT hT0 hnm hn0 harrow hm hm0 hdot
  obtain ⟨hTs, _, _, _, _⟩ := plain_spec T hT
  obtain ⟨hms, hmc, _, _, _⟩ := plain_spec m hm
  obtain ⟨t0, T1, rfl⟩ := List.exists_cons_of_ne_nil hT0
  obtain ⟨mi, ml, rfl⟩ : ∃ mi ml, m = mi ++ [ml] :=
    ⟨m.dropLast, m.getLast hm0, (List.dropLast_append_getLast hm0).symm⟩
  generalize hline : (t0 :: T1) ++ ' ' :: (nm ++ ' ' :: '-' :: '>' :: ' ' :: (mi ++ [ml])) = line
    at hmf
  have hlineL : line = ((t0 :: T1) ++ ' ' :: (nm ++ ' ' :: '-' :: '>' :: ' ' :: mi)) ++ [ml] := by
    rw [← hline]
    simp
  have hhead : line.head? = some t0 := by
    rw [← hline]
    rfl
  have hlast : line.getLast? = some ml := by
    rw [hlineL, List.getLast?_append]
    rfl
  have htrim : TrimSpace line = line := by
    apply TrimSpace_of_ends
    · intro a ha
      rw [hhead] at ha
      rw [← Option.some.inj ha]
      exact hTs t0 (List.mem_cons_self _ _)
    · intro a ha
      rw [hlast] at ha
      rw [← Option.some.inj ha]
      exact hms ml (by simp)
  have hlen : ¬ line.length = 0 := by
    rw [← hline]
    simp
  have hcomment : HasPrefix line ['#'] = false := by
    rw [← hline]
    unfold HasPrefix
    have : ¬ ('#' = t0) := fun e => hTc (by rw [e]; rfl)
    simp [List.isPrefixOf, this]
  have hsuffix : HasSuffix line [':'] = false := by
    rw [hlineL]
    exact HasSuffix_colon_of_last _ ml (fun e => hmc (by rw [← e]; simp))
  have hc : (st, cls).2.length > 0 := List.length_pos.mpr hcls
  unfold pumpLine
  simp only [htrim]
  rw [if_neg hlen, hcomment, if_neg (by decide), hsuffix, if_neg (by decide), if_pos hc]
  simp only [hmf, Option.bind_eq_bind, Option.some_bind]
  rfl

end Retrace

namespace Retrace

open MappingReader FrameRemapper

theorem newline_not_mem_plain (s : Str) (h : plain s = true) : '\n' ∉ s := by
  intro hc
  have := (plain_spec s h).1 _ hc
  revert this
  decide

theorem storedFields_after_field (O N T f g : Str) :
    storedFields (((NewFrameRemapper.ProcessClassMapping O N).1).ProcessFieldMapping O T f O g)
      O g = [⟨O, T, f⟩] := by
  unfold storedFields FrameRemapper.ProcessFieldMapping FrameRemapper.ProcessClassMapping
    NewFrameRemapper GoMap.set GoMap.empty setAdd
  simp

/-- C3, as amended: `O`, `N`, `T`, `f`, `g` are not empty and free of white
space, colons and parentheses, `O` and `f` contain no `->`, `f` contains no
dot, neither `O` nor `T` starts with `#`, and each of the two lines `O -> N:`
and `T f -> g` has fewer than 65536 bytes. `Pump` over the two lines into a
fresh `FrameRemapper` does not fail, and
`Transform` of the frame with class `N` and field name `g` (every other field
empty, line 0) returns exactly one frame, with class `O`, type `T` and field
name `f`. -/
theorem C3_pump_then_transform_field (order : ValuesOrder) (O N T f g : Str)
    (hO : plain O = true) (hO0 : O ≠ []) (hOa : Index O ['-', '>'] < 0)
    (hOc : O.head? ≠ some '#')
    (hN : plain N = true) (hN0 : N ≠ [])
    (hT : plain T = true) (hT0 : T ≠ []) (hTc : T.head? ≠ some '#')
    (hf : plain f = true) (hf0 : f ≠ []) (hfa : Index f ['-', '>'] < 0) (hfd : '.' ∉ f)
    (hg : plain g = true) (hg0 : g ≠ [])
    (hlen1 : byteLength (O ++ [' ', '-', '>', ' '] ++ N ++ [':']) < MaxScanTokenSize)
    (hlen2 : byteLength (T ++ [' '] ++ f ++ [' ', '-', '>', ' '] ++ g) < MaxScanTokenSize) :
    ∃ remapper,
      Pump FrameRemapper.processor NewFrameRemapper
          (O ++ [' ', '-', '>', ' '] ++ N ++ [':', '\n'] ++ T ++ [' '] ++ f ++
            [' ', '-', '>', ' '] ++ g ++ ['\n']) = some remapper ∧
      remapper.Transform order ⟨N, [], 0, [], g, [], []⟩ =
        some [⟨O, sourceFileName O, 0, T, f, [], []⟩] := by
  refine ⟨((NewFrameRemapper.ProcessClassMapping O N).1).ProcessFieldMapping O T f O g, ?_, ?_⟩
  · have hn1 : '\n' ∉ O ++ ' ' :: '-' :: '>' :: ' ' :: (N ++ [':']) := by
      have h1 := newline_not_mem_plain O hO
      have h2 := newline_not_mem_plain N hN
      intro h
      rcases List.mem_append.mp h with h | h
      · exact h1 h
      · simp only [List.mem_cons, List.mem_append, List.mem_singleton] at h
        rcases h with h | h | h | h | h | h
        · exact absurd h (by decide)
        · exact absurd h (by decide)
        · exact absurd h (by decide)
        · exact absurd h (by decide)
        · exact h2 h
        · simp at h
    have hn2 : '\n' ∉ T ++ ' ' :: (f ++ ' ' :: '-' :: '>' :: ' ' :: g) := by
      have h1 := newline_not_mem_plain T hT
      have h2 := newline_not_mem_plain f hf
      have h3 := newline_not_mem_plain g hg
      intro h
      rcases List.mem_append.mp h with h | h
      · exact h1 h
      · rcases List.mem_cons.mp h with h | h
        · exact absurd h (by decide)
        · rcases List.mem_append.mp h with h | h
          · exact h2 h
          · exact not_mem_arrow_tail '\n' g (by decide) (by decide) (by decide) h3 h
    have e : O ++ [' ', '-', '>', ' '] ++ N ++ [':', '\n'] ++ T ++ [' '] ++ f ++
        [' ', '-', '>', ' '] ++ g ++ ['\n'] =
        (O ++ ' ' :: '-' :: '>' :: ' ' :: (N ++ [':'])) ++ '\n' ::
          ((T ++ ' ' :: (f ++ ' ' :: '-' :: '>' :: ' ' :: g)) ++ '\n' :: []) := by
      simp
    have hl1 : byteLength (O ++ ' ' :: '-' :: '>' :: ' ' :: (N ++ [':'])) < MaxScanTokenSize := by
      have e1 : O ++ ' ' :: '-' :: '>' :: ' ' :: (N ++ [':']) =
          O ++ [' ', '-', '>', ' '] ++ N ++ [':'] := by simp
      rw [e1]
      exact hlen1
    have hl2 : byteLength (T ++ ' ' :: (f ++ ' ' :: '-' :: '>' :: ' ' :: g)) <
        MaxScanTokenSize := by
      have e2 : T ++ ' ' :: (f ++ ' ' :: '-' :: '>' :: ' ' :: g) =
          T ++ [' '] ++ f ++ [' ', '-', '>', ' '] ++ g := by simp
      rw [e2]
      exact hlen2
    unfold Pump
    rw [e, scanLines_line _ _ hn1 hl1, scanLines_line _ _ hn2 hl2, scanLines_nil]
    simp only [List.foldlM_cons, List.foldlM_nil, pumpLine_dropCR]
    rw [pumpLine_header FrameRemapper.processor (NewFrameRemapper, []) O N hO hO0 hOa hOc hN]
    simp only [Option.bind_eq_bind, Option.some_bind]
    have hint : (FrameRemapper.processor.ProcessClassMapping NewFrameRemapper O N).2 = true :=
      rfl
    rw [if_pos hint, pumpLine_field FrameRemapper.processor _ O O T f f g hO0 hT hT0 hTc hf hf0
      hfa hg hg0 (dot_absent O f hfd)]
    rfl
  · generalize hr : ((NewFrameRemapper.ProcessClassMapping O N).1).ProcessFieldMapping O T f O g
      = r
    have hcn : r.GetOriginalClassName N = O := by
      rw [← hr]
      unfold GetOriginalClassName FrameRemapper.ProcessFieldMapping
        FrameRemapper.ProcessClassMapping NewFrameRemapper GoMap.set
      simp
    have hnil : r.GetOriginalClassName [] = [] := by
      rw [← hr]
      unfold GetOriginalClassName FrameRemapper.ProcessFieldMapping
        FrameRemapper.ProcessClassMapping NewFrameRemapper GoMap.set GoMap.empty
      have : ¬ ([] : Str) = N := fun e => hN0 e.symm
      simp [this]
    have hmm : r.ClassMethodMap O = none := by
      rw [← hr]
      rfl
    have hst : storedFields r O g = [⟨O, T, f⟩] := by
      rw [← hr]
      exact storedFields_after_field O N T f g
    have hmc : methodCandidates r ⟨N, [], 0, [], g, [], []⟩ = [] :=
      methodCandidates_of_no_methods r _ (by rw [hcn]; exact hmm)
    have hfc : fieldCandidates order r ⟨N, [], 0, [], g, [], []⟩ =
        [⟨O, sourceFileName O, 0, T, f, [], []⟩] := by
      unfold fieldCandidates
      simp only [hcn, hst, originalType_nil, hnil]
      rw [List.Perm.eq_singleton (order.perm _)]
      rfl
    rw [Transform_eq, hfc, hmc]
    rfl

/-- Witness of C3: the lines `a.b.Orig -> x:` and `int count -> c`. -/
theorem C3_pump_then_transform_field_witness :
    ∃ remapper,
      Pump FrameRemapper.processor NewFrameRemapper
          "a.b.Orig -> x:\nint count -> c\n".toList = some remapper ∧
      remapper.Transform insertionOrder ⟨"x".toList, [], 0, [], "c".toList, [], []⟩ =
        some [⟨"a.b.Orig".toList, "Orig.java".toList, 0, "int".toList, "count".toList, [],
          []⟩] :=
  C3_pump_then_transform_field insertionOrder "a.b.Orig".toList "x".toList "int".toList
    "count".toList "c".toList (by decide) (by decide) (by decide) (by decide) (by decide)
    (by decide) (by decide) (by decide) (by decide) (by decide) (by decide) (by decide)
    (by decide) (by decide) (by decide) (by decide) (by decide)

/-- Counterexample to C3 as stated: the names `#A`, `b`, `int`, `x`, `y` are
not empty and contain no white space, colon, parenthesis, `->` or dot, but the
line `#A -> b:` is a comment for `Pump`: nothing is stored, and the frame with
class `b` and field `y` comes back with class `b` and field `y`. -/
theorem C3_counterexample_name_starting_with_hash :
    (plain "#A".toList = true ∧ Index "#A".toList ['-', '>'] < 0) ∧
    ∃ remapper,
      Pump FrameRemapper.processor NewFrameRemapper "#A -> b:\nint x -> y\n".toList =
        some remapper ∧
      remapper.Transform insertionOrder ⟨"b".toList, [], 0, [], "y".toList, [], []⟩ =
        some [⟨"b".toList, "b.java".toList, 0, [], "y".toList, [], []⟩] := by
  refine ⟨by decide, NewFrameRemapper, ?_, by decide⟩
  rfl

end Retrace

namespace Retrace

open MappingReader FrameRemapper

theorem plain_dotted (q n : Str) (hq : plain q = true) (hn : plain n = true) :
    plain (q ++ '.' :: n) = true := by
  unfold plain at hq hn ⊢
  rw [List.all_append, List.all_cons, hq, hn]
  decide

theorem mem_setAdd {α : Type} [DecidableEq α] (items : List α) (item : α) :
    item ∈ setAdd items item := by
  unfold setAdd
  by_cases h : item ∈ items
  · rw [if_pos h]
    exact h
  · rw [if_neg h]
    simp

end Retrace

namespace Retrace

/-- C11, on the input where the code departs from it: the method line
`1:x:void foo() -> b`, whose lastLine `x` is not a valid integer
(`Atoi` gives an error for it), makes `ProcessClassMemberMapping` emit a method
mapping, with 0 for the lastLine, and return no error. -/
theorem C11_invalid_last_line_is_accepted :
    (Atoi ['x']).2 = some GoError.invalidNumber ∧
    MappingReader.ProcessClassMemberMapping recorder [] ['K']
        ['1', ':', 'x', ':', 'v', ' ', 'f', '(', ')', ' ', '-', '>', ' ', 'b'] =
      some ([Call.methodMapping ['K'] 1 0 ['v'] ['f'] [] ['K'] 1 0 ['b']], none) := by
  constructor
  · decide
  · decide

end Retrace

namespace Retrace

open FrameRemapper

theorem GetOriginalClassName_nil (remapper : FrameRemapper) (h : remapper.ClassMap [] = none) :
    remapper.GetOriginalClassName [] = [] := by
  unfold GetOriginalClassName
  rw [h]

theorem matches_wildcards_iff (info : MethodInfo) (k : Int) :
    info.Matches k [] [] =
      decide (k = 0 ∨ info.ObfuscatedLastLineNumber = 0 ∨
        (info.ObfuscatedFirstLineNumber ≤ k ∧ k ≤ info.ObfuscatedLastLineNumber)) := by
  unfold MethodInfo.Matches
  rw [Bool.eq_iff_iff]
  simp [or_assoc]

/-- C13, as amended: the class table has no entry for the empty name. For a
frame with empty type and empty arguments, `transformMethodInfo` appends one
frame for each method info stored under the resolved class of the frame and its
method name, in the order of their insertion, for which the line number of the
frame is 0, or the obfuscated last line of the entry is 0, or the line number
of the frame lies between the obfuscated first and last line of the entry; it
appends nothing for the other entries. -/
theorem C13_method_line_range (remapper : FrameRemapper) (frame : FrameInfo)
    (acc : List FrameInfo)
    (hEmpty : remapper.ClassMap [] = none)
    (hType : frame.Type_ = []) (hArguments : frame.Arguments = []) :
    remapper.transformMethodInfo frame (remapper.GetOriginalClassName frame.ClassName) acc =
      some (acc ++
        ((storedMethods remapper (remapper.GetOriginalClassName frame.ClassName)
            frame.MethodName).filter
          (fun info => decide (frame.LineNumber = 0 ∨ info.ObfuscatedLastLineNumber = 0 ∨
            (info.ObfuscatedFirstLineNumber ≤ frame.LineNumber ∧
              frame.LineNumber ≤ info.ObfuscatedLastLineNumber)))).map
          (methodCandidate frame)) := by
  rw [transformMethodInfo_eq]
  unfold methodCandidates
  rw [hType, hArguments, originalType_nil, originalArguments_nil,
    GetOriginalClassName_nil remapper hEmpty]
  simp only [matches_wildcards_iff]

/-- Witness of C13: under `Orig -> Obf` the method name `a` has the entries
`1:3:void f1() -> a`, `5:7:void f2() -> a` and `void f3() -> a`; for the line 2
the first and the third give a frame, the second does not. -/
theorem C13_method_line_range_witness :
    ((((NewFrameRemapper.ProcessClassMapping "Orig".toList "Obf".toList).1.ProcessMethodMapping
        "Orig".toList 1 3 "void".toList "f1".toList [] "Orig".toList 1 3
        "a".toList).ProcessMethodMapping
        "Orig".toList 5 7 "void".toList "f2".toList [] "Orig".toList 5 7
        "a".toList).ProcessMethodMapping
        "Orig".toList 0 0 "void".toList "f3".toList [] "Orig".toList 0 0
        "a".toList).transformMethodInfo ⟨"Obf".toList, [], 2, [], [], "a".toList, []⟩
          "Orig".toList [] =
      some [⟨"Orig".toList, "Orig.java".toList, 2, "void".toList, [], "f1".toList, []⟩,
        ⟨"Orig".toList, "Orig.java".toList, 2, "void".toList, [], "f3".toList, []⟩] :=
  (C13_method_line_range
    ((((NewFrameRemapper.ProcessClassMapping "Orig".toList "Obf".toList).1.ProcessMethodMapping
        "Orig".toList 1 3 "void".toList "f1".toList [] "Orig".toList 1 3
        "a".toList).ProcessMethodMapping
        "Orig".toList 5 7 "void".toList "f2".toList [] "Orig".toList 5 7
        "a".toList).ProcessMethodMapping
        "Orig".toList 0 0 "void".toList "f3".toList [] "Orig".toList 0 0
        "a".toList)
    ⟨"Obf".toList, [], 2, [], [], "a".toList, []⟩ [] (by decide) rfl rfl).trans (by decide)

/-- Counterexample to C13 as stated: the class table holds `P -> ` (the
obfuscated name is empty) and `Orig -> Obf`, and `void foo() -> a` is stored
under `Orig`. The frame of class `Obf` and method `a` has empty type, empty
arguments and line number 0, and the obfuscated last line of the entry is 0,
but no method frame is produced: the empty type of the frame is resolved to
`P`. -/
theorem C13_counterexample_empty_class_name :
    (((NewFrameRemapper.ProcessClassMapping "P".toList []).1.ProcessClassMapping
        "Orig".toList "Obf".toList).1.ProcessMethodMapping
        "Orig".toList 0 0 "void".toList "foo".toList [] "Orig".toList 0 0
        "a".toList).transformMethodInfo ⟨"Obf".toList, [], 0, [], [], "a".toList, []⟩
          "Orig".toList [] = some [] ∧
    storedMethods (((NewFrameRemapper.ProcessClassMapping "P".toList []).1.ProcessClassMapping
        "Orig".toList "Obf".toList).1.ProcessMethodMapping
        "Orig".toList 0 0 "void".toList "foo".toList [] "Orig".toList 0 0
        "a".toList) "Orig".toList "a".toList =
      [⟨0, 0, "Orig".toList, 0, 0, "void".toList, "foo".toList, []⟩] := by
  decide

/-- C14, as amended: `transformFieldInfo` appends one frame for each field info
stored under the resolved class of the frame and its field name, in the order
of `Values`, for which the type of the frame resolved through the class table
is empty or equals the original type of the field info, and nothing for the
others. The frame has the original class, type and name of the field info, the
source file name of that class, and the line number, method name and arguments
of the frame given. `Transform` returns these frames, followed by the method
frames. -/
theorem C14_field_candidates (order : ValuesOrder) (remapper : FrameRemapper)
    (frame : FrameInfo) (acc : List FrameInfo) :
    remapper.transformFieldInfo order frame (remapper.GetOriginalClassName frame.ClassName)
        acc =
      some (acc ++
        ((order.Values (storedFields remapper (remapper.GetOriginalClassName frame.ClassName)
            frame.FieldName)).filter
          (fun info => decide (originalType remapper frame.Type_ = [] ∨
            originalType remapper frame.Type_ = info.OriginalType))).map
          (fun info => ⟨info.OriginalClassName, sourceFileName info.OriginalClassName,
            frame.LineNumber, info.OriginalType, info.OriginalName, frame.MethodName,
            frame.Arguments⟩)) ∧
    remapper.getOriginalType frame.Type_ = some (originalType remapper frame.Type_) ∧
    remapper.Transform order frame =
      some (if fieldCandidates order remapper frame ++ methodCandidates remapper frame = [] then
          [passthroughCandidate remapper frame]
        else fieldCandidates order remapper frame ++ methodCandidates remapper frame) := by
  refine ⟨?_, getOriginalType_eq remapper _, Transform_eq order remapper frame⟩
  rw [transformFieldInfo_eq]
  unfold fieldCandidates
  have h : (fun fieldInfo : FieldInfo => fieldInfo.Matches (originalType remapper frame.Type_)) =
      (fun info => decide (originalType remapper frame.Type_ = [] ∨
        originalType remapper frame.Type_ = info.OriginalType)) := by
    funext info
    unfold FieldInfo.Matches
    rw [Bool.eq_iff_iff]
    simp [List.isEmpty_iff]
  rw [h]
  rfl

/-- Counterexample to C14 as stated: the class table holds `P -> ` (the
obfuscated name is empty) and `Orig -> Obf`, and the field `int x -> y` is
stored under `Orig`. The frame of class `Obf` with field `y` has an empty type,
but no field frame is produced and `Transform` returns the frame with the field
name `y`: the empty type is resolved to `P`, which is not `int`. -/
theorem C14_counterexample_empty_class_name :
    storedFields (((NewFrameRemapper.ProcessClassMapping "P".toList []).1.ProcessClassMapping
        "Orig".toList "Obf".toList).1.ProcessFieldMapping
        "Orig".toList "int".toList "x".toList "Orig".toList "y".toList)
        "Orig".toList "y".toList = [⟨"Orig".toList, "int".toList, "x".toList⟩] ∧
    (((NewFrameRemapper.ProcessClassMapping "P".toList []).1.ProcessClassMapping
        "Orig".toList "Obf".toList).1.ProcessFieldMapping
        "Orig".toList "int".toList "x".toList "Orig".toList "y".toList).Transform
        insertionOrder ⟨"Obf".toList, [], 0, [], "y".toList, [], []⟩ =
      some [⟨"Orig".toList, "Orig.java".toList, 0, [], "y".toList, [], []⟩] := by
  decide

/-- C15: when `transformFieldInfo` and `transformMethodInfo` produce no frame,
`Transform` returns exactly one frame: its class is the resolved class name,
its source file is that of the frame given when it is not empty and the source
file name of the resolved class when it is empty, and its line number, type,
field name, method name and arguments are those of the frame given. -/
theorem C15_passthrough (order : ValuesOrder) (remapper : FrameRemapper) (frame : FrameInfo)
    (hfields : remapper.transformFieldInfo order frame
      (remapper.GetOriginalClassName frame.ClassName) [] = some [])
    (hmethods : remapper.transformMethodInfo frame
      (remapper.GetOriginalClassName frame.ClassName) [] = some []) :
    remapper.Transform order frame =
      some [⟨remapper.GetOriginalClassName frame.ClassName,
        if frame.SourceFile = [] then
          sourceFileName (remapper.GetOriginalClassName frame.ClassName)
        else frame.SourceFile,
        frame.LineNumber, frame.Type_, frame.FieldName, frame.MethodName, frame.Arguments⟩] ∧
    getSourceFileName (remapper.GetOriginalClassName frame.ClassName) =
      some (sourceFileName (remapper.GetOriginalClassName frame.ClassName)) := by
  refine ⟨?_, getSourceFileName_eq _⟩
  rw [transformFieldInfo_eq] at hfields
  rw [transformMethodInfo_eq] at hmethods
  simp only [List.nil_append, Option.some.injEq] at hfields hmethods
  rw [Transform_eq, hfields, hmethods]
  rfl

/-- Witness of C15: the table `Orig -> Obf` with the field `int x -> y`; a
frame of class `Obf`, method `m`, source file `Unknown Source` and line 5 comes
back with the class `Orig` and everything else as it was. -/
theorem C15_passthrough_witness :
    ((NewFrameRemapper.ProcessClassMapping "Orig".toList "Obf".toList).1.ProcessFieldMapping
        "Orig".toList "int".toList "x".toList "Orig".toList "y".toList).Transform
        insertionOrder
        ⟨"Obf".toList, "Unknown Source".toList, 5, "int".toList, [], "m".toList, []⟩ =
      some [⟨"Orig".toList, "Unknown Source".toList, 5, "int".toList, [], "m".toList, []⟩] :=
  (C15_passthrough insertionOrder
    ((NewFrameRemapper.ProcessClassMapping "Orig".toList "Obf".toList).1.ProcessFieldMapping
        "Orig".toList "int".toList "x".toList "Orig".toList "y".toList)
    ⟨"Obf".toList, "Unknown Source".toList, 5, "int".toList, [], "m".toList, []⟩
    (by decide) (by decide)).1

end Retrace

namespace Retrace

theorem sliceFrom_zero (line : Str) : sliceFrom line 0 = some line :=
  sliceFrom_eq line [] line 0 rfl rfl

theorem byteLength_cons (c : Char) (cs : Str) :
    byteLength (c :: cs) = c.utf8Size + byteLength cs := by
  unfold byteLength
  simp

theorem charOffset_zero (s : Str) : charOffset s 0 = some 0 := by
  cases s <;> rfl

theorem charOffset_cons_pos (c : Char) (cs : Str) (n : Nat) (hn : 0 < n) :
    charOffset (c :: cs) n =
      if c.utf8Size ≤ n then (charOffset cs (n - c.utf8Size)).map (· + 1) else none := by
  obtain ⟨k, rfl⟩ : ∃ k, n = k + 1 := ⟨n - 1, by omega⟩
  rfl

theorem charOffset_nil_pos (n : Nat) (hn : 0 < n) : charOffset [] n = none := by
  obtain ⟨k, rfl⟩ : ∃ k, n = k + 1 := ⟨n - 1, by omega⟩
  rfl

/-- The byte offset of the end of a string is behind all its characters. -/
theorem charOffset_byteLength (s : Str) : charOffset s (byteLength s) = some s.length := by
  induction s with
  | nil => rfl
  | cons c cs ih =>
    have hpos := Char.utf8Size_pos c
    rw [byteLength_cons, charOffset_cons_pos c cs _ (by omega), if_pos (by omega),
      Nat.add_sub_cancel_left, ih]
    rfl

theorem charOffset_le_length (s : Str) (n k : Nat) (h : charOffset s n = some k) :
    k ≤ s.length := by
  induction s generalizing n k with
  | nil =>
    rcases Nat.eq_zero_or_pos n with h0 | hpos
    · subst h0
      cases h
      exact Nat.le_refl _
    · rw [charOffset_nil_pos n hpos] at h
      cases h
  | cons c cs ih =>
    rcases Nat.eq_zero_or_pos n with h0 | hpos
    · subst h0
      cases h
      exact Nat.zero_le _
    · rw [charOffset_cons_pos c cs n hpos] at h
      by_cases hc : c.utf8Size ≤ n
      · rw [if_pos hc] at h
        cases h1 : charOffset cs (n - c.utf8Size) with
        | none =>
          rw [h1] at h
          cases h
        | some k1 =>
          rw [h1] at h
          cases h
          have := ih _ _ h1
          simp only [List.length_cons]
          omega
      · rw [if_neg hc] at h
        cases h

theorem charOffset_mono (s : Str) (a b ca cb : Nat) (ha : charOffset s a = some ca)
    (hb : charOffset s b = some cb) (hab : a ≤ b) : ca ≤ cb := by
  induction s generalizing a b ca cb with
  | nil =>
    rcases Nat.eq_zero_or_pos a with h0 | hpos
    · subst h0
      cases ha
      exact Nat.zero_le _
    · rw [charOffset_nil_pos a hpos] at ha
      cases ha
  | cons c cs ih =>
    rcases Nat.eq_zero_or_pos a with h0 | hpos
    · subst h0
      cases ha
      exact Nat.zero_le _
    · rw [charOffset_cons_pos c cs a hpos] at ha
      rw [charOffset_cons_pos c cs b (by omega)] at hb
      by_cases hc : c.utf8Size ≤ a
      · rw [if_pos hc] at ha
        rw [if_pos (by omega)] at hb
        cases h1 : charOffset cs (a - c.utf8Size) with
        | none =>
          rw [h1] at ha
          cases ha
        | some k1 =>
          cases h2 : charOffset cs (b - c.utf8Size) with
          | none =>
            rw [h2] at hb
            cases hb
          | some k2 =>
            rw [h1] at ha
            rw [h2] at hb
            cases ha
            cases hb
            have := ih _ _ _ _ h1 h2 (by omega)
            show k1 + 1 ≤ k2 + 1
            omega
      · rw [if_neg hc] at ha
        cases ha

/-- A slice between two byte offsets that stand between characters, in terms of
the numbers of characters before them. -/
theorem byteSlice_eq_take_drop (line : Str) (a b ca cb : Nat)
    (ha : charOffset line a = some ca) (hb : charOffset line b = some cb) (hab : a ≤ b) :
    byteSlice line (a : Int) (b : Int) = some ((line.drop ca).take (cb - ca)) := by
  have h1 := charOffset_mono line a b ca cb ha hb hab
  have h2 := charOffset_le_length line b cb hb
  unfold byteSlice
  rw [if_pos ⟨by omega, by omega⟩]
  simp only [Int.toNat_ofNat, ha, hb, Option.bind_eq_bind, Option.some_bind]
  unfold slice
  rw [if_pos ⟨by omega, by omega, by omega⟩]
  simp only [Int.toNat_ofNat]

theorem charOffset_le_byteLength (s : Str) (n k : Nat) (h : charOffset s n = some k) :
    n ≤ byteLength s := by
  induction s generalizing n k with
  | nil =>
    rcases Nat.eq_zero_or_pos n with h0 | hpos
    · omega
    · rw [charOffset_nil_pos n hpos] at h
      cases h
  | cons c cs ih =>
    rcases Nat.eq_zero_or_pos n with h0 | hpos
    · omega
    · rw [charOffset_cons_pos c cs n hpos] at h
      by_cases hc : c.utf8Size ≤ n
      · rw [if_pos hc] at h
        cases h1 : charOffset cs (n - c.utf8Size) with
        | none =>
          rw [h1] at h
          cases h
        | some k1 =>
          have := ih _ _ h1
          rw [byteLength_cons]
          omega
      · rw [if_neg hc] at h
        cases h

theorem byteSliceFrom_eq_drop (line : Str) (a ca : Nat) (ha : charOffset line a = some ca) :
    byteSliceFrom line (a : Int) = some (line.drop ca) := by
  unfold byteSliceFrom
  rw [byteSlice_eq_take_drop line a (byteLength line) ca line.length ha
    (charOffset_byteLength line) (charOffset_le_byteLength line a ca ha)]
  rw [List.take_of_length_le (by simp)]

theorem byteSliceFrom_zero (line : Str) : byteSliceFrom line 0 = some line :=
  byteSliceFrom_eq_drop line 0 0 (charOffset_zero line)

theorem formatLoop_one (f : FramePattern) (line : Str) (results : List Int)
    (frameInfo : FrameInfo) (expressionTypeIndex : Int) (buffer : Str) (lineIndex : Int) :
    formatLoop f line results frameInfo 0 expressionTypeIndex buffer lineIndex =
      some (buffer, lineIndex) := rfl

/-- C16, on the input where the code departs from it: the pattern compiled from
the template `%c` has one placeholder, and `Format` with it returns every line
as it is, whatever the match and the frame information: the class name of the
frame information is not put in place of the matched class name. So for the
line `Foo`, matched as a whole by the one group, and the class name `X`, the
result is `Foo`. -/
theorem C16_last_placeholder_is_not_replaced :
    ∃ pattern : FramePattern, NewFramePattern ['%', 'c'] false = some pattern ∧
      pattern.ExpressionTypeCount = 1 ∧
      pattern.Pattern = ['('] ++ REGEX_CLASS ++ [')'] ∧
      (∀ (find : Str → Option (List Int)) (line : Str) (frameInfo : FrameInfo),
        pattern.Format find line frameInfo = some line) ∧
      pattern.Format (fun _ => some [0, 3, 0, 3]) ['F', 'o', 'o']
        ⟨['X'], [], 0, [], [], [], []⟩ = some ['F', 'o', 'o'] := by
  have h : NewFramePattern ['%', 'c'] false =
      some ⟨['%', 'c'], (List.replicate 32 []).set 1 ['c'], 1, ['('] ++ REGEX_CLASS ++ [')'],
        false⟩ := by decide
  refine ⟨_, h, rfl, rfl, ?_, ?_⟩
  · intro find line frameInfo
    unfold FramePattern.Format
    simp only [sub_self, Int.toNat_zero, formatLoop_one, Option.bind_eq_bind, Option.some_bind,
      byteSliceFrom_zero, List.nil_append, Option.pure_def]
  · decide

end Retrace

namespace Retrace

theorem regexFragment_unknown (x : Char)
    (hx : x ∉ ['c', 'C', 's', 'l', 't', 'f', 'm', 'a']) : regexFragment [x] = [] := by
  simp only [List.mem_cons, List.mem_singleton, List.not_mem_nil, or_false, not_or] at hx
  obtain ⟨h1, h2, h3, h4, h5, h6, h7, h8⟩ := hx
  unfold regexFragment
  simp [h1, h2, h3, h4, h5, h6, h7, h8]

theorem utf8Size_ascii (x : Char) (h : x.toNat < 128) : x.utf8Size = 1 := by
  unfold Char.utf8Size
  have h1 : x.val ≤ UInt32.ofNatCore 127 (by decide) := by
    rw [UInt32.le_def]
    show x.val.toNat ≤ 127
    unfold Char.toNat at h
    omega
  simp only [h1, if_true]

theorem utf8Size_not_ascii (x : Char) (h : ¬ x.toNat < 128) : x.utf8Size ≠ 1 := by
  unfold Char.utf8Size
  have h1 : ¬ x.val ≤ UInt32.ofNatCore 127 (by decide) := by
    rw [UInt32.le_def]
    show ¬ x.val.toNat ≤ 127
    unfold Char.toNat at h
    omega
  simp only [h1, if_false]
  split_ifs <;> decide

theorem byteLength_singleton (x : Char) : byteLength [x] = x.utf8Size := by
  unfold byteLength
  simp

theorem scanIteration_placeholder (done literal rest : Str) (x : Char) (s : PatternScan)
    (hascii : x.toNat < 128)
    (hindex : s.index = done.length) (hliteral : '%' ∉ literal)
    (hcount : 0 ≤ s.expressionTypeCount ∧ s.expressionTypeCount < 31) :
    scanIteration (done ++ (literal ++ '%' :: x :: rest)) s =
      some (true, ⟨s.buffer ++ literal ++ ['('] ++ regexFragment [x] ++ [')'],
        s.ExpressionTypes.set (s.expressionTypeCount + 1).toNat [x],
        s.expressionTypeCount + 1, s.index + literal.length + 2⟩) := by
  unfold scanIteration
  rw [sliceFrom_eq _ done (literal ++ '%' :: x :: rest) s.index rfl hindex]
  simp only [Option.bind_eq_bind, Option.some_bind]
  rw [Index_char_found literal (x :: rest) '%' hliteral]
  have hc : ¬ ((literal.length : Int) < 0 ∨
      (literal.length : Int) = ((done ++ (literal ++ '%' :: x :: rest)).length : Int) - 1 ∨
      s.expressionTypeCount = 32) := by
    simp only [List.length_append, List.length_cons, Nat.cast_add, Nat.cast_one]
    omega
  rw [if_neg hc]
  have h1 : slice (done ++ (literal ++ '%' :: x :: rest)) s.index (↑literal.length + s.index) =
      some literal :=
    slice_eq _ done literal ('%' :: x :: rest) _ _ rfl hindex (by omega)
  have h2 : slice (done ++ (literal ++ '%' :: x :: rest)) (↑literal.length + s.index + 1)
      (↑literal.length + s.index + 2) = some [x] :=
    slice_eq _ (done ++ (literal ++ ['%'])) [x] rest _ _ (by simp)
      (by simp only [List.length_append, List.length_singleton, Nat.cast_add, Nat.cast_one]; omega)
      (by simp only [List.length_append, List.length_singleton, Nat.cast_add, Nat.cast_one]; omega)
  rw [h1, h2]
  simp only [Option.some_bind]
  rw [if_neg (by rw [byteLength_singleton, utf8Size_ascii x hascii]; decide)]
  have h3 : arraySet s.ExpressionTypes (s.expressionTypeCount + 1) [x] =
      some (s.ExpressionTypes.set (s.expressionTypeCount + 1).toNat [x]) := by
    unfold arraySet
    rw [if_pos (by omega)]
  rw [h3]
  simp only [Option.some_bind, Option.pure_def, Option.some.injEq, Prod.mk.injEq, true_and,
    PatternScan.mk.injEq, and_true]
  omega

end Retrace

namespace Retrace

/-- C19, as amended: in the body of the loop of `Retrace`, both frames are
parsed from the obfuscated line that was read, the second one with pattern 2;
the text written is what `handle` gives for that second frame, pattern 2 and
the result of the first pass. -/
theorem C19_second_frame_from_original_line (allClassNames : Bool) (deobfuscate : Str → Str)
    (order : ValuesOrder) (mapper : FrameRemapper) (pattern1 pattern2 : FramePattern)
    (find1 find2 : Str → Option (List Int)) (obfuscatedLine deobf : Str)
    (obfuscatedFrame1 obfuscatedFrame2 : FrameInfo)
    (hparse1 : pattern1.Parse find1 obfuscatedLine = some obfuscatedFrame1)
    (hparse2 : pattern2.Parse find2 obfuscatedLine = some obfuscatedFrame2)
    (hfirst : handle allClassNames deobfuscate order mapper pattern1 find1 obfuscatedFrame1
      obfuscatedLine = some deobf) :
    retraceLine allClassNames deobfuscate order mapper pattern1 pattern2 find1 find2
        obfuscatedLine =
      handle allClassNames deobfuscate order mapper pattern2 find2 obfuscatedFrame2 deobf := by
  unfold retraceLine
  rw [hparse1, hparse2]
  simp only [Option.bind_eq_bind, Option.some_bind]
  rw [hfirst]
  rfl

/-- Witness of C19: the class table `b -> a`, `c -> b`, both patterns from the
template `%c %m`, and the line `a x`, which they match with the class name at
0..1 and the method name at 2..3. The first pass gives `b x`; the second pass
remaps the frame of class `a` again and gives `b x`. -/
theorem C19_second_frame_from_original_line_witness :
    retraceLine false (fun s => s) insertionOrder
        ((NewFrameRemapper.ProcessClassMapping ['b'] ['a']).1.ProcessClassMapping ['c'] ['b']).1
        ⟨"%c %m".toList, ((List.replicate 32 []).set 1 ['c']).set 2 ['m'], 2,
          "(".toList ++ REGEX_CLASS ++ ") (".toList ++ REGEX_MEMBER ++ ")".toList, false⟩
        ⟨"%c %m".toList, ((List.replicate 32 []).set 1 ['c']).set 2 ['m'], 2,
          "(".toList ++ REGEX_CLASS ++ ") (".toList ++ REGEX_MEMBER ++ ")".toList, false⟩
        (fun _ => some [0, 3, 0, 1, 2, 3]) (fun _ => some [0, 3, 0, 1, 2, 3])
        ['a', ' ', 'x', '\n'] =
      some ['b', ' ', 'x', '\n'] :=
  (C19_second_frame_from_original_line false (fun s => s) insertionOrder
    ((NewFrameRemapper.ProcessClassMapping ['b'] ['a']).1.ProcessClassMapping ['c'] ['b']).1
    ⟨"%c %m".toList, ((List.replicate 32 []).set 1 ['c']).set 2 ['m'], 2,
          "(".toList ++ REGEX_CLASS ++ ") (".toList ++ REGEX_MEMBER ++ ")".toList, false⟩
    ⟨"%c %m".toList, ((List.replicate 32 []).set 1 ['c']).set 2 ['m'], 2,
          "(".toList ++ REGEX_CLASS ++ ") (".toList ++ REGEX_MEMBER ++ ")".toList, false⟩
    (fun _ => some [0, 3, 0, 1, 2, 3]) (fun _ => some [0, 3, 0, 1, 2, 3])
    ['a', ' ', 'x', '\n'] ['b', ' ', 'x', '\n']
    ⟨['a'], [], 0, [], [], ['x'], []⟩ ⟨['a'], [], 0, [], [], ['x'], []⟩
    (by decide) (by decide) (by decide)).trans (by decide)

/-- Counterexample to C19 as stated: with the class table `b -> a`, `c -> b`,
both patterns compiled from the template `%c %m`, and the line `a x`, which the
patterns match with the class name at 0..1 and the method name at 2..3 (as they
do `b x`), the text written for the line is `b x`, while `handle` for the frame
parsed with pattern 2 from the result `b x` of the first pass gives `c x`. -/
theorem C19_counterexample_second_pass :
    ∃ pattern : FramePattern, NewFramePattern "%c %m".toList false = some pattern ∧
      retraceLine false (fun s => s) insertionOrder
        ((NewFrameRemapper.ProcessClassMapping ['b'] ['a']).1.ProcessClassMapping ['c'] ['b']).1
        pattern pattern (fun _ => some [0, 3, 0, 1, 2, 3]) (fun _ => some [0, 3, 0, 1, 2, 3])
        ['a', ' ', 'x', '\n'] = some ['b', ' ', 'x', '\n'] ∧
      pattern.Parse (fun _ => some [0, 3, 0, 1, 2, 3]) ['a', ' ', 'x', '\n'] =
        some ⟨['a'], [], 0, [], [], ['x'], []⟩ ∧
      handle false (fun s => s) insertionOrder
        ((NewFrameRemapper.ProcessClassMapping ['b'] ['a']).1.ProcessClassMapping ['c'] ['b']).1
        pattern (fun _ => some [0, 3, 0, 1, 2, 3]) ⟨['a'], [], 0, [], [], ['x'], []⟩
        ['a', ' ', 'x', '\n'] = some ['b', ' ', 'x', '\n'] ∧
      pattern.Parse (fun _ => some [0, 3, 0, 1, 2, 3]) ['b', ' ', 'x', '\n'] =
        some ⟨['b'], [], 0, [], [], ['x'], []⟩ ∧
      handle false (fun s => s) insertionOrder
        ((NewFrameRemapper.ProcessClassMapping ['b'] ['a']).1.ProcessClassMapping ['c'] ['b']).1
        pattern (fun _ => some [0, 3, 0, 1, 2, 3]) ⟨['b'], [], 0, [], [], ['x'], []⟩
        ['b', ' ', 'x', '\n'] = some ['c', ' ', 'x', '\n'] := by
  have h : NewFramePattern "%c %m".toList false =
      some ⟨"%c %m".toList, ((List.replicate 32 []).set 1 ['c']).set 2 ['m'], 2,
        "(".toList ++ REGEX_CLASS ++ ") (".toList ++ REGEX_MEMBER ++ ")".toList, false⟩ := by
    decide
  exact ⟨_, h, by decide, by decide, by decide, by decide, by decide⟩

end Retrace

namespace Retrace

open MappingReader

theorem leadingLineNumbers_isSome (line : Str) (colonIndex1 colonIndex2 : Int)
    (h : colonIndex2 ≥ 0 → 0 ≤ colonIndex1 ∧ colonIndex1 + 1 ≤ colonIndex2 ∧
      colonIndex2 ≤ line.length) :
    ∃ r, leadingLineNumbers line colonIndex1 colonIndex2 = some r := by
  unfold leadingLineNumbers
  by_cases h2 : colonIndex2 ≥ 0
  · obtain ⟨h0, h1, h3⟩ := h h2
    obtain ⟨a, ha⟩ := slice_isSome line 0 colonIndex1 ⟨le_refl _, h0, by omega⟩
    obtain ⟨b, hb⟩ := slice_isSome line (colonIndex1 + 1) colonIndex2 ⟨by omega, h1, h3⟩
    rw [if_pos h2]
    unfold sliceTo
    rw [ha]
    simp only [Option.bind_eq_bind, Option.some_bind]
    cases hA : Atoi (TrimSpace a) with
    | mk v err =>
      cases err with
      | some e => exact ⟨_, rfl⟩
      | none =>
        simp only [hb, Option.some_bind]
        exact ⟨_, rfl⟩
  · rw [if_neg h2]
    exact ⟨_, rfl⟩

theorem trailingLineNumbers_isSome (line : Str) (colonIndex3 colonIndex4 arrowIndex : Int)
    (firstLineNumber lastLineNumber : Int)
    (h : colonIndex3 ≥ 0 → arrowIndex ≤ line.length ∧
      (colonIndex4 < 0 ∧ colonIndex3 + 1 ≤ arrowIndex ∨
        colonIndex3 + 1 ≤ colonIndex4 ∧ colonIndex4 + 1 ≤ arrowIndex)) :
    ∃ r, trailingLineNumbers line colonIndex3 colonIndex4 arrowIndex firstLineNumber
      lastLineNumber = some r := by
  unfold trailingLineNumbers
  by_cases h3 : colonIndex3 ≥ 0
  · obtain ⟨hlen, hcase⟩ := h h3
    rw [if_pos h3]
    rcases hcase with ⟨h4, ha⟩ | ⟨h4, ha⟩
    · have hn : ¬ colonIndex4 > 0 := by omega
      obtain ⟨a, hs⟩ := slice_isSome line (colonIndex3 + 1) arrowIndex ⟨by omega, ha, hlen⟩
      simp only [hn, if_false, hs, Option.bind_eq_bind, Option.some_bind]
      cases hA : Atoi (TrimSpace a) with
      | mk v err =>
        cases err with
        | some e => exact ⟨_, rfl⟩
        | none =>
          simp only [h4, if_true]
          exact ⟨_, rfl⟩
    · have hp : colonIndex4 > 0 := by omega
      have hn : ¬ colonIndex4 < 0 := by omega
      obtain ⟨a, hs⟩ := slice_isSome line (colonIndex3 + 1) colonIndex4 ⟨by omega, h4, by omega⟩
      obtain ⟨b, hb⟩ := slice_isSome line (colonIndex4 + 1) arrowIndex ⟨by omega, ha, hlen⟩
      simp only [hp, if_true, hs, Option.bind_eq_bind, Option.some_bind]
      cases hA : Atoi (TrimSpace a) with
      | mk v err =>
        cases err with
        | some e => exact ⟨_, rfl⟩
        | none =>
          simp only [hn, if_false, hb, Option.some_bind]
          cases hB : Atoi (TrimSpace b) with
          | mk w err2 =>
            cases err2 with
            | some e => exact ⟨_, rfl⟩
            | none => exact ⟨_, rfl⟩
  · rw [if_neg h3]
    exact ⟨_, rfl⟩

/-- `processMember` does not fail when the indices are those of
`ProcessClassMemberMapping`, and it keeps every property of the state of the
processor that the field and method mappings with a non-empty new member name
keep. -/
theorem processMember_total {σ : Type} (P : MappingProcessor σ) (I : σ → Prop)
    (hF : ∀ st cn ty nm ncn nnm, nnm ≠ [] → I st → I (P.ProcessFieldMapping st cn ty nm ncn nnm))
    (hM : ∀ st cn a b ty nm args ncn c d nnm, nnm ≠ [] → I st →
      I (P.ProcessMethodMapping st cn a b ty nm args ncn c d nnm))
    (st : σ) (line : Str)
    (colonIndex1 colonIndex2 colonIndex3 colonIndex4 argumentIndex1 argumentIndex2
      arrowIndex : Int)
    (className classMemberType classMemberName newClassName newClassMemberName : Str)
    (hlead : colonIndex2 ≥ 0 → 0 ≤ colonIndex1 ∧ colonIndex1 + 1 ≤ colonIndex2 ∧
      colonIndex2 ≤ line.length)
    (htrail : colonIndex3 ≥ 0 → arrowIndex ≤ line.length ∧
      (colonIndex4 < 0 ∧ colonIndex3 + 1 ≤ arrowIndex ∨
        colonIndex3 + 1 ≤ colonIndex4 ∧ colonIndex4 + 1 ≤ arrowIndex))
    (hargs : ¬ argumentIndex2 < 0 → 0 ≤ argumentIndex1 + 1 ∧ argumentIndex1 + 1 ≤ argumentIndex2 ∧
      argumentIndex2 ≤ line.length) :
    ∃ st' e, processMember P st line colonIndex1 colonIndex2 colonIndex3 colonIndex4
        argumentIndex1 argumentIndex2 arrowIndex className classMemberType classMemberName
        newClassName newClassMemberName = some (st', e) ∧ (I st → I st') := by
  unfold processMember
  by_cases hg : classMemberType.length > 0 ∧ classMemberName.length > 0 ∧
      newClassMemberName.length > 0
  · have hnn : newClassMemberName ≠ [] := List.length_pos.mp hg.2.2
    rw [if_pos hg]
    by_cases ha : argumentIndex2 < 0
    · rw [if_pos ha]
      exact ⟨_, _, rfl, hF _ _ _ _ _ _ hnn⟩
    · rw [if_neg ha]
      obtain ⟨r1, h1⟩ := leadingLineNumbers_isSome line colonIndex1 colonIndex2 hlead
      simp only [h1, Option.bind_eq_bind, Option.some_bind]
      cases r1 with
      | error e => exact ⟨_, _, rfl, fun h => h⟩
      | ok v =>
        obtain ⟨a, b⟩ := v
        obtain ⟨r2, h2⟩ := trailingLineNumbers_isSome line colonIndex3 colonIndex4 arrowIndex a b
          htrail
        simp only [h2, Option.some_bind]
        cases r2 with
        | error e => exact ⟨_, _, rfl, fun h => h⟩
        | ok w =>
          obtain ⟨c, d⟩ := w
          obtain ⟨t, ht⟩ := slice_isSome line (argumentIndex1 + 1) argumentIndex2 (hargs ha)
          simp only [ht, Option.some_bind]
          exact ⟨_, _, rfl, hM _ _ _ _ _ _ _ _ _ _ _ hnn⟩
  · rw [if_neg hg]
    exact ⟨_, _, rfl, fun h => h⟩

end Retrace

namespace Retrace

open MappingReader

/-- `ProcessClassMemberMapping` does not fail on a line that is not empty and
does not end with a colon, as the lines that `Pump` passes on, and it keeps
every property of the state of the processor that the field and method
mappings with a non-empty new member name keep. -/
theorem ProcessClassMemberMapping_total {σ : Type} (P : MappingProcessor σ) (I : σ → Prop)
    (hF : ∀ st cn ty nm ncn nnm, nnm ≠ [] → I st → I (P.ProcessFieldMapping st cn ty nm ncn nnm))
    (hM : ∀ st cn a b ty nm args ncn c d nnm, nnm ≠ [] → I st →
      I (P.ProcessMethodMapping st cn a b ty nm args ncn c d nnm))
    (st : σ) (cls line : Str)
    (hne : line ≠ []) (hlast : ∀ h : line ≠ [], line.getLast h ≠ ':') :
    ∃ st' e, ProcessClassMemberMapping P st cls line = some (st', e) ∧ (I st → I st') := by
  have hlen : 1 ≤ (line.length : Int) := by
    have := List.length_pos.mpr hne
    omega
  obtain ⟨c1, i1, r1⟩ := IndexOf_bounds line [':'] 0 ⟨le_refl _, by omega⟩
  have b1 : c1 = -1 ∨ (0 ≤ c1 ∧ c1 + 2 ≤ line.length) := by
    rcases r1 with r | ⟨r, _⟩
    · exact Or.inl r
    · exact Or.inr ⟨r, IndexOf_char_not_last line ':' 0 c1 ⟨le_refl _, by omega⟩ i1 r hlast⟩
  obtain ⟨c2, j2, r2⟩ := IndexOfAfter_bounds line [':'] c1 (by omega)
  have b2 : c2 = -1 ∨ (0 ≤ c2 ∧ c2 + 2 ≤ line.length ∧ c1 + 1 ≤ c2 ∧ 0 ≤ c1) := by
    rcases r2 with r | ⟨r, _, hi, hc⟩
    · exact Or.inl r
    · obtain ⟨i', hi', hr'⟩ := IndexOf_bounds line [':'] (c1 + 1) (by omega)
      rw [hi] at hi'
      cases hi'
      exact Or.inr ⟨r, IndexOf_char_not_last line ':' (c1 + 1) c2 (by omega) hi r hlast,
        by omega, hc⟩
  obtain ⟨sp, i3, r3⟩ := IndexOf_bounds line [' '] (c2 + 2) (by omega)
  simp only [List.length_singleton, Nat.cast_one] at r3
  obtain ⟨a1, i4, r4⟩ := IndexOf_bounds line ['('] (sp + 1) (by omega)
  simp only [List.length_singleton, Nat.cast_one] at r4
  obtain ⟨a2, j5, r5⟩ := IndexOfAfter_bounds line [')'] a1 (by omega)
  simp only [List.length_singleton, Nat.cast_one] at r5
  have b5 : a2 = -1 ∨ (0 ≤ a2 ∧ a2 + 1 ≤ line.length ∧ a1 + 1 ≤ a2 ∧ 0 ≤ a1) := by
    rcases r5 with r | ⟨r, hl, hi, hc⟩
    · exact Or.inl r
    · obtain ⟨i', hi', hr'⟩ := IndexOf_bounds line [')'] (a1 + 1) (by omega)
      rw [hi] at hi'
      cases hi'
      exact Or.inr ⟨r, hl, by omega, hc⟩
  obtain ⟨c3, j6, r6⟩ := IndexOfAfter_bounds line [':'] a2 (by omega)
  simp only [List.length_singleton, Nat.cast_one] at r6
  have b6 : c3 = -1 ∨ (0 ≤ c3 ∧ c3 + 1 ≤ line.length ∧ a2 + 1 ≤ c3 ∧ 0 ≤ a2) := by
    rcases r6 with r | ⟨r, hl, hi, hc⟩
    · exact Or.inl r
    · obtain ⟨i', hi', hr'⟩ := IndexOf_bounds line [':'] (a2 + 1) (by omega)
      rw [hi] at hi'
      cases hi'
      exact Or.inr ⟨r, hl, by omega, hc⟩
  obtain ⟨c4, j7, r7⟩ := IndexOfAfter_bounds line [':'] c3 (by omega)
  simp only [List.length_singleton, Nat.cast_one] at r7
  have b7 : c4 = -1 ∨ (0 ≤ c4 ∧ c4 + 1 ≤ line.length ∧ c3 + 1 ≤ c4 ∧ 0 ≤ c3) := by
    rcases r7 with r | ⟨r, hl, hi, hc⟩
    · exact Or.inl r
    · obtain ⟨i', hi', hr'⟩ := IndexOf_bounds line [':'] (c3 + 1) (by omega)
      rw [hi] at hi'
      cases hi'
      exact Or.inr ⟨r, hl, by omega, hc⟩
  have hcur : 0 ≤ assignIfFound c4 (assignIfFound c3 (assignIfFound a2 sp)) + 1 ∧
      assignIfFound c4 (assignIfFound c3 (assignIfFound a2 sp)) + 1 ≤ line.length := by
    unfold assignIfFound
    split_ifs <;> omega
  obtain ⟨ar, i8, r8⟩ := IndexOf_bounds line ['-', '>'] _ hcur
  simp only [List.length_cons, List.length_singleton, List.length_nil, Nat.cast_ofNat] at r8
  unfold ProcessClassMemberMapping
  rw [i1, some_bind_eq, j2, some_bind_eq, i3, some_bind_eq]
  simp only []
  rw [i4, some_bind_eq, j5, some_bind_eq, j6, some_bind_eq, j7, some_bind_eq, i8, some_bind_eq]
  by_cases herr : sp < 0 ∨ ar < 0
  · rw [if_pos herr]
    exact ⟨_, _, rfl, fun h => h⟩
  · rw [if_neg herr]
    have hsp : 0 ≤ sp := by omega
    have har : 0 ≤ ar := by omega
    have hcurv : sp ≤ assignIfFound c4 (assignIfFound c3 (assignIfFound a2 sp)) := by
      unfold assignIfFound
      split_ifs <;> omega
    have hend : sp + 1 ≤ assignIfFound a1 ar ∧ assignIfFound a1 ar ≤ line.length := by
      unfold assignIfFound
      split_ifs <;> omega
    obtain ⟨t1, s1⟩ := slice_isSome line (c2 + 1) sp ⟨by omega, by omega, by omega⟩
    obtain ⟨t2, s2⟩ := slice_isSome line (sp + 1) (assignIfFound a1 ar)
      ⟨by omega, hend.1, hend.2⟩
    obtain ⟨t3, s3, _⟩ := sliceFrom_isSome line (ar + 2) ⟨by omega, by omega⟩
    rw [s1, some_bind_eq, s2, some_bind_eq, s3, some_bind_eq]
    have hlead : c2 ≥ 0 → 0 ≤ c1 ∧ c1 + 1 ≤ c2 ∧ c2 ≤ line.length := by
      intro h
      omega
    have htrail : c3 ≥ 0 → ar ≤ line.length ∧
        (c4 < 0 ∧ c3 + 1 ≤ ar ∨ c3 + 1 ≤ c4 ∧ c4 + 1 ≤ ar) := by
      intro h
      have hc : assignIfFound c4 (assignIfFound c3 (assignIfFound a2 sp)) =
          if c4 ≥ 0 then c4 else c3 := by
        unfold assignIfFound
        split_ifs <;> rfl
      rw [hc] at r8
      split_ifs at r8 <;> omega
    have hargs : ¬ a2 < 0 → 0 ≤ a1 + 1 ∧ a1 + 1 ≤ a2 ∧ a2 ≤ line.length := by
      intro h
      omega
    by_cases hdot : LastIndex (TrimSpace t2) ['.'] ≥ 0
    · rw [if_pos hdot]
      have hb := LastIndex_bounds (TrimSpace t2) ['.']
      simp only [List.length_singleton, Nat.cast_one] at hb
      obtain ⟨u1, q1⟩ := slice_isSome (TrimSpace t2) 0 (LastIndex (TrimSpace t2) ['.'])
        ⟨le_refl _, hdot, by omega⟩
      obtain ⟨u2, q2, _⟩ := sliceFrom_isSome (TrimSpace t2) (LastIndex (TrimSpace t2) ['.'] + 1)
        ⟨by omega, by omega⟩
      unfold sliceTo
      rw [q1, some_bind_eq, q2, some_bind_eq]
      exact processMember_total P I hF hM st line c1 c2 c3 c4 a1 a2 ar _ _ _ _ _ hlead htrail
        hargs
    · rw [if_neg hdot]
      exact processMember_total P I hF hM st line c1 c2 c3 c4 a1 a2 ar _ _ _ _ _ hlead htrail
        hargs

end Retrace

namespace Retrace

open MappingReader

/-- The reader's `ProcessClassMapping` does not fail, and it keeps every
property of the state of the processor that a class mapping keeps. -/
theorem ProcessClassMapping_total {σ : Type} (P : MappingProcessor σ) (I : σ → Prop)
    (hC : ∀ st cn ncn, I st → I (P.ProcessClassMapping st cn ncn).1) (st : σ) (line : Str) :
    ∃ r, MappingReader.ProcessClassMapping P st line = some r ∧ (I st → I r.1) := by
  obtain ⟨ar, i1, r1⟩ := IndexOf_bounds line ['-', '>'] 0 ⟨le_refl _, by omega⟩
  simp only [List.length_cons, List.length_singleton, List.length_nil, Nat.cast_ofNat] at r1
  unfold MappingReader.ProcessClassMapping
  rw [i1, some_bind_eq]
  by_cases ha : ar < 0
  · rw [if_pos ha]
    exact ⟨_, rfl, fun h => h⟩
  · rw [if_neg ha]
    obtain ⟨co, i2, r2⟩ := IndexOf_bounds line [':'] (ar + 2) (by omega)
    simp only [List.length_singleton, Nat.cast_one] at r2
    rw [i2, some_bind_eq]
    by_cases hc : co < 0
    · rw [if_pos hc]
      exact ⟨_, rfl, fun h => h⟩
    · rw [if_neg hc]
      obtain ⟨t1, s1⟩ := slice_isSome line 0 ar ⟨le_refl _, by omega, by omega⟩
      obtain ⟨t2, s2⟩ := slice_isSome line (ar + 2) co ⟨by omega, by omega, by omega⟩
      rw [s1, some_bind_eq, s2, some_bind_eq]
      simp only []
      by_cases hi : (P.ProcessClassMapping st (TrimSpace t1) (TrimSpace t2)).2 = true
      · rw [if_pos hi]
        exact ⟨_, rfl, hC _ _ _⟩
      · rw [if_neg hi]
        exact ⟨_, rfl, hC _ _ _⟩

/-- The body of the loop of `Pump` does not fail, and it keeps every property
of the state of the processor that the class mappings and the member mappings
with a non-empty new member name keep. -/
theorem pumpLine_total {σ : Type} (P : MappingProcessor σ) (I : σ → Prop)
    (hC : ∀ st cn ncn, I st → I (P.ProcessClassMapping st cn ncn).1)
    (hF : ∀ st cn ty nm ncn nnm, nnm ≠ [] → I st → I (P.ProcessFieldMapping st cn ty nm ncn nnm))
    (hM : ∀ st cn a b ty nm args ncn c d nnm, nnm ≠ [] → I st →
      I (P.ProcessMethodMapping st cn a b ty nm args ncn c d nnm))
    (acc : σ × Str) (text : Str) :
    ∃ r, pumpLine P acc text = some r ∧ (I acc.1 → I r.1) := by
  unfold pumpLine
  simp only []
  by_cases h0 : (TrimSpace text).length = 0
  · rw [if_pos h0]
    exact ⟨_, rfl, fun h => h⟩
  · rw [if_neg h0]
    by_cases h1 : HasPrefix (TrimSpace text) ['#'] = true
    · rw [if_pos h1]
      exact ⟨_, rfl, fun h => h⟩
    · rw [if_neg h1]
      by_cases h2 : HasSuffix (TrimSpace text) [':'] = true
      · rw [if_pos h2]
        exact ProcessClassMapping_total P I hC acc.1 _
      · rw [if_neg h2]
        by_cases h3 : acc.2.length > 0
        · rw [if_pos h3]
          have hne : TrimSpace text ≠ [] := fun e => h0 (by rw [e]; rfl)
          obtain ⟨st', e, hm, hI⟩ := ProcessClassMemberMapping_total P I hF hM acc.1 acc.2
            (TrimSpace text) hne (HasSuffix_colon_false _ (by simpa using h2))
          rw [hm]
          exact ⟨_, rfl, hI⟩
        · rw [if_neg h3]
          exact ⟨_, rfl, fun h => h⟩

theorem foldlM_pumpLine_total {σ : Type} (P : MappingProcessor σ) (I : σ → Prop)
    (hC : ∀ st cn ncn, I st → I (P.ProcessClassMapping st cn ncn).1)
    (hF : ∀ st cn ty nm ncn nnm, nnm ≠ [] → I st → I (P.ProcessFieldMapping st cn ty nm ncn nnm))
    (hM : ∀ st cn a b ty nm args ncn c d nnm, nnm ≠ [] → I st →
      I (P.ProcessMethodMapping st cn a b ty nm args ncn c d nnm))
    (lines : List Str) (acc : σ × Str) :
    ∃ r, lines.foldlM (pumpLine P) acc = some r ∧ (I acc.1 → I r.1) := by
  induction lines generalizing acc with
  | nil => exact ⟨acc, rfl, fun h => h⟩
  | cons l t ih =>
    obtain ⟨r1, h1, hI1⟩ := pumpLine_total P I hC hF hM acc l
    obtain ⟨r2, h2, hI2⟩ := ih r1
    refine ⟨r2, ?_, fun h => hI2 (hI1 h)⟩
    rw [List.foldlM_cons, h1]
    exact h2

/-- `Pump` does not fail, whatever the text, and the state it ends in has every
property of the first state that the class mappings and the member mappings
with a non-empty new member name keep. -/
theorem Pump_total {σ : Type} (P : MappingProcessor σ) (I : σ → Prop)
    (hC : ∀ st cn ncn, I st → I (P.ProcessClassMapping st cn ncn).1)
    (hF : ∀ st cn ty nm ncn nnm, nnm ≠ [] → I st → I (P.ProcessFieldMapping st cn ty nm ncn nnm))
    (hM : ∀ st cn a b ty nm args ncn c d nnm, nnm ≠ [] → I st →
      I (P.ProcessMethodMapping st cn a b ty nm args ncn c d nnm))
    (st : σ) (text : Str) :
    ∃ r, Pump P st text = some r ∧ (I st → I r) := by
  obtain ⟨r, h, hI⟩ := foldlM_pumpLine_total P I hC hF hM (scanLines text) (st, [])
  refine ⟨r.1, ?_, hI⟩
  unfold Pump
  rw [h]
  rfl

end Retrace

namespace Retrace

open MappingReader FrameRemapper

theorem storedFields_ProcessFieldMapping_other (remapper : FrameRemapper)
    (cn ty nm ncn nnm c k : Str) (h : k ≠ nnm) :
    storedFields (remapper.ProcessFieldMapping cn ty nm ncn nnm) c k =
      storedFields remapper c k := by
  unfold storedFields ProcessFieldMapping GoMap.set
  by_cases hc : c = ncn
  · subst hc
    simp only [if_true, h, if_false]
    cases h1 : remapper.ClassFieldMap c with
    | none => rfl
    | some m => rfl
  · simp only [hc, if_false]

theorem storedMethods_ProcessMethodMapping_other (remapper : FrameRemapper)
    (cn : Str) (a b : Int) (ty nm args ncn : Str) (c0 d : Int) (nnm c k : Str) (h : k ≠ nnm) :
    storedMethods (remapper.ProcessMethodMapping cn a b ty nm args ncn c0 d nnm) c k =
      storedMethods remapper c k := by
  unfold storedMethods ProcessMethodMapping GoMap.set
  by_cases hc : c = ncn
  · subst hc
    simp only [if_true, h, if_false]
    cases h1 : remapper.ClassMethodMap c with
    | none => rfl
    | some m => rfl
  · simp only [hc, if_false]

/-- Whatever the mapping text, `Pump` into a fresh `FrameRemapper` gives a
table, and the table stores no field and no method under the empty member
name. -/
theorem Pump_no_empty_member (text : Str) :
    ∃ mapper, Pump FrameRemapper.processor NewFrameRemapper text = some mapper ∧
      (∀ c, storedFields mapper c [] = []) ∧ (∀ c, storedMethods mapper c [] = []) := by
  obtain ⟨r, h, hI⟩ := Pump_total FrameRemapper.processor
    (fun r => (∀ c, storedFields r c [] = []) ∧ (∀ c, storedMethods r c [] = []))
    (fun st cn ncn h => h)
    (fun st cn ty nm ncn nnm hn h =>
      ⟨fun c => (storedFields_ProcessFieldMapping_other st cn ty nm ncn nnm c []
        (fun e => hn e.symm)).trans (h.1 c), h.2⟩)
    (fun st cn a b ty nm args ncn c0 d nnm hn h =>
      ⟨h.1, fun c => (storedMethods_ProcessMethodMapping_other st cn a b ty nm args ncn c0 d nnm
        c [] (fun e => hn e.symm)).trans (h.2 c)⟩)
    NewFrameRemapper text
  exact ⟨r, h, hI ⟨fun _ => rfl, fun _ => rfl⟩⟩

theorem Transform_no_member (order : ValuesOrder) (mapper : FrameRemapper) (frame : FrameInfo)
    (hf : ∀ c, storedFields mapper c frame.FieldName = [])
    (hm : ∀ c, storedMethods mapper c frame.MethodName = []) :
    mapper.Transform order frame = some [passthroughCandidate mapper frame] := by
  have h1 : fieldCandidates order mapper frame = [] := by
    unfold fieldCandidates
    rw [hf, Values_nil]
    rfl
  have h2 : methodCandidates mapper frame = [] := by
    unfold methodCandidates
    rw [hm]
    rfl
  rw [Transform_eq, h1, h2]
  rfl

theorem Parse_unmatched (pattern : FramePattern) (find : Str → Option (List Int)) (line : Str)
    (h : find line = none) : pattern.Parse find line = some ⟨[], [], 0, [], [], [], []⟩ := by
  unfold FramePattern.Parse FindStringSubmatch
  rw [h]
  rfl

theorem formatLoop_no_results (f : FramePattern) (line : Str) (frameInfo : FrameInfo)
    (count : Nat) : formatLoop f line [] frameInfo count 1 [] 0 = some ([], 0) := by
  cases count with
  | zero => rfl
  | succ n =>
    unfold formatLoop
    simp

theorem Format_unmatched (pattern : FramePattern) (find : Str → Option (List Int)) (line : Str)
    (frameInfo : FrameInfo) (h : find line = none) :
    pattern.Format find line frameInfo = some line := by
  unfold FramePattern.Format
  rw [h]
  simp only [Option.getD_none, formatLoop_no_results, Option.bind_eq_bind, Option.some_bind,
    byteSliceFrom_zero, List.nil_append, Option.pure_def]

theorem handle_unmatched (deobfuscate : Str → Str) (order : ValuesOrder)
    (mapper : FrameRemapper) (pattern : FramePattern) (find : Str → Option (List Int))
    (frame : FrameInfo) (line : Str)
    (hf : ∀ c, storedFields mapper c frame.FieldName = [])
    (hm : ∀ c, storedMethods mapper c frame.MethodName = [])
    (h : find line = none) :
    handle false deobfuscate order mapper pattern find frame line = some line := by
  unfold handle
  rw [Transform_no_member order mapper frame hf hm]
  simp only [Option.bind_eq_bind, Option.some_bind, List.foldlM_cons, List.foldlM_nil]
  unfold handleStep
  rw [Format_unmatched pattern find line _ h]
  simp only [Option.bind_eq_bind, Option.some_bind, Option.pure_def, List.nil_append,
    Bool.false_eq_true, if_false]
  cases line with
  | nil => rfl
  | cons a t => rfl

/-- C18: for every mapping text `Pump` into a fresh `FrameRemapper` gives a
table. For every line that neither pattern matches, `Parse` returns the frame
with every text empty and the line number 0, `Transform` of that frame over the
table returns exactly one frame, `Format` of the line returns the line itself
whatever the frame, and the text written for the line, without the option for
all class names, is the line itself. -/
theorem C18_unmatched_line_unchanged (mapping : Str) :
    ∃ mapper, Pump FrameRemapper.processor NewFrameRemapper mapping = some mapper ∧
      ∀ (deobfuscate : Str → Str) (order : ValuesOrder) (pattern1 pattern2 : FramePattern)
        (find1 find2 : Str → Option (List Int)) (line : Str),
        find1 line = none → find2 line = none →
          pattern1.Parse find1 line = some ⟨[], [], 0, [], [], [], []⟩ ∧
          pattern2.Parse find2 line = some ⟨[], [], 0, [], [], [], []⟩ ∧
          (∃ frame, mapper.Transform order ⟨[], [], 0, [], [], [], []⟩ = some [frame]) ∧
          (∀ frame, pattern1.Format find1 line frame = some line) ∧
          (∀ frame, pattern2.Format find2 line frame = some line) ∧
          retraceLine false deobfuscate order mapper pattern1 pattern2 find1 find2 line =
            some line := by
  obtain ⟨mapper, hp, hf, hm⟩ := Pump_no_empty_member mapping
  refine ⟨mapper, hp, ?_⟩
  intro deobfuscate order pattern1 pattern2 find1 find2 line h1 h2
  refine ⟨Parse_unmatched _ _ _ h1, Parse_unmatched _ _ _ h2,
    ⟨_, Transform_no_member order mapper _ hf hm⟩,
    fun frame => Format_unmatched _ _ _ frame h1,
    fun frame => Format_unmatched _ _ _ frame h2, ?_⟩
  unfold retraceLine
  rw [Parse_unmatched _ _ _ h1, Parse_unmatched _ _ _ h2]
  simp only [Option.bind_eq_bind, Option.some_bind]
  rw [handle_unmatched deobfuscate order mapper pattern1 find1 _ line hf hm h1]
  simp only [Option.some_bind]
  exact handle_unmatched deobfuscate order mapper pattern2 find2 _ line hf hm h2

/-- Witness of C18: the mapping `A -> a:` with the method `void f() -> b`, the
patterns of the templates `at %c` and `in %c`, and the line `hello`, which they
do not match. -/
theorem C18_unmatched_line_unchanged_witness :
    ∃ mapper, Pump FrameRemapper.processor NewFrameRemapper
        "A -> a:\n    void f() -> b\n".toList = some mapper ∧
      retraceLine false (fun s => s) insertionOrder mapper
        ⟨"at %c".toList, (List.replicate 32 []).set 1 ['c'], 1,
          "at (".toList ++ REGEX_CLASS ++ ")".toList, false⟩
        ⟨"in %c".toList, (List.replicate 32 []).set 1 ['c'], 1,
          "in (".toList ++ REGEX_CLASS ++ ")".toList, false⟩
        (fun _ => none) (fun _ => none) "hello\n".toList = some "hello\n".toList := by
  obtain ⟨mapper, hp, h⟩ := C18_unmatched_line_unchanged "A -> a:\n    void f() -> b\n".toList
  exact ⟨mapper, hp, (h (fun s => s) insertionOrder _ _ (fun _ => none) (fun _ => none)
    "hello\n".toList rfl rfl).2.2.2.2.2⟩

end Retrace

namespace Retrace

theorem splitAux_ne_nil (sep s : Str) (skip : Nat) (cur : Str) : splitAux sep s skip cur ≠ [] := by
  induction s generalizing skip cur with
  | nil => simp [splitAux]
  | cons c cs ih =>
    cases skip with
    | succ k =>
      rw [splitAux]
      exact ih _ _
    | zero =>
      rw [splitAux]
      split_ifs
      · simp
      · exact ih _ _

theorem Join_splitAux_char (a b : Char) (s cur : Str) :
    Join (splitAux [a] s 0 cur) [b] =
      cur.reverse ++ s.map (fun c => if c = a then b else c) := by
  induction s generalizing cur with
  | nil => simp [splitAux, Join, List.intercalate]
  | cons c cs ih =>
    rw [splitAux]
    by_cases hc : c = a
    · have hp : List.isPrefixOf [a] (c :: cs) = true := by simp [List.isPrefixOf, hc]
      rw [if_pos hp]
      have hrest := ih []
      simp only [List.length_singleton, Nat.sub_self, List.reverse_nil, List.nil_append] at hrest ⊢
      unfold Join at hrest ⊢
      obtain ⟨x, xs, hx⟩ := List.exists_cons_of_ne_nil (splitAux_ne_nil [a] cs 0 [])
      rw [hx] at hrest ⊢
      simp only [List.intercalate, List.intersperse, List.flatten_cons] at hrest ⊢
      rw [List.map_cons, if_pos hc, ← hrest]
      simp
    · have hp : ¬ List.isPrefixOf [a] (c :: cs) = true := by
        simp only [List.isPrefixOf, Bool.and_true, beq_iff_eq]
        exact fun e => hc e.symm
      rw [if_neg hp, ih]
      simp [hc]

theorem ReplaceAll_char (s : Str) (a b : Char) :
    ReplaceAll s [a] [b] = s.map (fun c => if c = a then b else c) := by
  unfold ReplaceAll Split
  rw [if_neg (by simp), Join_splitAux_char]
  rfl

theorem ReplaceAll_round_trip (s : Str) (h : '.' ∉ s) :
    ReplaceAll (ReplaceAll s ['/'] ['.']) ['.'] ['/'] = s := by
  rw [ReplaceAll_char, ReplaceAll_char, List.map_map]
  conv_rhs => rw [← List.map_id s]
  apply List.map_congr_left
  intro c hc
  have hne : c ≠ '.' := fun e => h (e ▸ hc)
  by_cases h1 : c = '/'
  · simp [h1]
  · simp [h1, hne]

theorem scanIteration_invariant (regularExpression : Str) (s s' : PatternScan) (b : Bool)
    (h : scanIteration regularExpression s = some (b, s'))
    (hs : s.ExpressionTypes.length = 32 ∧ 0 ≤ s.expressionTypeCount ∧
      s.expressionTypeCount ≤ 31 ∧ s.ExpressionTypes.getD 0 [] = []) :
    s'.ExpressionTypes.length = 32 ∧ 0 ≤ s'.expressionTypeCount ∧
      s'.expressionTypeCount ≤ 31 ∧ s'.ExpressionTypes.getD 0 [] = [] := by
  unfold scanIteration at h
  cases h1 : sliceFrom regularExpression s.index with
  | none => simp [h1] at h
  | some rest =>
    rw [h1] at h
    simp only [Option.bind_eq_bind, Option.some_bind] at h
    split_ifs at h with hc
    · simp only [Option.pure_def, Option.some.injEq, Prod.mk.injEq] at h
      rw [← h.2]
      exact hs
    · cases h2 : slice regularExpression s.index (Index rest ['%'] + s.index) with
      | none => simp [h2] at h
      | some literal =>
        cases h3 : slice regularExpression (Index rest ['%'] + s.index + 1)
            (Index rest ['%'] + s.index + 2) with
        | none => simp [h2, h3] at h
        | some ty =>
          simp only [h2, h3, Option.some_bind] at h
          unfold arraySet at h
          split_ifs at h with hr
          · simp only [Option.some_bind, Option.pure_def, Option.some.injEq,
              Prod.mk.injEq] at h
            rw [← h.2]
            simp only [List.length_set]
            refine ⟨hs.1, by omega, by omega, ?_⟩
            have hpos : (s.expressionTypeCount + 1).toNat ≠ 0 := by omega
            rw [List.getD_eq_getElem?_getD, List.getElem?_set_ne hpos,
              ← List.getD_eq_getElem?_getD]
            exact hs.2.2.2
          · simp at h

theorem scanLoop_invariant (regularExpression : Str) (fuel : Nat) (s s' : PatternScan)
    (h : scanLoop regularExpression fuel s = some s')
    (hs : s.ExpressionTypes.length = 32 ∧ 0 ≤ s.expressionTypeCount ∧
      s.expressionTypeCount ≤ 31 ∧ s.ExpressionTypes.getD 0 [] = []) :
    s'.ExpressionTypes.length = 32 ∧ 0 ≤ s'.expressionTypeCount ∧
      s'.expressionTypeCount ≤ 31 ∧ s'.ExpressionTypes.getD 0 [] = [] := by
  induction fuel generalizing s with
  | zero => simp [scanLoop] at h
  | succ n ih =>
    rw [scanLoop] at h
    cases h1 : scanIteration regularExpression s with
    | none => simp [h1] at h
    | some r =>
      obtain ⟨b, s1⟩ := r
      have hinv := scanIteration_invariant regularExpression s s1 b h1 hs
      cases b with
      | false =>
        simp only [h1, Option.some.injEq] at h
        rw [← h]
        exact hinv
      | true =>
        simp only [h1] at h
        exact ih s1 h hinv

/-- A pattern that `NewFramePattern` returns has the array of 32 expression
types and at most 31 of them counted. -/
theorem NewFramePattern_invariant (regularExpression : Str) (verbose : Bool)
    (pattern : FramePattern) (h : NewFramePattern regularExpression verbose = some pattern) :
    pattern.ExpressionTypes.length = 32 ∧ 0 ≤ pattern.ExpressionTypeCount ∧
      pattern.ExpressionTypeCount ≤ 31 ∧ typeAt pattern 0 = [] ∧
      pattern.Verbose = verbose := by
  unfold NewFramePattern at h
  cases h1 : scanLoop regularExpression 33 ⟨[], List.replicate 32 [], 0, 0⟩ with
  | none =>
    rw [h1] at h
    simp at h
  | some s =>
    rw [h1] at h
    have hinv := scanLoop_invariant regularExpression 33 _ s h1
      ⟨by simp, by simp, by simp, by simp⟩
    cases h2 : sliceFrom regularExpression s.index with
    | none =>
      simp only [Option.bind_eq_bind, Option.some_bind] at h
      rw [h2] at h
      simp at h
    | some rest =>
      simp only [Option.bind_eq_bind, Option.some_bind] at h
      rw [h2] at h
      simp only [Option.some_bind, Option.pure_def, Option.some.injEq] at h
      rw [← h]
      exact ⟨hinv.1, hinv.2.1, hinv.2.2.1, hinv.2.2.2, rfl⟩

end Retrace

namespace Retrace

theorem arrayGet_eq (pattern : FramePattern) (i : Nat)
    (hlen : pattern.ExpressionTypes.length = 32) (hi : i < 32) :
    arrayGet pattern.ExpressionTypes (i : Int) = some (typeAt pattern i) := by
  unfold arrayGet typeAt
  rw [if_pos ⟨by omega, by omega⟩]
  simp only [Int.toNat_ofNat]
  rw [List.getD_eq_getElem?_getD, List.getElem?_eq_getElem (by omega)]
  rfl

theorem expressionType_cases (ty : Str) :
    ty = ['c'] ∨ ty = ['C'] ∨ ty = ['s'] ∨ ty = ['l'] ∨ ty = ['t'] ∨ ty = ['f'] ∨
      ty = ['m'] ∨ ty = ['a'] ∨
      (ty ≠ ['c'] ∧ ty ≠ ['C'] ∧ ty ≠ ['s'] ∧ ty ≠ ['l'] ∧ ty ≠ ['t'] ∧ ty ≠ ['f'] ∧
        ty ≠ ['m'] ∧ ty ≠ ['a']) := by
  by_cases c1 : ty = ['c']
  · exact Or.inl c1
  by_cases c2 : ty = ['C']
  · exact Or.inr (Or.inl c2)
  by_cases c3 : ty = ['s']
  · exact Or.inr (Or.inr (Or.inl c3))
  by_cases c4 : ty = ['l']
  · exact Or.inr (Or.inr (Or.inr (Or.inl c4)))
  by_cases c5 : ty = ['t']
  · exact Or.inr (Or.inr (Or.inr (Or.inr (Or.inl c5))))
  by_cases c6 : ty = ['f']
  · exact Or.inr (Or.inr (Or.inr (Or.inr (Or.inr (Or.inl c6)))))
  by_cases c7 : ty = ['m']
  · exact Or.inr (Or.inr (Or.inr (Or.inr (Or.inr (Or.inr (Or.inl c7))))))
  by_cases c8 : ty = ['a']
  · exact Or.inr (Or.inr (Or.inr (Or.inr (Or.inr (Or.inr (Or.inr (Or.inl c8)))))))
  exact Or.inr (Or.inr (Or.inr (Or.inr (Or.inr (Or.inr (Or.inr (Or.inr
    ⟨c1, c2, c3, c4, c5, c6, c7, c8⟩)))))))

theorem fieldOf_unknown (ty : Str)
    (h : ty ≠ ['c'] ∧ ty ≠ ['C'] ∧ ty ≠ ['s'] ∧ ty ≠ ['l'] ∧ ty ≠ ['t'] ∧ ty ≠ ['f'] ∧
      ty ≠ ['m'] ∧ ty ≠ ['a']) : fieldOf ty = none := by
  obtain ⟨c1, c2, c3, c4, c5, c6, c7, c8⟩ := h
  unfold fieldOf
  rw [if_neg c1, if_neg c2, if_neg c3, if_neg c4, if_neg c5, if_neg c6, if_neg c7, if_neg c8]

theorem formatField_unknown (pattern : FramePattern) (frame : FrameInfo) (ty : Str)
    (h : ty ≠ ['c'] ∧ ty ≠ ['C'] ∧ ty ≠ ['s'] ∧ ty ≠ ['l'] ∧ ty ≠ ['t'] ∧ ty ≠ ['f'] ∧
      ty ≠ ['m'] ∧ ty ≠ ['a']) : formatField pattern frame ty = [] := by
  obtain ⟨c1, c2, c3, c4, c5, c6, c7, c8⟩ := h
  unfold formatField
  rw [if_neg c1, if_neg c2, if_neg c3, if_neg c4, if_neg c5, if_neg c6, if_neg c7, if_neg c8]

/-- The steps of `Parse` for a text that is not empty, by expression type. -/
theorem parseStep_text (pattern : FramePattern) (frame : FrameInfo) (i : Nat) (text : Str)
    (hlen : pattern.ExpressionTypes.length = 32) (hi : i < 32) (hne : text ≠ []) :
    parseStep pattern frame (i, text) =
      (fun expressionType : Str =>
        (if expressionType = ['c'] then pure { frame with ClassName := text }
        else if expressionType = ['C'] then
          pure { frame with ClassName := ReplaceAll text ['/'] ['.'] }
        else if expressionType = ['s'] then pure { frame with SourceFile := text }
        else if expressionType = ['l'] then
          pure { frame with
            LineNumber := match Atoi text with
              | (lineNumber, none) => lineNumber
              | (_, some _) => -1 }
        else if expressionType = ['t'] then pure { frame with Type_ := text }
        else if expressionType = ['f'] then pure { frame with FieldName := text }
        else if expressionType = ['m'] then pure { frame with MethodName := text }
        else if expressionType = ['a'] then pure { frame with Arguments := text }
        else pure frame : Option FrameInfo)) (typeAt pattern i) := by
  have h0 : ¬ text.length = 0 := fun e => hne (List.length_eq_zero.mp e)
  unfold parseStep
  rw [if_neg h0, arrayGet_eq pattern i hlen hi]
  rfl

theorem formatField_other (re pat : Str) (types : List Str) (count : Int) (frame : FrameInfo)
    (text ty T : Str) (frame' : FrameInfo)
    (h : (fun expressionType : Str =>
        (if expressionType = ['c'] then pure { frame with ClassName := text }
        else if expressionType = ['C'] then
          pure { frame with ClassName := ReplaceAll text ['/'] ['.'] }
        else if expressionType = ['s'] then pure { frame with SourceFile := text }
        else if expressionType = ['l'] then
          pure { frame with
            LineNumber := match Atoi text with
              | (lineNumber, none) => lineNumber
              | (_, some _) => -1 }
        else if expressionType = ['t'] then pure { frame with Type_ := text }
        else if expressionType = ['f'] then pure { frame with FieldName := text }
        else if expressionType = ['m'] then pure { frame with MethodName := text }
        else if expressionType = ['a'] then pure { frame with Arguments := text }
        else pure frame : Option FrameInfo)) T = some frame')
    (hother : fieldOf T = none ∨ fieldOf ty ≠ fieldOf T) :
    formatField ⟨re, types, count, pat, false⟩ frame' ty =
      formatField ⟨re, types, count, pat, false⟩ frame ty := by
  rcases expressionType_cases T with hT | hT | hT | hT | hT | hT | hT | hT |
    ⟨c1, c2, c3, c4, c5, c6, c7, c8⟩
  iterate 8
    · subst hT
      have hk : fieldOf ty ≠ fieldOf _ := hother.resolve_left (by decide)
      cases (Option.some.inj h)
      rcases expressionType_cases ty with h2 | h2 | h2 | h2 | h2 | h2 | h2 | h2 | h2
      iterate 8
        · subst h2
          first
            | exact absurd rfl hk
            | rfl
      · rw [formatField_unknown _ _ _ h2, formatField_unknown _ _ _ h2]
  · simp only [] at h
    rw [if_neg c1, if_neg c2, if_neg c3, if_neg c4, if_neg c5, if_neg c6, if_neg c7,
      if_neg c8] at h
    cases h
    rfl

end Retrace

namespace Retrace

theorem parseStep_nil (pattern : FramePattern) (frame : FrameInfo) (i : Nat) :
    parseStep pattern frame (i, []) = some frame := by
  unfold parseStep
  rfl

theorem parseStep_isSome (pattern : FramePattern) (frame : FrameInfo) (i : Nat) (text : Str)
    (hlen : pattern.ExpressionTypes.length = 32) (hi : i < 32) :
    ∃ frame', parseStep pattern frame (i, text) = some frame' := by
  by_cases hne : text = []
  · subst hne
    exact ⟨frame, parseStep_nil pattern frame i⟩
  · rw [parseStep_text pattern frame i text hlen hi hne]
    rcases expressionType_cases (typeAt pattern i) with hT | hT | hT | hT | hT | hT | hT | hT |
      ⟨c1, c2, c3, c4, c5, c6, c7, c8⟩
    iterate 8
      · rw [hT]
        exact ⟨_, rfl⟩
    · simp only []
      rw [if_neg c1, if_neg c2, if_neg c3, if_neg c4, if_neg c5, if_neg c6, if_neg c7,
        if_neg c8]
      exact ⟨_, rfl⟩

/-- After the step of `Parse` for a text that is not empty, `Format` writes the
text again for the expression type of the group, when the text is one that is
kept. -/
theorem parseStep_same (pattern : FramePattern) (frame frame' : FrameInfo) (i : Nat)
    (text : Str) (hlen : pattern.ExpressionTypes.length = 32) (hi : i < 32)
    (hv : pattern.Verbose = false) (hne : text ≠ [])
    (hkept : keptText (typeAt pattern i) text)
    (h : parseStep pattern frame (i, text) = some frame') :
    formatField pattern frame' (typeAt pattern i) = text := by
  rw [parseStep_text pattern frame i text hlen hi hne] at h
  obtain ⟨re, types, count, pat, verbose⟩ := pattern
  simp only at hv
  subst hv
  generalize typeAt ⟨re, types, count, pat, false⟩ i = T at h hkept
  obtain ⟨hl, hC, hnone⟩ := hkept
  rcases expressionType_cases T with hT | hT | hT | hT | hT | hT | hT | hT | hT
  · subst hT
    cases (Option.some.inj h)
    rfl
  · subst hT
    cases (Option.some.inj h)
    exact ReplaceAll_round_trip text (hC rfl)
  · subst hT
    cases (Option.some.inj h)
    rfl
  · subst hT
    cases (Option.some.inj h)
    obtain ⟨h1, h2⟩ := hl rfl
    cases hA : Atoi text with
    | mk v e =>
      rw [hA] at h1 h2
      simp only at h1 h2
      subst h1
      show Itoa v = text
      exact h2
  · subst hT
    cases (Option.some.inj h)
    rfl
  · subst hT
    cases (Option.some.inj h)
    rfl
  · subst hT
    cases (Option.some.inj h)
    exact List.append_nil _
  · subst hT
    cases (Option.some.inj h)
    rfl
  · exact absurd (hnone (fieldOf_unknown T hT)) hne

theorem parseStep_other (pattern : FramePattern) (frame frame' : FrameInfo) (i : Nat)
    (text ty : Str) (hlen : pattern.ExpressionTypes.length = 32) (hi : i < 32)
    (hv : pattern.Verbose = false)
    (h : parseStep pattern frame (i, text) = some frame')
    (hother : text = [] ∨ fieldOf (typeAt pattern i) = none ∨
      fieldOf ty ≠ fieldOf (typeAt pattern i)) :
    formatField pattern frame' ty = formatField pattern frame ty := by
  by_cases hne : text = []
  · subst hne
    rw [parseStep_nil] at h
    cases h
    rfl
  · rw [parseStep_text pattern frame i text hlen hi hne] at h
    obtain ⟨re, types, count, pat, verbose⟩ := pattern
    simp only at hv
    subst hv
    exact formatField_other re pat types count frame text ty _ frame' h
      (hother.resolve_left hne)

theorem foldlM_parseStep_isSome (pattern : FramePattern)
    (hlen : pattern.ExpressionTypes.length = 32) (items : List (Nat × Str))
    (hitems : ∀ it ∈ items, it.1 < 32) (frame : FrameInfo) :
    ∃ frame', items.foldlM (parseStep pattern) frame = some frame' := by
  induction items generalizing frame with
  | nil => exact ⟨frame, rfl⟩
  | cons it rest ih =>
    obtain ⟨f1, h1⟩ := parseStep_isSome pattern frame it.1 it.2 hlen
      (hitems it (List.mem_cons_self _ _))
    obtain ⟨f2, h2⟩ := ih (fun x hx => hitems x (List.mem_cons_of_mem _ hx)) f1
    refine ⟨f2, ?_⟩
    rw [List.foldlM_cons]
    have : parseStep pattern frame it = some f1 := h1
    rw [this]
    exact h2

theorem foldlM_parseStep_other (pattern : FramePattern)
    (hlen : pattern.ExpressionTypes.length = 32) (hv : pattern.Verbose = false) (ty : Str)
    (items : List (Nat × Str)) (frame frame' : FrameInfo)
    (hitems : ∀ it ∈ items, it.1 < 32 ∧ (it.2 = [] ∨ fieldOf (typeAt pattern it.1) = none ∨
      fieldOf ty ≠ fieldOf (typeAt pattern it.1)))
    (h : items.foldlM (parseStep pattern) frame = some frame') :
    formatField pattern frame' ty = formatField pattern frame ty := by
  induction items generalizing frame with
  | nil =>
    cases h
    rfl
  | cons it rest ih =>
    rw [List.foldlM_cons] at h
    cases h1 : parseStep pattern frame it with
    | none =>
      rw [h1] at h
      cases h
    | some f1 =>
      rw [h1] at h
      have hit := hitems it (List.mem_cons_self _ _)
      rw [ih f1 (fun x hx => hitems x (List.mem_cons_of_mem _ hx)) h]
      exact parseStep_other pattern frame f1 it.1 it.2 ty hlen hit.1 hv h1 hit.2

end Retrace

namespace Retrace

theorem mapM_eq_some_map {α β : Type} (g : α → Option β) (k : α → β) (l : List α)
    (h : ∀ x ∈ l, g x = some (k x)) : l.mapM g = some (l.map k) := by
  induction l with
  | nil => rfl
  | cons a t ih =>
    rw [List.mapM_cons, h a (List.mem_cons_self _ _),
      ih (fun x hx => h x (List.mem_cons_of_mem _ hx))]
    rfl

theorem byteSlice_isSome (line : Str) (lo hi : Int) (h0 : 0 ≤ lo) (h1 : lo ≤ hi)
    (ha : (charOffset line lo.toNat).isSome) (hb : (charOffset line hi.toNat).isSome) :
    ∃ t, byteSlice line lo hi = some t := by
  obtain ⟨ca, hca⟩ := Option.isSome_iff_exists.mp ha
  obtain ⟨cb, hcb⟩ := Option.isSome_iff_exists.mp hb
  have e1 : lo = (lo.toNat : Int) := (Int.toNat_of_nonneg h0).symm
  have e2 : hi = (hi.toNat : Int) := (Int.toNat_of_nonneg (by omega)).symm
  rw [e1, e2]
  exact ⟨_, byteSlice_eq_take_drop line _ _ ca cb hca hcb (by omega)⟩

theorem FindStringSubmatch_eq (n : Nat) (line : Str) (results : List Int)
    (h : submatchIndexes n line results) :
    FindStringSubmatch line (some results) =
      some ((List.range (n + 1)).map (groupText line results)) := by
  obtain ⟨hlen, hspans, _⟩ := h
  unfold FindStringSubmatch
  have hl : results.length / 2 = n + 1 := by omega
  simp only [hl]
  apply mapM_eq_some_map
  intro i hi
  have hi' : i < n + 1 := List.mem_range.mp hi
  unfold groupText groupStart groupEnd
  rcases hspans i hi' with hneg | ⟨h0, h1, h2⟩
  · unfold groupStart at hneg
    rw [if_neg (by omega), if_neg (by omega)]
  · simp only [groupStart, groupEnd] at h0 h1 h2
    obtain ⟨t, ht⟩ := byteSlice_isSome line _ _ h0 h1 h2.1 h2.2
    rw [if_pos (by omega), if_pos (by omega), ht]
    rfl

theorem formatField_empty (pattern : FramePattern) (ty : Str) (hv : pattern.Verbose = false)
    (hty : ty ≠ ['l']) : formatField pattern ⟨[], [], 0, [], [], [], []⟩ ty = [] := by
  obtain ⟨re, types, count, pat, verbose⟩ := pattern
  simp only at hv
  subst hv
  rcases expressionType_cases ty with h | h | h | h | h | h | h | h | h
  · subst h
    rfl
  · subst h
    exact (by decide : ReplaceAll [] ['.'] ['/'] = [])
  · subst h
    rfl
  · exact absurd h hty
  · subst h
    rfl
  · subst h
    rfl
  · subst h
    rfl
  · subst h
    rfl
  · exact formatField_unknown _ _ _ h

/-- What `Parse` keeps of a matched line: for every group of a placeholder that
took part in the match, `Format` writes the text of the group again. -/
theorem Parse_fields (pattern : FramePattern) (find : Str → Option (List Int)) (line : Str)
    (results : List Int)
    (hlen : pattern.ExpressionTypes.length = 32) (hcount : pattern.ExpressionTypeCount ≤ 31)
    (hzero : typeAt pattern 0 = []) (hv : pattern.Verbose = false)
    (hfind : find line = some results)
    (hsub : submatchIndexes pattern.ExpressionTypeCount.toNat line results)
    (hdistinct : distinctFields pattern results)
    (hkept : keptTexts pattern line results) :
    ∃ frame, pattern.Parse find line = some frame ∧
      ∀ i, i < pattern.ExpressionTypeCount.toNat + 1 → 1 ≤ i → 0 ≤ groupStart results i →
        formatField pattern frame (typeAt pattern i) = groupText line results i := by
  have hn : pattern.ExpressionTypeCount.toNat + 1 ≤ 32 := by omega
  unfold FramePattern.Parse
  rw [hfind, FindStringSubmatch_eq _ line results hsub]
  simp only [Option.bind_eq_bind, Option.some_bind]
  generalize hitems : ((List.range (pattern.ExpressionTypeCount.toNat + 1)).map
    (groupText line results)).enum = items
  have hmem : ∀ it ∈ items, it.1 < pattern.ExpressionTypeCount.toNat + 1 ∧
      it.2 = groupText line results it.1 := by
    intro it hit
    rw [← hitems] at hit
    have h1 := List.mem_enum_iff_getElem?.mp hit
    have h2 := List.fst_lt_of_mem_enum hit
    simp only [List.length_map, List.length_range] at h2
    refine ⟨h2, ?_⟩
    rw [List.getElem?_map, List.getElem?_range h2] at h1
    simp only [Option.map_some', Option.some.injEq] at h1
    exact h1.symm
  have hnodup : (items.map Prod.fst).Nodup := by
    rw [← hitems]
    exact List.nodup_enum_map_fst _
  obtain ⟨frame, hframe⟩ := foldlM_parseStep_isSome pattern hlen items
    (fun it hit => by have := (hmem it hit).1; omega) ⟨[], [], 0, [], [], [], []⟩
  refine ⟨frame, hframe, ?_⟩
  intro i hi h1 hstart
  have hin : (i, groupText line results i) ∈ items := by
    rw [← hitems]
    apply List.mem_enum_iff_getElem?.mpr
    rw [List.getElem?_map, List.getElem?_range hi]
    rfl
  obtain ⟨s, r, hsplit⟩ := List.append_of_mem hin
  -- the other groups do not touch the field of the group `i`
  have hothers : ∀ it, it ∈ s ∨ it ∈ r → it.1 < 32 ∧ (it.2 = [] ∨
      fieldOf (typeAt pattern it.1) = none ∨
      fieldOf (typeAt pattern i) ≠ fieldOf (typeAt pattern it.1)) := by
    intro it hit
    have hitm : it ∈ items := by
      rw [hsplit]
      rcases hit with hit | hit
      · exact List.mem_append_left _ hit
      · exact List.mem_append_right _ (List.mem_cons_of_mem _ hit)
    obtain ⟨hj, htext⟩ := hmem it hitm
    have hne : it.1 ≠ i := by
      rw [hsplit, List.map_append, List.map_cons] at hnodup
      have hnd := (List.nodup_middle.mp hnodup)
      have hnot := (List.nodup_cons.mp hnd).1
      intro e
      apply hnot
      rw [← List.map_append]
      exact List.mem_map.mpr ⟨it, List.mem_append.mpr hit, e⟩
    refine ⟨by omega, ?_⟩
    by_cases ht : it.2 = []
    · exact Or.inl ht
    · right
      have hjs : 0 ≤ groupStart results it.1 := by
        by_contra hneg
        apply ht
        rw [htext]
        unfold groupText
        rw [if_neg hneg]
      by_cases hj0 : it.1 = 0
      · left
        rw [hj0, hzero]
        rfl
      · rcases Nat.lt_or_gt_of_ne hne with hlt | hgt
        · rcases hdistinct i hi it.1 hlt ⟨by omega, hjs, hstart⟩ with hd | hd
          · exact Or.inl hd
          · exact Or.inr (fun e => hd e.symm)
        · rcases hdistinct it.1 hj i hgt ⟨h1, hstart, hjs⟩ with hd | hd
          · rw [hd]
            cases hf : fieldOf (typeAt pattern it.1) with
            | none => exact Or.inl rfl
            | some k => exact Or.inr (by simp)
          · exact Or.inr hd
  rw [hsplit, List.foldlM_append] at hframe
  cases hs1 : s.foldlM (parseStep pattern) ⟨[], [], 0, [], [], [], []⟩ with
  | none =>
    rw [hs1] at hframe
    cases hframe
  | some f1 =>
    rw [hs1] at hframe
    simp only [Option.bind_eq_bind, Option.some_bind] at hframe
    rw [List.foldlM_cons] at hframe
    cases hs2 : parseStep pattern f1 (i, groupText line results i) with
    | none =>
      rw [hs2] at hframe
      cases hframe
    | some f2 =>
      rw [hs2] at hframe
      simp only [Option.bind_eq_bind, Option.some_bind] at hframe
      rw [foldlM_parseStep_other pattern hlen hv _ r f2 frame
        (fun it hit => hothers it (Or.inr hit)) hframe]
      have hk := hkept i hi ⟨h1, hstart⟩
      by_cases ht : groupText line results i = []
      · rw [ht] at hs2 hk ⊢
        rw [parseStep_nil] at hs2
        cases hs2
        rw [foldlM_parseStep_other pattern hlen hv _ s _ f1
          (fun it hit => hothers it (Or.inl hit)) hs1]
        apply formatField_empty pattern _ hv
        intro e
        have := (hk.1 e).1
        revert this
        decide
      · exact parseStep_same pattern f1 f2 i _ hlen (by omega) hv ht hk hs2

end Retrace

namespace Retrace

theorem resultAt_eq (results : List Int) (k : Nat) (h : k < results.length) :
    resultAt results (k : Int) = some (results.getD k (-1)) := by
  unfold resultAt
  rw [if_pos ⟨by omega, by omega⟩]
  simp only [Int.toNat_ofNat]
  rw [List.getD_eq_getElem?_getD, List.getElem?_eq_getElem h]
  rfl

theorem slice_eq_take_drop (line : Str) (a b : Nat) (hab : a ≤ b) (hb : b ≤ line.length) :
    slice line (a : Int) (b : Int) = some ((line.drop a).take (b - a)) := by
  unfold slice
  rw [if_pos ⟨by omega, by omega, by omega⟩]
  simp only [Int.toNat_ofNat]

theorem take_append_slice (line : Str) (a b : Nat) (hab : a ≤ b) :
    line.take a ++ (line.drop a).take (b - a) = line.take b := by
  have h := List.take_add line a (b - a)
  rw [Nat.add_sub_cancel' hab] at h
  exact h.symm

theorem formatLoop_step (f : FramePattern) (line : Str) (results : List Int)
    (frameInfo : FrameInfo) (count : Nat) (expressionTypeIndex : Int) (formattedBuffer : Str)
    (lineIndex : Int) :
    formatLoop f line results frameInfo (count + 1) expressionTypeIndex formattedBuffer
        lineIndex =
      if expressionTypeIndex * 2 > results.length then some (formattedBuffer, lineIndex)
      else
        match resultAt results (expressionTypeIndex * 2) with
        | none => none
        | some startIndex =>
          if startIndex < 0 then
            formatLoop f line results frameInfo count (expressionTypeIndex + 1) formattedBuffer
              lineIndex
          else
            match resultAt results (expressionTypeIndex * 2 + 1),
              byteSlice line lineIndex startIndex,
              arrayGet f.ExpressionTypes expressionTypeIndex with
            | some endIndex, some literal, some expressionType =>
              formatLoop f line results frameInfo count (expressionTypeIndex + 1)
                (formattedBuffer ++ literal ++ formatField f frameInfo expressionType) endIndex
            | _, _, _ => none := by
  rfl

/-- The loop of `Format` over a matched line, with a frame for which `Format`
writes the text of every group again, copies the line up to the end of the last
group that it handles. `L` is a byte offset of the line, `cL` the number of
characters before it. -/
theorem formatLoop_round_trip (pattern : FramePattern) (line : Str) (results : List Int)
    (frame : FrameInfo) (n : Nat) (hn : n < 32)
    (hlen : pattern.ExpressionTypes.length = 32)
    (hsub : submatchIndexes n line results)
    (hfields : ∀ i, i < n + 1 → 1 ≤ i → 0 ≤ groupStart results i →
      formatField pattern frame (typeAt pattern i) = groupText line results i)
    (k i L cL : Nat) (hi : 1 ≤ i) (hik : i + k ≤ n) (hL : charOffset line L = some cL)
    (hnext : ∀ j, i ≤ j → j < n + 1 → 0 ≤ groupStart results j →
      (L : Int) ≤ groupStart results j) :
    ∃ L' cL' : Nat, charOffset line L' = some cL' ∧
      formatLoop pattern line results frame k (i : Int) (line.take cL) (L : Int) =
        some (line.take cL', (L' : Int)) := by
  obtain ⟨hrl, hspans, hord⟩ := hsub
  induction k generalizing i L cL with
  | zero => exact ⟨L, cL, hL, rfl⟩
  | succ k ih =>
    rw [formatLoop_step]
    have hc : ¬ ((i : Int) * 2 > results.length) := by omega
    rw [if_neg hc]
    have e1 : (i : Int) * 2 = ((2 * i : Nat) : Int) := by push_cast; ring
    have e2 : (i : Int) * 2 + 1 = ((2 * i + 1 : Nat) : Int) := by push_cast; ring
    have e3 : (i : Int) + 1 = ((i + 1 : Nat) : Int) := by push_cast; ring
    rw [e2, e1, resultAt_eq results (2 * i) (by omega)]
    simp only []
    have hin : i < n + 1 := by omega
    have hs : results.getD (2 * i) (-1) = groupStart results i := rfl
    have he : results.getD (2 * i + 1) (-1) = groupEnd results i := rfl
    rw [hs]
    by_cases hneg : groupStart results i < 0
    · rw [if_pos hneg, e3]
      exact ih (i + 1) L cL (by omega) (by omega) hL
        (fun j hj hjn hjs => hnext j (by omega) hjn hjs)
    · rw [if_neg hneg]
      rcases hspans i hin with hx | ⟨h0, h1, hsa, hsb⟩
      · exact absurd hx hneg
      · have hLs := hnext i (le_refl _) hin h0
        obtain ⟨a, ha⟩ : ∃ a : Nat, groupStart results i = a := ⟨_, (Int.toNat_of_nonneg h0).symm⟩
        obtain ⟨b, hb⟩ : ∃ b : Nat, groupEnd results i = b :=
          ⟨_, (Int.toNat_of_nonneg (by omega)).symm⟩
        rw [ha] at hsa
        rw [hb] at hsb
        simp only [Int.toNat_ofNat] at hsa hsb
        obtain ⟨ca, hca⟩ := Option.isSome_iff_exists.mp hsa
        obtain ⟨cb, hcb⟩ := Option.isSome_iff_exists.mp hsb
        have hfield := hfields i hin hi h0
        unfold groupText at hfield
        rw [if_pos (by omega)] at hfield
        rw [ha, hb] at hfield
        rw [ha] at hLs h1
        rw [hb] at h1
        have m1 := charOffset_mono line L a cL ca hL hca (by omega)
        have m2 := charOffset_mono line a b ca cb hca hcb (by omega)
        rw [byteSlice_eq_take_drop line a b ca cb hca hcb (by omega)] at hfield
        simp only [Option.getD_some] at hfield
        rw [resultAt_eq results (2 * i + 1) (by omega), he, hb, ha,
          byteSlice_eq_take_drop line L a cL ca hL hca (by omega),
          arrayGet_eq pattern i hlen (by omega)]
        simp only []
        rw [hfield, e3, take_append_slice line cL ca m1, take_append_slice line ca cb m2]
        refine ih (i + 1) b cb (by omega) (by omega) hcb ?_
        intro j hj hjn hjs
        have := hord j hjn i (by omega) ⟨hi, h0, hjs⟩
        rw [hb] at this
        exact this

end Retrace

namespace Retrace

/-- C17, as amended: for a pattern that `NewFramePattern` returns for a template
in non-verbose mode and a line that the pattern matches, `results` being what
`FindStringSubmatchIndex` gives for the line. If the groups of the compiled
expression are the groups of the placeholders and no others (`results` has two
offsets for the match and two for each placeholder), the offsets of every group
that took part in the match are byte offsets between characters of the line,
the groups that took part lie one after the other in the line in the order of
their placeholders, no two of them stand for the same field of the frame, and
the text of every group is one that is kept (for `%l` the decimal text that
`Itoa` prints, as `12` and not `012`; for `%C` a text without a dot; for a
letter that is no expression type the empty text), then `Parse` returns a frame
and `Format` of the line with that frame returns the line. -/
theorem C17_round_trip (template : Str) (pattern : FramePattern)
    (find : Str → Option (List Int)) (line : Str) (results : List Int)
    (hpattern : NewFramePattern template false = some pattern)
    (hfind : find line = some results)
    (hresults : submatchIndexes pattern.ExpressionTypeCount.toNat line results)
    (hdistinct : distinctFields pattern results)
    (hkept : keptTexts pattern line results) :
    ∃ frame, pattern.Parse find line = some frame ∧
      pattern.Format find line frame = some line := by
  obtain ⟨hlen, hc0, hc31, hzero, hv⟩ := NewFramePattern_invariant template false pattern hpattern
  obtain ⟨frame, hparse, hfields⟩ := Parse_fields pattern find line results hlen hc31 hzero hv
    hfind hresults hdistinct hkept
  refine ⟨frame, hparse, ?_⟩
  unfold FramePattern.Format
  rw [hfind]
  simp only [Option.getD_some]
  by_cases hcount : pattern.ExpressionTypeCount = 0
  · have hz : (pattern.ExpressionTypeCount - 1).toNat = 0 := by omega
    rw [hz, formatLoop_one]
    simp only [Option.bind_eq_bind, Option.some_bind, byteSliceFrom_zero, List.nil_append,
      Option.pure_def]
  · obtain ⟨L, cL, hL, hloop⟩ := formatLoop_round_trip pattern line results frame
      pattern.ExpressionTypeCount.toNat (by omega) hlen hresults hfields
      (pattern.ExpressionTypeCount - 1).toNat 1 0 0 (le_refl _) (by omega)
      (charOffset_zero line) (fun j hj hjn hjs => by simpa using hjs)
    simp only [List.take_zero, Nat.cast_one, Nat.cast_zero] at hloop
    rw [hloop]
    simp only [Option.bind_eq_bind, Option.some_bind]
    rw [byteSliceFrom_eq_drop line L cL hL]
    simp only [Option.some_bind, Option.pure_def, List.take_append_drop]

/-- Witness of C17: the template `%c.%m:%l` and the line `é.b:12`, matched with
the class name at the bytes 0..2, the method name at 3..4 and the line number
at 5..7. -/
theorem C17_round_trip_witness :
    ∃ frame,
      FramePattern.Parse
        ⟨"%c.%m:%l".toList, (((List.replicate 32 []).set 1 ['c']).set 2 ['m']).set 3 ['l'], 3,
          "(".toList ++ REGEX_CLASS ++ ").(".toList ++ REGEX_MEMBER ++ "):(".toList ++
            REGEX_LINE_NUMBER ++ ")".toList, false⟩
        (fun _ => some [0, 7, 0, 2, 3, 4, 5, 7]) "é.b:12\n".toList = some frame ∧
      FramePattern.Format
        ⟨"%c.%m:%l".toList, (((List.replicate 32 []).set 1 ['c']).set 2 ['m']).set 3 ['l'], 3,
          "(".toList ++ REGEX_CLASS ++ ").(".toList ++ REGEX_MEMBER ++ "):(".toList ++
            REGEX_LINE_NUMBER ++ ")".toList, false⟩
        (fun _ => some [0, 7, 0, 2, 3, 4, 5, 7]) "é.b:12\n".toList frame =
          some "é.b:12\n".toList :=
  C17_round_trip "%c.%m:%l".toList _ (fun _ => some [0, 7, 0, 2, 3, 4, 5, 7])
    "é.b:12\n".toList [0, 7, 0, 2, 3, 4, 5, 7] (by decide) rfl (by decide) (by decide)
    (by decide)

/-- Counterexample to C17 as stated. The pattern of the template `%c %c`
matches the line `a b` with the groups at 0..1 and 2..3: `Parse` keeps the
class name `b`, and `Format` with that frame gives `b b`. The pattern of the
template `%l %c` matches the line `007 a` with the groups at 0..3 and 4..5:
`Parse` keeps the line number 7, and `Format` with that frame gives `7 a`. -/
theorem C17_counterexample_round_trip :
    (∃ pattern : FramePattern, NewFramePattern "%c %c".toList false = some pattern ∧
      pattern.Parse (fun _ => some [0, 3, 0, 1, 2, 3]) "a b".toList =
        some ⟨['b'], [], 0, [], [], [], []⟩ ∧
      pattern.Format (fun _ => some [0, 3, 0, 1, 2, 3]) "a b".toList
        ⟨['b'], [], 0, [], [], [], []⟩ = some "b b".toList) ∧
    (∃ pattern : FramePattern, NewFramePattern "%l %c".toList false = some pattern ∧
      pattern.Parse (fun _ => some [0, 5, 0, 3, 4, 5]) "007 a".toList =
        some ⟨['a'], [], 7, [], [], [], []⟩ ∧
      pattern.Format (fun _ => some [0, 5, 0, 3, 4, 5]) "007 a".toList
        ⟨['a'], [], 7, [], [], [], []⟩ = some "7 a".toList) := by
  have h1 : NewFramePattern "%c %c".toList false =
      some ⟨"%c %c".toList, ((List.replicate 32 []).set 1 ['c']).set 2 ['c'], 2,
        "(".toList ++ REGEX_CLASS ++ ") (".toList ++ REGEX_CLASS ++ ")".toList, false⟩ := by
    decide
  have h2 : NewFramePattern "%l %c".toList false =
      some ⟨"%l %c".toList, ((List.replicate 32 []).set 1 ['l']).set 2 ['c'], 2,
        "(".toList ++ REGEX_LINE_NUMBER ++ ") (".toList ++ REGEX_CLASS ++ ")".toList, false⟩ := by
    decide
  exact ⟨⟨_, h1, by decide, by decide⟩, ⟨_, h2, by decide, by decide⟩⟩

end Retrace

namespace Retrace

/-- C21, on the input where the code departs from it: for the template made of
32 placeholders `%c`, `NewFramePattern` fails at the 32nd one, where the count
of expression types becomes 32 and the assignment to `ExpressionTypes[32]` is
out of range, while the template of 31 placeholders gives a pattern with 31
expression types. No pattern that `NewFramePattern` returns, whatever the
template, has more than 31 expression types. -/
theorem C21_thirty_two_placeholders_fail :
    NewFramePattern (List.replicate 32 ['%', 'c']).flatten false = none ∧
    (NewFramePattern (List.replicate 31 ['%', 'c']).flatten false).map
      (fun p => p.ExpressionTypeCount) = some 31 ∧
    ∀ (template : Str) (verbose : Bool) (pattern : FramePattern),
      NewFramePattern template verbose = some pattern → pattern.ExpressionTypeCount ≤ 31 := by
  refine ⟨by decide, by decide, ?_⟩
  intro template verbose pattern h
  exact (NewFramePattern_invariant template verbose pattern h).2.2.1

end Retrace

namespace Retrace

theorem FirstNonCommonIndex_spec (string1 string2 : List UInt8) :
    ∃ k : Nat, FirstNonCommonIndex string1 string2 = k ∧ k ≤ string1.length ∧
      k ≤ string2.length ∧ string1.take k = string2.take k ∧
      ∀ (h1 : k < string1.length) (h2 : k < string2.length), string1[k] ≠ string2[k] := by
  induction string1 generalizing string2 with
  | nil => exact ⟨0, by simp [FirstNonCommonIndex], by simp, by simp, by simp, by simp⟩
  | cons a s1 ih =>
    cases string2 with
    | nil => exact ⟨0, by simp [FirstNonCommonIndex], by simp, by simp, by simp, by simp⟩
    | cons b s2 =>
      by_cases hab : a = b
      · obtain ⟨k, hk, h1, h2, h3, h4⟩ := ih s2
        refine ⟨k + 1, ?_, by simpa using h1, by simpa using h2, ?_, ?_⟩
        · rw [FirstNonCommonIndex, if_neg (by simpa using hab), hk]
          push_cast
          rfl
        · simp [hab, h3]
        · intro g1 g2
          simpa using h4 (by simpa using g1) (by simpa using g2)
      · refine ⟨0, ?_, by simp, by simp, by simp, ?_⟩
        · rw [FirstNonCommonIndex, if_pos hab]
          rfl
        · intro _ _
          simpa using hab

/-- The strings `éa` and `éb` have the two bytes of `é` in common: `Trim` writes
two blanks for them. -/
theorem Trim_two_byte_character :
    FirstNonCommonIndex (utf8 "éa".toList) (utf8 "éb".toList) = 2 ∧
    Trim (utf8 "éa".toList) (utf8 "éb".toList) = some [32, 32, 97] := by
  decide

/-- C22: for all strings `string1` and `string2`, given as their bytes,
`FirstNonCommonIndex` returns a position `k` that is at most both lengths, the
strings agree on every byte before `k`, and they differ at `k` when `k` is
below both lengths; `Trim` does not fail and returns `k` blanks (the byte 32)
followed by `string1` from the position `k` on, a string of the length of
`string1`. Lengths and positions are counted in bytes, as `len` and the index
expressions of the source count them. -/
theorem C22_trim_blanks_common_part (string1 string2 : List UInt8) :
    ∃ k : Nat, FirstNonCommonIndex string1 string2 = k ∧ k ≤ string1.length ∧
      k ≤ string2.length ∧ string1.take k = string2.take k ∧
      (∀ (h1 : k < string1.length) (h2 : k < string2.length), string1[k] ≠ string2[k]) ∧
      Trim string1 string2 = some (List.replicate k 32 ++ string1.drop k) ∧
      (List.replicate k (32 : UInt8) ++ string1.drop k).length = string1.length := by
  obtain ⟨k, hk, h1, h2, h3, h4⟩ := FirstNonCommonIndex_spec string1 string2
  refine ⟨k, hk, h1, h2, h3, h4, ?_, ?_⟩
  · unfold Trim bytesFrom
    rw [hk]
    simp only []
    rw [if_pos ⟨by omega, by omega⟩]
    simp only [Int.toNat_ofNat, Option.bind_eq_bind, Option.some_bind, Option.pure_def]
  · simp only [List.length_append, List.length_replicate, List.length_drop]
    omega

end Retrace

namespace Retrace

open FrameRemapper

/-- `Transform` over the table with the class mapping `O -> N` and one method
entry, for a frame with empty type and arguments whose line number the entry
matches: the one frame returned, with the line number of `methodLineNumber`. -/
theorem Transform_single_method (order : ValuesOrder) (O N m T name A src fld : Str)
    (f l F L k : Int) (hN : N ≠ []) (hmatch : k = 0 ∨ l = 0 ∨ (f ≤ k ∧ k ≤ l)) :
    ((NewFrameRemapper.ProcessClassMapping O N).1.ProcessMethodMapping O F L T name A O f l
        m).Transform order ⟨N, src, k, [], fld, m, []⟩ =
      some [⟨O, sourceFileName O, methodLineNumber ⟨f, l, O, F, L, T, name, A⟩ k, T, fld, name,
        A⟩] := by
  generalize hr : (NewFrameRemapper.ProcessClassMapping O N).1.ProcessMethodMapping O F L T name
    A O f l m = r
  have hcn : r.GetOriginalClassName N = O := by
    rw [← hr]
    unfold GetOriginalClassName ProcessMethodMapping ProcessClassMapping NewFrameRemapper
      GoMap.set
    simp
  have hnil : r.GetOriginalClassName [] = [] := by
    rw [← hr]
    unfold GetOriginalClassName ProcessMethodMapping ProcessClassMapping NewFrameRemapper
      GoMap.set GoMap.empty
    have : ¬ ([] : Str) = N := fun e => hN e.symm
    simp [this]
  have hfm : r.ClassFieldMap O = none := by
    rw [← hr]
    rfl
  have hst : storedMethods r O m = [⟨f, l, O, F, L, T, name, A⟩] := by
    rw [← hr]
    unfold storedMethods ProcessMethodMapping ProcessClassMapping NewFrameRemapper GoMap.set
      GoMap.empty setAdd
    simp
  have hfc : fieldCandidates order r ⟨N, src, k, [], fld, m, []⟩ = [] :=
    fieldCandidates_of_no_fields order r _ (by rw [hcn]; exact hfm)
  have hmc : methodCandidates r ⟨N, src, k, [], fld, m, []⟩ =
      [⟨O, sourceFileName O, methodLineNumber ⟨f, l, O, F, L, T, name, A⟩ k, T, fld, name,
        A⟩] := by
    unfold methodCandidates
    simp only [hcn, hst, originalType_nil, originalArguments_nil, hnil, List.filter_cons,
      matches_wildcards ⟨f, l, O, F, L, T, name, A⟩ k hmatch, if_true,
      List.filter_nil, List.map_cons, List.map_nil]
    rfl
  rw [Transform_eq, hfc, hmc]
  rfl

/-- C23, as amended: the table holds the class mapping `O -> N`, `N` not empty,
and one method entry with obfuscated range `f`, `l` and original range `F`,
`L`; the frame has class `N`, the method name of the entry, empty type and
arguments and a line number `k` that the entry matches. Outside the shift case
(`F ≠ f`, `L ≠ 0`, `L ≠ F`, `f ≠ 0` and `k ≠ 0` together), the line number of
the one frame that `Transform` returns is `F` when `F ≠ f`, and it is the line
number `k` of the frame given when `F = f`. -/
theorem C23_method_line_outside_shift (order : ValuesOrder) (O N m T name A src fld : Str)
    (f l F L k : Int) (hN : N ≠ []) (hmatch : k = 0 ∨ l = 0 ∨ (f ≤ k ∧ k ≤ l))
    (hnoshift : ¬ (F ≠ f ∧ L ≠ 0 ∧ L ≠ F ∧ f ≠ 0 ∧ k ≠ 0)) :
    ((NewFrameRemapper.ProcessClassMapping O N).1.ProcessMethodMapping O F L T name A O f l
        m).Transform order ⟨N, src, k, [], fld, m, []⟩ =
      some [⟨O, sourceFileName O, if F = f then k else F, T, fld, name, A⟩] := by
  rw [Transform_single_method order O N m T name A src fld f l F L k hN hmatch]
  unfold methodLineNumber
  by_cases hFf : F = f
  · simp [hFf]
  · have h2 : ¬ (L ≠ 0 ∧ L ≠ F ∧ f ≠ 0 ∧ k ≠ 0) := fun h => hnoshift ⟨hFf, h⟩
    simp only [ne_eq, hFf, not_false_eq_true, if_true, if_false]
    rw [if_neg h2]

/-- Witness of C23: the entry `1:3:void foo():10:10 -> a` under `Orig -> Obf`,
whose original range is the one line 10, and the frame with line 2: the line
returned is 10. -/
theorem C23_method_line_outside_shift_witness :
    ((NewFrameRemapper.ProcessClassMapping "Orig".toList "Obf".toList).1.ProcessMethodMapping
        "Orig".toList 10 10 "void".toList "foo".toList [] "Orig".toList 1 3
        "a".toList).Transform insertionOrder ⟨"Obf".toList, [], 2, [], [], "a".toList, []⟩ =
      some [⟨"Orig".toList, "Orig.java".toList, 10, "void".toList, [], "foo".toList, []⟩] :=
  C23_method_line_outside_shift insertionOrder "Orig".toList "Obf".toList "a".toList
    "void".toList "foo".toList [] [] [] 1 3 10 10 2 (by decide) (by decide) (by decide)

/-- Counterexample to C23 as stated: the entry `5:7:void foo():5:7 -> a` under
`Orig -> Obf` has the same first line 5 on both sides and matches the frame
with line 6; the line number of the frame returned is 6, not the original first
line 5. -/
theorem C23_counterexample_equal_first_lines :
    MethodInfo.Matches ⟨5, 7, "Orig".toList, 5, 7, "void".toList, "foo".toList, []⟩ 6 [] [] =
      true ∧
    ((NewFrameRemapper.ProcessClassMapping "Orig".toList "Obf".toList).1.ProcessMethodMapping
        "Orig".toList 5 7 "void".toList "foo".toList [] "Orig".toList 5 7
        "a".toList).Transform insertionOrder ⟨"Obf".toList, [], 6, [], [], "a".toList, []⟩ =
      some [⟨"Orig".toList, "Orig.java".toList, 6, "void".toList, [], "foo".toList, []⟩] := by
  decide

end Retrace

namespace Retrace

open FrameRemapper

theorem takeWhile_split (base : Str) (c : Char) (h : c ∈ base) :
    ∃ stem rest, base = stem ++ c :: rest ∧ c ∉ stem ∧
      base.takeWhile (fun x => x != c) = stem := by
  induction base with
  | nil => simp at h
  | cons a t ih =>
    by_cases hac : a = c
    · refine ⟨[], t, by simp [hac], by simp, ?_⟩
      simp [List.takeWhile, hac]
    · have ht : c ∈ t := by
        rcases List.mem_cons.mp h with e | e
        · exact absurd e.symm hac
        · exact e
      obtain ⟨stem, rest, h1, h2, h3⟩ := ih ht
      refine ⟨a :: stem, rest, by simp [h1], ?_, ?_⟩
      · intro hm
        rcases List.mem_cons.mp hm with e | e
        · exact hac e.symm
        · exact h2 e
      · have hb : (a != c) = true := by simpa using hac
        rw [List.takeWhile_cons, hb, if_pos rfl, h3]

/-- C24, as amended: the class name is not empty and `base` is what follows its
last dot (the whole name when it has no dot). `getSourceFileName` returns
`base` up to its first `$` when `base` has a `$` that is not the first
character of the whole class name, and `base` followed by `.java` otherwise. -/
theorem C24_source_file_name (pre base : Str) (hpre : pre = [] ∨ ∃ p, pre = p ++ ['.'])
    (hbase : '.' ∉ base) (hne : pre ++ base ≠ []) :
    getSourceFileName (pre ++ base) =
      some (if '$' ∈ base ∧ ¬ (pre = [] ∧ base.head? = some '$') then
          base.takeWhile (fun x => x != '$')
        else base ++ ".java".toList) := by
  have hlen : ¬ (pre ++ base).length = 0 := fun e => hne (List.length_eq_zero.mp e)
  have hindex1 : LastIndex (pre ++ base) ['.'] + 1 = pre.length := by
    rcases hpre with h | ⟨p, h⟩
    · subst h
      rw [List.nil_append, LastIndex_char_absent base '.' hbase]
      rfl
    · subst h
      rw [List.append_assoc, List.singleton_append, LastIndex_char_found p base '.' hbase]
      simp
  unfold getSourceFileName
  rw [if_neg hlen, hindex1]
  simp only []
  by_cases hd : '$' ∈ base
  · obtain ⟨stem, rest, h1, h2, h3⟩ := takeWhile_split base '$' hd
    rw [IndexOf_char_found (pre ++ base) pre stem rest '$' pre.length (by rw [h1]) rfl h2,
      some_bind_eq]
    by_cases hfirst : pre = [] ∧ base.head? = some '$'
    · obtain ⟨hp, hh⟩ := hfirst
      have hstem : stem = [] := by
        cases stem with
        | nil => rfl
        | cons a t =>
          rw [h1] at hh
          simp only [List.cons_append, List.head?_cons, Option.some.injEq] at hh
          exact absurd (hh ▸ List.mem_cons_self a t) h2
      subst hp
      subst hstem
      have hn : ¬ (((([] : Str).length : Int) + (([] : Str).length : Int)) > 0) := by simp
      rw [if_neg hn, if_neg (by simp [hh])]
      rw [sliceFrom_eq ([] ++ base) [] base _ rfl rfl]
      rfl
    · have hpos : ((pre.length : Int) + (stem.length : Int)) > 0 := by
        by_contra hc
        apply hfirst
        have hp : pre.length = 0 := by omega
        have hs : stem.length = 0 := by omega
        refine ⟨List.length_eq_zero.mp hp, ?_⟩
        rw [h1, List.length_eq_zero.mp hs]
        rfl
      rw [if_pos hpos, if_pos ⟨hd, hfirst⟩, h3]
      exact slice_eq (pre ++ base) pre stem ('$' :: rest) _ _ (by rw [h1]) rfl rfl
  · rw [IndexOf_char_absent (pre ++ base) pre base '$' pre.length rfl rfl hd, some_bind_eq,
      if_neg (by decide), if_neg (fun h => hd h.1),
      sliceFrom_eq (pre ++ base) pre base _ rfl rfl]
    rfl

/-- Witness of C24: the class name `a.b.Outer$Inner`, with the source file name
`Outer`. -/
theorem C24_source_file_name_witness :
    getSourceFileName "a.b.Outer$Inner".toList = some "Outer".toList :=
  C24_source_file_name "a.b.".toList "Outer$Inner".toList (Or.inr ⟨"a.b".toList, rfl⟩)
    (by decide) (by decide)

/-- Counterexample to C24 as stated: the class name `$Foo` has no dot and a `$`
as its first character, so truncated at the first `$` it would be empty; its
source file name is `$Foo.java`. The empty class name gives the empty name. -/
theorem C24_counterexample_leading_dollar :
    getSourceFileName "$Foo".toList = some "$Foo.java".toList ∧
    getSourceFileName [] = some [] := by
  decide

end Retrace

namespace Retrace

open FrameRemapper

theorem Index_bracket_suffix (b : Str) (k : Nat) (hb : '[' ∉ b) :
    Index (b ++ (List.replicate k ['[', ']']).flatten) ['['] =
      if k = 0 then -1 else (b.length : Int) := by
  cases k with
  | zero =>
    simp only [List.replicate_zero, List.flatten_nil, List.append_nil, if_true]
    exact Index_char_absent b '[' hb
  | succ n =>
    rw [List.replicate_succ, List.flatten_cons]
    simp only [List.cons_append, List.nil_append, Nat.succ_ne_zero, if_false]
    exact Index_char_found b _ '[' hb

/-- C25: for every class table, every base name `b` without `[` and every `k`,
`getOriginalType` of `b` followed by `k` copies of `[]` does not fail and
returns `GetOriginalClassName(b)` followed by the same `k` copies of `[]`; when
`b` is no key of the class table, that is the type given. -/
theorem C25_array_type_resolution (remapper : FrameRemapper) (b : Str) (k : Nat)
    (hb : '[' ∉ b) :
    remapper.getOriginalType (b ++ (List.replicate k ['[', ']']).flatten) =
      some (remapper.GetOriginalClassName b ++ (List.replicate k ['[', ']']).flatten) ∧
    (remapper.ClassMap b = none →
      remapper.getOriginalType (b ++ (List.replicate k ['[', ']']).flatten) =
        some (b ++ (List.replicate k ['[', ']']).flatten)) := by
  have h1 : remapper.getOriginalType (b ++ (List.replicate k ['[', ']']).flatten) =
      some (remapper.GetOriginalClassName b ++ (List.replicate k ['[', ']']).flatten) := by
    unfold getOriginalType
    simp only []
    rw [Index_bracket_suffix b k hb]
    by_cases hk : k = 0
    · subst hk
      simp only [if_true, List.replicate_zero, List.flatten_nil, List.append_nil]
      rw [if_neg (by decide)]
      rfl
    · rw [if_neg hk, if_pos (by omega),
        slice_eq (b ++ (List.replicate k ['[', ']']).flatten) [] b _ 0 b.length rfl rfl
          (by simp),
        sliceFrom_eq (b ++ (List.replicate k ['[', ']']).flatten) b _ b.length rfl rfl]
      rfl
  refine ⟨h1, fun hnone => ?_⟩
  rw [h1]
  unfold GetOriginalClassName
  rw [hnone]

/-- Witness of C25: the class table `Orig -> a` and the types `a[][]` and
`int[]`. -/
theorem C25_array_type_resolution_witness :
    (NewFrameRemapper.ProcessClassMapping "Orig".toList "a".toList).1.getOriginalType
        "a[][]".toList = some "Orig[][]".toList ∧
    (NewFrameRemapper.ProcessClassMapping "Orig".toList "a".toList).1.getOriginalType
        "int[]".toList = some "int[]".toList :=
  ⟨(C25_array_type_resolution
      (NewFrameRemapper.ProcessClassMapping "Orig".toList "a".toList).1 "a".toList 2
      (by decide)).1,
    (C25_array_type_resolution
      (NewFrameRemapper.ProcessClassMapping "Orig".toList "a".toList).1 "int".toList 1
      (by decide)).2 (by decide)⟩

end Retrace

namespace Retrace

open MappingReader

end Retrace

namespace Retrace

open FrameRemapper

theorem sublist_setAdd {α : Type} [DecidableEq α] (items : List α) (item : α) :
    items.Sublist (setAdd items item) := by
  unfold setAdd
  split_ifs
  · exact List.Sublist.refl _
  · exact List.sublist_append_left _ _

theorem storedFields_ProcessFieldMapping (remapper : FrameRemapper)
    (cn ty nm ncn nnm c k : Str) :
    storedFields (remapper.ProcessFieldMapping cn ty nm ncn nnm) c k =
      if c = ncn ∧ k = nnm then setAdd (storedFields remapper c k) ⟨cn, ty, nm⟩
      else storedFields remapper c k := by
  by_cases hk : k = nnm
  · by_cases hc : c = ncn
    · subst hk
      subst hc
      rw [if_pos ⟨rfl, rfl⟩]
      unfold storedFields ProcessFieldMapping GoMap.set
      simp only [if_true]
      cases h1 : remapper.ClassFieldMap c with
      | none => simp [GoMap.empty]
      | some fieldMap =>
        cases h2 : fieldMap k with
        | none => simp [h2]
        | some fieldSet => simp [h2]
    · rw [if_neg (fun h => hc h.1)]
      unfold storedFields ProcessFieldMapping GoMap.set
      simp only [hc, if_false]
  · rw [if_neg (fun h => hk h.2)]
    exact storedFields_ProcessFieldMapping_other remapper cn ty nm ncn nnm c k hk

theorem storedMethods_ProcessMethodMapping_eq (remapper : FrameRemapper)
    (cn : Str) (a b : Int) (ty nm args ncn : Str) (c0 d : Int) (nnm c k : Str) :
    storedMethods (remapper.ProcessMethodMapping cn a b ty nm args ncn c0 d nnm) c k =
      if c = ncn ∧ k = nnm then
        setAdd (storedMethods remapper c k) ⟨c0, d, cn, a, b, ty, nm, args⟩
      else storedMethods remapper c k := by
  by_cases hk : k = nnm
  · by_cases hc : c = ncn
    · subst hk
      subst hc
      rw [if_pos ⟨rfl, rfl⟩]
      exact storedMethods_ProcessMethodMapping remapper cn a b ty nm args c c0 d k
    · rw [if_neg (fun h => hc h.1)]
      unfold storedMethods ProcessMethodMapping GoMap.set
      simp only [hc, if_false]
  · rw [if_neg (fun h => hk h.2)]
    exact storedMethods_ProcessMethodMapping_other remapper cn a b ty nm args ncn c0 d nnm c k hk

theorem GoMap_set_same {V : Type} (m : GoMap V) (k : Str) (v : V) (h : m k = some v) :
    m.set k v = m := by
  funext q
  unfold GoMap.set
  by_cases hq : q = k
  · rw [if_pos hq, hq, h]
  · rw [if_neg hq]

theorem ProcessFieldMapping_same (remapper : FrameRemapper) (cn ty nm ncn nnm : Str)
    (h : (⟨cn, ty, nm⟩ : FieldInfo) ∈ storedFields remapper ncn nnm) :
    remapper.ProcessFieldMapping cn ty nm ncn nnm = remapper := by
  unfold storedFields at h
  cases h1 : remapper.ClassFieldMap ncn with
  | none => simp [h1] at h
  | some fieldMap =>
    cases h2 : fieldMap nnm with
    | none => simp [h1, h2] at h
    | some fieldSet =>
      simp only [h1, h2, Option.getD_some] at h
      unfold ProcessFieldMapping
      simp only [h1, h2]
      rw [setAdd_of_mem _ _ h, GoMap_set_same fieldMap nnm fieldSet h2,
        GoMap_set_same remapper.ClassFieldMap ncn fieldMap h1]

theorem ProcessMethodMapping_same (remapper : FrameRemapper)
    (cn : Str) (a b : Int) (ty nm args ncn : Str) (c0 d : Int) (nnm : Str)
    (h : (⟨c0, d, cn, a, b, ty, nm, args⟩ : MethodInfo) ∈ storedMethods remapper ncn nnm) :
    remapper.ProcessMethodMapping cn a b ty nm args ncn c0 d nnm = remapper := by
  unfold storedMethods at h
  cases h1 : remapper.ClassMethodMap ncn with
  | none => simp [h1] at h
  | some methodMap =>
    cases h2 : methodMap nnm with
    | none => simp [h1, h2] at h
    | some methodSet =>
      simp only [h1, h2, Option.getD_some] at h
      unfold ProcessMethodMapping
      simp only [h1, h2]
      rw [setAdd_of_mem _ _ h, GoMap_set_same methodMap nnm methodSet h2,
        GoMap_set_same remapper.ClassMethodMap ncn methodMap h1]

/-- C27: the table after a call of `ProcessClassMapping`, `ProcessFieldMapping`
or `ProcessMethodMapping` holds all that the table before the call holds: every
key of the class table, and every field info and method info under its class
name and obfuscated member name, the method infos in their order. A call that
registers what is stored already leaves the table as it is. -/
theorem C27_table_only_grows (remapper : FrameRemapper) :
    (∀ cn ncn, tableGrows remapper (remapper.ProcessClassMapping cn ncn).1) ∧
    (∀ cn ty nm ncn nnm, tableGrows remapper (remapper.ProcessFieldMapping cn ty nm ncn nnm)) ∧
    (∀ cn a b ty nm args ncn c d nnm,
      tableGrows remapper (remapper.ProcessMethodMapping cn a b ty nm args ncn c d nnm)) ∧
    (∀ cn ncn, remapper.ClassMap ncn = some cn →
      (remapper.ProcessClassMapping cn ncn).1 = remapper) ∧
    (∀ cn ty nm ncn nnm, (⟨cn, ty, nm⟩ : FieldInfo) ∈ storedFields remapper ncn nnm →
      remapper.ProcessFieldMapping cn ty nm ncn nnm = remapper) ∧
    (∀ cn a b ty nm args ncn c d nnm,
      (⟨c, d, cn, a, b, ty, nm, args⟩ : MethodInfo) ∈ storedMethods remapper ncn nnm →
        remapper.ProcessMethodMapping cn a b ty nm args ncn c d nnm = remapper) := by
  refine ⟨?_, ?_, ?_, ?_, ?_, ?_⟩
  · intro cn ncn
    refine ⟨?_, fun c m => List.Sublist.refl _, fun c m => List.Sublist.refl _⟩
    intro name hname
    unfold ProcessClassMapping GoMap.set
    simp only []
    by_cases hq : name = ncn
    · rw [if_pos hq]
      exact Option.some_ne_none _
    · rw [if_neg hq]
      exact hname
  · intro cn ty nm ncn nnm
    refine ⟨fun name hname => hname, ?_, fun c m => List.Sublist.refl _⟩
    intro c m
    rw [storedFields_ProcessFieldMapping]
    split_ifs
    · exact sublist_setAdd _ _
    · exact List.Sublist.refl _
  · intro cn a b ty nm args ncn c d nnm
    refine ⟨fun name hname => hname, fun c m => List.Sublist.refl _, ?_⟩
    intro c' m
    rw [storedMethods_ProcessMethodMapping_eq]
    split_ifs
    · exact sublist_setAdd _ _
    · exact List.Sublist.refl _
  · intro cn ncn h
    unfold ProcessClassMapping
    simp only []
    rw [GoMap_set_same remapper.ClassMap ncn cn h]
  · intro cn ty nm ncn nnm h
    exact ProcessFieldMapping_same remapper cn ty nm ncn nnm h
  · intro cn a b ty nm args ncn c d nnm h
    exact ProcessMethodMapping_same remapper cn a b ty nm args ncn c d nnm h

end Retrace

namespace Retrace

open MappingReader FrameRemapper

/-- C28: whatever the processor, its state and the mapping text, `Pump` does not
fail: no search starts outside a line and no slice is out of range. The same
holds for `ProcessClassMapping` on every line, and for
`ProcessClassMemberMapping` on every line that is not empty and does not end
with a colon, as the lines that `Pump` gives to it. -/
theorem C28_pump_never_fails {σ : Type} (P : MappingProcessor σ) :
    (∀ (st : σ) (text : Str), ∃ r, Pump P st text = some r) ∧
    (∀ (st : σ) (line : Str), ∃ r, MappingReader.ProcessClassMapping P st line = some r) ∧
    (∀ (st : σ) (className line : Str), line ≠ [] →
      (∀ h : line ≠ [], line.getLast h ≠ ':') →
        ∃ r, ProcessClassMemberMapping P st className line = some r) := by
  refine ⟨?_, ?_, ?_⟩
  · intro st text
    obtain ⟨r, h, _⟩ := Pump_total P (fun _ => True) (fun _ _ _ h => h)
      (fun _ _ _ _ _ _ _ h => h) (fun _ _ _ _ _ _ _ _ _ _ _ _ h => h) st text
    exact ⟨r, h⟩
  · intro st line
    obtain ⟨r, h, _⟩ := ProcessClassMapping_total P (fun _ => True) (fun _ _ _ h => h) st line
    exact ⟨r, h⟩
  · intro st className line hne hlast
    obtain ⟨st', e, h, _⟩ := ProcessClassMemberMapping_total P (fun _ => True)
      (fun _ _ _ _ _ _ _ h => h) (fun _ _ _ _ _ _ _ _ _ _ _ _ h => h) st className line hne hlast
    exact ⟨(st', e), h⟩

/-- C29: `Transform` does not fail. With the frames that `transformFieldInfo`
and `transformMethodInfo` produce, it returns the field frames followed by the
method frames when there is one at least, and the one frame of the class name
alone when there is none; the list returned is never empty. -/
theorem C29_transform_result (order : ValuesOrder) (remapper : FrameRemapper)
    (frame : FrameInfo) :
    ∃ fieldFrames methodFrames result,
      remapper.transformFieldInfo order frame (remapper.GetOriginalClassName frame.ClassName)
        [] = some fieldFrames ∧
      remapper.transformMethodInfo frame (remapper.GetOriginalClassName frame.ClassName)
        [] = some methodFrames ∧
      remapper.Transform order frame = some result ∧
      result = (if fieldFrames ++ methodFrames = [] then [passthroughCandidate remapper frame]
        else fieldFrames ++ methodFrames) ∧
      1 ≤ result.length ∧
      (result.length = 1 ∨ fieldFrames ++ methodFrames ≠ []) := by
  refine ⟨fieldCandidates order remapper frame, methodCandidates remapper frame, _,
    by rw [transformFieldInfo_eq]; rfl, by rw [transformMethodInfo_eq]; rfl,
    Transform_eq order remapper frame, rfl, ?_, ?_⟩
  · split_ifs with h
    · simp
    · exact Nat.one_le_iff_ne_zero.mpr (fun e => h (List.length_eq_zero.mp e))
  · by_cases h : fieldCandidates order remapper frame ++ methodCandidates remapper frame = []
    · left
      rw [if_pos h]
      rfl
    · exact Or.inr h

end Retrace

namespace Retrace

theorem readStringsAux_cons (c : Char) (cs cur : Str) :
    readStringsAux (c :: cs) cur =
      if c = '\n' then (c :: cur).reverse :: readStringsAux cs []
      else readStringsAux cs (c :: cur) := by
  rw [readStringsAux]

theorem readStringsAux_no_newline (tail cur : Str) (h : '\n' ∉ tail) :
    readStringsAux tail cur = [] := by
  induction tail generalizing cur with
  | nil => rfl
  | cons a t ih =>
    have ha : a ≠ '\n' := fun e => h (by rw [e]; exact List.mem_cons_self _ _)
    rw [readStringsAux_cons, if_neg ha]
    exact ih _ (fun e => h (List.mem_cons_of_mem _ e))

theorem readStringsAux_append (head tail cur : Str) :
    readStringsAux (head ++ '\n' :: tail) cur =
      readStringsAux (head ++ ['\n']) cur ++ readStringsAux tail [] := by
  induction head generalizing cur with
  | nil =>
    simp only [List.nil_append]
    rw [readStringsAux_cons, readStringsAux_cons, if_pos rfl, if_pos rfl]
    rfl
  | cons a t ih =>
    simp only [List.cons_append]
    rw [readStringsAux_cons, readStringsAux_cons]
    by_cases ha : a = '\n'
    · rw [if_pos ha, if_pos ha, ih []]
      rfl
    · rw [if_neg ha, if_neg ha, ih]

theorem readStrings_up_to_last_newline (head tail : Str) (h : '\n' ∉ tail) :
    readStrings (head ++ '\n' :: tail) = readStrings (head ++ ['\n']) ∧
      readStrings tail = [] := by
  unfold readStrings
  rw [readStringsAux_append, readStringsAux_no_newline tail [] h, List.append_nil]
  exact ⟨rfl, rfl⟩

/-- C30: `tail` is a text without a newline. `Retrace` over an input that ends
with `tail` behind a newline gives what it gives over the input up to that
newline, and over the input `tail` alone what it gives over the empty input:
what follows the last newline adds nothing to the text written. The lines that
the loop reads are those that end with a newline. -/
theorem C30_text_after_last_newline_is_dropped (regularExpression regularExpression2 : Str)
    (allClassNames verbose : Bool) (deobfuscate : FrameRemapper → Str → Str)
    (order : ValuesOrder) (regexp : Str → Str → Option (List Int)) (mapping head tail : Str)
    (h : '\n' ∉ tail) :
    Retrace regularExpression regularExpression2 allClassNames verbose deobfuscate order regexp
        mapping (head ++ '\n' :: tail) =
      Retrace regularExpression regularExpression2 allClassNames verbose deobfuscate order
        regexp mapping (head ++ ['\n']) ∧
    Retrace regularExpression regularExpression2 allClassNames verbose deobfuscate order regexp
        mapping tail =
      Retrace regularExpression regularExpression2 allClassNames verbose deobfuscate order
        regexp mapping [] ∧
    readStrings (head ++ '\n' :: tail) = readStrings (head ++ ['\n']) ∧
    readStrings tail = [] := by
  obtain ⟨h1, h2⟩ := readStrings_up_to_last_newline head tail h
  refine ⟨?_, ?_, h1, h2⟩
  · unfold Retrace
    rw [h1]
  · unfold Retrace
    rw [h2]
    rfl

/-- Witness of C30: the templates `at %c` and `in %c`, the mapping `A -> a:` and
the input `a x`, newline, `b y`, against the input `a x`, newline. -/
theorem C30_text_after_last_newline_is_dropped_witness :
    Retrace "at %c".toList "in %c".toList false false (fun _ s => s) insertionOrder
        (fun _ _ => none) "A -> a:\n".toList "a x\nb y".toList =
      Retrace "at %c".toList "in %c".toList false false (fun _ s => s) insertionOrder
        (fun _ _ => none) "A -> a:\n".toList "a x\n".toList ∧
    readStrings "a x\nb y".toList = ["a x\n".toList] :=
  ⟨(C30_text_after_last_newline_is_dropped "at %c".toList "in %c".toList false false
      (fun _ s => s) insertionOrder (fun _ _ => none) "A -> a:\n".toList "a x".toList
      "b y".toList (by decide)).1,
    by decide⟩

end Retrace

namespace Retrace

/-- A pass through the body of the loop of `NewFramePattern` when the next `%` is
the last character of the template and the scan does not stand at the start of
the template: the offset of the `%` behind the scan position is compared with
the last offset of the whole template, so the loop is not left, and the slice
for the expression type lies behind the end of the template. -/
theorem scanIteration_trailing_percent (done literal : Str) (s : PatternScan)
    (hindex : s.index = done.length) (hdone : done ≠ []) (hliteral : '%' ∉ literal)
    (hcount : s.expressionTypeCount ≠ 32) :
    scanIteration (done ++ (literal ++ ['%'])) s = none := by
  have hpos : 0 < done.length := List.length_pos.mpr hdone
  unfold scanIteration
  rw [sliceFrom_eq _ done (literal ++ ['%']) s.index rfl hindex]
  simp only [Option.bind_eq_bind, Option.some_bind]
  rw [Index_char_found literal [] '%' hliteral]
  have hc : ¬ ((literal.length : Int) < 0 ∨
      (literal.length : Int) = ((done ++ (literal ++ ['%'])).length : Int) - 1 ∨
      s.expressionTypeCount = 32) := by
    simp only [List.length_append, List.length_cons, List.length_nil, Nat.cast_add,
      Nat.cast_one]
    omega
  rw [if_neg hc]
  have h1 : slice (done ++ (literal ++ ['%'])) s.index (↑literal.length + s.index) =
      some literal :=
    slice_eq _ done literal ['%'] _ _ rfl hindex (by omega)
  have h2 : slice (done ++ (literal ++ ['%'])) (↑literal.length + s.index + 1)
      (↑literal.length + s.index + 2) = none := by
    unfold slice
    rw [if_neg]
    simp only [List.length_append, List.length_cons, List.length_nil, Nat.cast_add,
      Nat.cast_one]
    omega
  rw [h1, h2]
  rfl

/-- A `%` at the end of a template without a placeholder before it: the loop is
left at once and the template is the regular expression, as it stands. -/
theorem NewFramePattern_only_trailing_percent (literal : Str) (verbose : Bool)
    (h : '%' ∉ literal) :
    NewFramePattern (literal ++ ['%']) verbose =
      some ⟨literal ++ ['%'], List.replicate 32 [], 0, literal ++ ['%'], verbose⟩ := by
  have hit : scanIteration (literal ++ ['%']) ⟨[], List.replicate 32 [], 0, 0⟩ =
      some (false, ⟨[], List.replicate 32 [], 0, 0⟩) := by
    unfold scanIteration
    rw [sliceFrom_zero]
    simp only [Option.bind_eq_bind, Option.some_bind]
    rw [Index_char_found literal [] '%' h]
    have hc : ((literal.length : Int) < 0 ∨
        (literal.length : Int) = ((literal ++ ['%']).length : Int) - 1 ∨
        (0 : Int) = 32) := by
      right
      left
      simp
    rw [if_pos hc]
    rfl
  unfold NewFramePattern
  rw [scanLoop, hit]
  simp only [Option.bind_eq_bind, Option.some_bind]
  rw [sliceFrom_zero]
  rfl

/-- A pass through the body of the loop of `NewFramePattern` when the next `%`
is followed by a character of more than one byte: the run ends in a panic. -/
theorem scanIteration_not_ascii (done literal rest : Str) (x : Char) (s : PatternScan)
    (hx : ¬ x.toNat < 128) (hindex : s.index = done.length) (hliteral : '%' ∉ literal)
    (hcount : s.expressionTypeCount ≠ 32) :
    scanIteration (done ++ (literal ++ '%' :: x :: rest)) s = none := by
  unfold scanIteration
  rw [sliceFrom_eq _ done (literal ++ '%' :: x :: rest) s.index rfl hindex]
  simp only [Option.bind_eq_bind, Option.some_bind]
  rw [Index_char_found literal (x :: rest) '%' hliteral]
  have hc : ¬ ((literal.length : Int) < 0 ∨
      (literal.length : Int) = ((done ++ (literal ++ '%' :: x :: rest)).length : Int) - 1 ∨
      s.expressionTypeCount = 32) := by
    simp only [List.length_append, List.length_cons, Nat.cast_add, Nat.cast_one]
    omega
  rw [if_neg hc]
  have h1 : slice (done ++ (literal ++ '%' :: x :: rest)) s.index (↑literal.length + s.index) =
      some literal :=
    slice_eq _ done literal ('%' :: x :: rest) _ _ rfl hindex (by omega)
  have h2 : slice (done ++ (literal ++ '%' :: x :: rest)) (↑literal.length + s.index + 1)
      (↑literal.length + s.index + 2) = some [x] :=
    slice_eq _ (done ++ (literal ++ ['%'])) [x] rest _ _ (by simp)
      (by simp only [List.length_append, List.length_singleton, Nat.cast_add, Nat.cast_one]; omega)
      (by simp only [List.length_append, List.length_singleton, Nat.cast_add, Nat.cast_one]; omega)
  rw [h1, h2]
  simp only [Option.some_bind]
  rw [if_pos (by rw [byteLength_singleton]; exact utf8Size_not_ascii x hx)]

/-- The template `%é %c`: the letter behind the `%` has two bytes, and
`NewFramePattern` fails. -/
theorem NewFramePattern_two_byte_letter : NewFramePattern "%é %c".toList false = none := by
  decide

/-- C31, on the inputs where the code departs from it: for a template with one
placeholder, `%` and a letter `x`, that ends with a `%` behind it (as `%c%`),
`NewFramePattern` fails: the scan reads the letter of a placeholder behind the
end of the template (for a letter `x` of more than one byte the run has failed
before that). -/
theorem C31_trailing_percent_after_placeholder (literal0 literal : Str) (x : Char)
    (verbose : Bool) (h0 : '%' ∉ literal0) (h1 : '%' ∉ literal) :
    NewFramePattern (literal0 ++ '%' :: x :: (literal ++ ['%'])) verbose = none := by
  by_cases hascii : x.toNat < 128
  swap
  · have hfirst := scanIteration_not_ascii [] literal0 (literal ++ ['%']) x
      ⟨[], List.replicate 32 [], 0, 0⟩ hascii rfl h0 (by decide)
    simp only [List.nil_append] at hfirst
    unfold NewFramePattern
    rw [scanLoop, hfirst]
    rfl
  have hfirst := scanIteration_placeholder [] literal0 (literal ++ ['%']) x
    ⟨[], List.replicate 32 [], 0, 0⟩ hascii rfl h0 (by decide)
  have hsecond := scanIteration_trailing_percent (literal0 ++ ['%', x]) literal
    ⟨literal0 ++ ['('] ++ regexFragment [x] ++ [')'],
      (List.replicate 32 []).set ((0 : Int) + 1).toNat [x], 0 + 1, 0 + literal0.length + 2⟩
    (by simp) (by simp) h1 (by show (0 : Int) + 1 ≠ 32; decide)
  have e : literal0 ++ ['%', x] ++ (literal ++ ['%']) =
      literal0 ++ '%' :: x :: (literal ++ ['%']) := by simp
  rw [e] at hsecond
  simp only [List.nil_append] at hfirst
  unfold NewFramePattern
  rw [scanLoop, hfirst]
  simp only []
  rw [scanLoop, hsecond]
  rfl

/-- Witness of C31: the template `%c%`. -/
theorem C31_trailing_percent_after_placeholder_witness :
    NewFramePattern ['%', 'c', '%'] false = none :=
  C31_trailing_percent_after_placeholder [] [] 'c' false (by decide) (by decide)

end Retrace

namespace Retrace

open MappingReader FrameRemapper

/-- C9: a member line under the current class `cls` whose member name `q.n` has
the class part `q` before its last dot and the member part `n` (not empty,
without a dot) after it, in each of the forms of a member line: the field line
`T q.n -> m` (where `q.n` contains no `->`) and the method lines `T q.n(A) -> m`, `f:l:T q.n(A) -> m`,
`f:l:T q.n(A):F -> m` and `f:l:T q.n(A):F:L -> m`. For every processor,
`ProcessClassMemberMapping` makes the one call `ProcessFieldMapping(q, T, n,
cls, m)` or `ProcessMethodMapping(q, .., T, n, A, cls, .., m)`: the class name
argument is `q`, the member name is `n`, the new class name stays `cls`. In a
`FrameRemapper` the entry of such a call is stored under `cls` and `m`, and for
every frame whose class resolves to `cls`, whose field or method is `m` and
which the entry matches, `Transform` returns a frame of class `q` and member
`n`. -/
theorem C9_dotted_member_name (cls q n df dl dF dL T A m : Str)
    (hf : lineNumberText df = true) (hl : lineNumberText dl = true)
    (hF : lineNumberText dF = true) (hL : lineNumberText dL = true)
    (hT : plain T = true) (hT0 : T ≠ []) (hq : plain q = true) (hn : plain n = true)
    (hn0 : n ≠ []) (hdot : '.' ∉ n) (hA : plain A = true) (hm : plain m = true)
    (hm0 : m ≠ []) :
    (∀ {σ : Type} (P : MappingProcessor σ) (st : σ),
      (Index (q ++ ['.'] ++ n) ['-', '>'] < 0 →
        ProcessClassMemberMapping P st cls
            (T ++ [' '] ++ (q ++ ['.'] ++ n) ++ [' ', '-', '>', ' '] ++ m) =
          some (P.ProcessFieldMapping st q T n cls m, none)) ∧
      ProcessClassMemberMapping P st cls
          (T ++ [' '] ++ (q ++ ['.'] ++ n) ++ ['('] ++ A ++ [')', ' ', '-', '>', ' '] ++ m) =
        some (P.ProcessMethodMapping st q 0 0 T n A cls 0 0 m, none) ∧
      ProcessClassMemberMapping P st cls
          (df ++ [':'] ++ dl ++ [':'] ++ T ++ [' '] ++ (q ++ ['.'] ++ n) ++ ['('] ++ A ++
            [')', ' ', '-', '>', ' '] ++ m) =
        some (P.ProcessMethodMapping st q (digitsValue df) (digitsValue dl) T n A cls
          (digitsValue df) (digitsValue dl) m, none) ∧
      ProcessClassMemberMapping P st cls
          (df ++ [':'] ++ dl ++ [':'] ++ T ++ [' '] ++ (q ++ ['.'] ++ n) ++ ['('] ++ A ++
            [')', ':'] ++ dF ++ [' ', '-', '>', ' '] ++ m) =
        some (P.ProcessMethodMapping st q (digitsValue dF) (digitsValue dF) T n A cls
          (digitsValue df) (digitsValue dl) m, none) ∧
      ProcessClassMemberMapping P st cls
          (df ++ [':'] ++ dl ++ [':'] ++ T ++ [' '] ++ (q ++ ['.'] ++ n) ++ ['('] ++ A ++
            [')', ':'] ++ dF ++ [':'] ++ dL ++ [' ', '-', '>', ' '] ++ m) =
        some (P.ProcessMethodMapping st q (digitsValue dF) (digitsValue dL) T n A cls
          (digitsValue df) (digitsValue dl) m, none)) ∧
    (∀ (order : ValuesOrder) (remapper : FrameRemapper) (frame : FrameInfo),
      (⟨q, T, n⟩ : FieldInfo) ∈ storedFields (remapper.ProcessFieldMapping q T n cls m) cls m ∧
      ((remapper.ProcessFieldMapping q T n cls m).GetOriginalClassName frame.ClassName = cls →
        frame.FieldName = m →
        FieldInfo.Matches ⟨q, T, n⟩
          (originalType (remapper.ProcessFieldMapping q T n cls m) frame.Type_) = true →
        ∃ frames c,
          (remapper.ProcessFieldMapping q T n cls m).Transform order frame = some frames ∧
          c ∈ frames ∧ c.ClassName = q ∧ c.FieldName = n)) ∧
    (∀ (order : ValuesOrder) (remapper : FrameRemapper) (f l F L : Int) (frame : FrameInfo),
      (⟨f, l, q, F, L, T, n, A⟩ : MethodInfo) ∈
        storedMethods (remapper.ProcessMethodMapping q F L T n A cls f l m) cls m ∧
      ((remapper.ProcessMethodMapping q F L T n A cls f l m).GetOriginalClassName
          frame.ClassName = cls →
        frame.MethodName = m →
        MethodInfo.Matches ⟨f, l, q, F, L, T, n, A⟩ frame.LineNumber
          (originalType (remapper.ProcessMethodMapping q F L T n A cls f l m) frame.Type_)
          (originalArguments (remapper.ProcessMethodMapping q F L T n A cls f l m)
            frame.Arguments) = true →
        ∃ frames c,
          (remapper.ProcessMethodMapping q F L T n A cls f l m).Transform order frame =
            some frames ∧
          c ∈ frames ∧ c.ClassName = q ∧ c.MethodName = n)) := by
  have hqn := plain_dotted q n hq hn
  have hd : (LastIndex (q ++ '.' :: n) ['.'] < 0 ∧ q = cls ∧ n = q ++ '.' :: n) ∨
      (LastIndex (q ++ '.' :: n) ['.'] ≥ 0 ∧
        sliceTo (q ++ '.' :: n) (LastIndex (q ++ '.' :: n) ['.']) = some q ∧
        sliceFrom (q ++ '.' :: n) (LastIndex (q ++ '.' :: n) ['.'] + 1) = some n) := by
    rcases dot_present cls q n hdot with ⟨h1, _, _⟩ | h
    · have := LastIndex_char_found q n '.' hdot
      omega
    · exact Or.inr h
  refine ⟨?_, ?_, ?_⟩
  · intro σ P st
    refine ⟨?_, ?_, ?_, ?_, ?_⟩
    · intro harrow
      have harrow2 : Index (q ++ '.' :: n) ['-', '>'] < 0 := by
        simpa only [List.append_assoc, List.cons_append, List.nil_append] using harrow
      have := member_field P st cls q T (q ++ '.' :: n) n m hT hT0 hqn hn0 harrow2 hm hm0 hd
      simpa only [List.append_assoc, List.cons_append, List.nil_append] using this
    · have := member_unnumbered P st cls q T (q ++ '.' :: n) n A m hT hT0 hqn hn0 hA hm hm0 hd
      simpa only [List.append_assoc, List.cons_append, List.nil_append] using this
    · have := member_numbered_plain P st cls q df dl T (q ++ '.' :: n) n A m hf hl hT hT0 hqn
        hn0 hA hm hm0 hd
      simpa only [List.append_assoc, List.cons_append, List.nil_append] using this
    · have := member_numbered_single P st cls q df dl dF T (q ++ '.' :: n) n A m hf hl hF hT
        hT0 hqn hn0 hA hm hm0 hd
      simpa only [List.append_assoc, List.cons_append, List.nil_append] using this
    · have := member_full P st cls q df dl dF dL T (q ++ '.' :: n) n A m hf hl hF hL hT hT0 hqn
        hn0 hA hm hm0 hd
      simpa only [List.append_assoc, List.cons_append, List.nil_append] using this
  · intro order remapper frame
    generalize hr : remapper.ProcessFieldMapping q T n cls m = r
    have hst : (⟨q, T, n⟩ : FieldInfo) ∈ storedFields r cls m := by
      rw [← hr, storedFields_ProcessFieldMapping, if_pos ⟨rfl, rfl⟩]
      exact mem_setAdd _ _
    refine ⟨hst, ?_⟩
    intro hcls hfield hmatch
    have hmem : fieldCandidate frame ⟨q, T, n⟩ ∈ fieldCandidates order r frame := by
      unfold fieldCandidates
      rw [hcls, hfield]
      exact List.mem_map_of_mem _
        (List.mem_filter.mpr ⟨(order.perm _).mem_iff.mpr hst, hmatch⟩)
    have hne : fieldCandidates order r frame ++ methodCandidates r frame ≠ [] := by
      intro e
      have := List.mem_append_left (methodCandidates r frame) hmem
      rw [e] at this
      exact List.not_mem_nil _ this
    refine ⟨fieldCandidates order r frame ++ methodCandidates r frame,
      fieldCandidate frame ⟨q, T, n⟩, ?_, List.mem_append_left _ hmem, rfl, rfl⟩
    rw [Transform_eq, if_neg hne]
  · intro order remapper f l F L frame
    generalize hr : remapper.ProcessMethodMapping q F L T n A cls f l m = r
    have hst : (⟨f, l, q, F, L, T, n, A⟩ : MethodInfo) ∈ storedMethods r cls m := by
      rw [← hr, storedMethods_ProcessMethodMapping]
      exact mem_setAdd _ _
    refine ⟨hst, ?_⟩
    intro hcls hmeth hmatch
    have hmem : methodCandidate frame ⟨f, l, q, F, L, T, n, A⟩ ∈ methodCandidates r frame := by
      unfold methodCandidates
      rw [hcls, hmeth]
      exact List.mem_map_of_mem _ (List.mem_filter.mpr ⟨hst, hmatch⟩)
    have hne : fieldCandidates order r frame ++ methodCandidates r frame ≠ [] := by
      intro e
      have := List.mem_append_right (fieldCandidates order r frame) hmem
      rw [e] at this
      exact List.not_mem_nil _ this
    refine ⟨fieldCandidates order r frame ++ methodCandidates r frame,
      methodCandidate frame ⟨f, l, q, F, L, T, n, A⟩, ?_, List.mem_append_right _ hmem, rfl,
      rfl⟩
    rw [Transform_eq, if_neg hne]

/-- Witness of C9, under the class `a.B$1`, obfuscated as `c`: the method line
`2:2:void a.B.post(java.lang.Runnable):101:101 -> execute` and the field line
`void a.B.post -> execute` give calls with the class name `a.B`, the member
name `post` and the new class name `a.B$1`; the frame of class `c`, method
`execute`, line 2 gives a frame of class `a.B` and method `post`, and the frame
of class `c` and field `execute` gives a frame of class `a.B` and field
`post`. -/
theorem C9_dotted_member_name_witness :
    ProcessClassMemberMapping recorder [] "a.B$1".toList
        "2:2:void a.B.post(java.lang.Runnable):101:101 -> execute".toList =
      some ([Call.methodMapping "a.B".toList 101 101 "void".toList "post".toList
        "java.lang.Runnable".toList "a.B$1".toList 2 2 "execute".toList], none) ∧
    ProcessClassMemberMapping recorder [] "a.B$1".toList "void a.B.post -> execute".toList =
      some ([Call.fieldMapping "a.B".toList "void".toList "post".toList "a.B$1".toList
        "execute".toList], none) ∧
    (∃ frames c,
      ((NewFrameRemapper.ProcessClassMapping "a.B$1".toList "c".toList).1.ProcessMethodMapping
          "a.B".toList 101 101 "void".toList "post".toList "java.lang.Runnable".toList
          "a.B$1".toList 2 2 "execute".toList).Transform insertionOrder
        ⟨"c".toList, [], 2, [], [], "execute".toList, []⟩ = some frames ∧
      c ∈ frames ∧ c.ClassName = "a.B".toList ∧ c.MethodName = "post".toList) ∧
    ∃ frames c,
      ((NewFrameRemapper.ProcessClassMapping "a.B$1".toList "c".toList).1.ProcessFieldMapping
          "a.B".toList "void".toList "post".toList "a.B$1".toList
          "execute".toList).Transform insertionOrder
        ⟨"c".toList, [], 0, [], "execute".toList, [], []⟩ = some frames ∧
      c ∈ frames ∧ c.ClassName = "a.B".toList ∧ c.FieldName = "post".toList :=
  have h := C9_dotted_member_name "a.B$1".toList "a.B".toList "post".toList "2".toList
    "2".toList "101".toList "101".toList "void".toList "java.lang.Runnable".toList
    "execute".toList (by decide) (by decide) (by decide) (by decide) (by decide) (by decide)
    (by decide) (by decide) (by decide) (by decide) (by decide) (by decide) (by decide)
  ⟨(h.1 recorder []).2.2.2.2, (h.1 recorder []).1 (by decide),
    (h.2.2 insertionOrder (NewFrameRemapper.ProcessClassMapping "a.B$1".toList "c".toList).1
      2 2 101 101 ⟨"c".toList, [], 2, [], [], "execute".toList, []⟩).2 (by decide) rfl
      (by decide),
    (h.2.1 insertionOrder (NewFrameRemapper.ProcessClassMapping "a.B$1".toList "c".toList).1
      ⟨"c".toList, [], 0, [], "execute".toList, [], []⟩).2 (by decide) rfl (by decide)⟩

end Retrace

namespace Retrace

theorem unknown_letter (x : Char) (hx : x ∉ ['c', 'C', 's', 'l', 't', 'f', 'm', 'a']) :
    [x] ≠ ['c'] ∧ [x] ≠ ['C'] ∧ [x] ≠ ['s'] ∧ [x] ≠ ['l'] ∧ [x] ≠ ['t'] ∧ [x] ≠ ['f'] ∧
      [x] ≠ ['m'] ∧ [x] ≠ ['a'] := by
  simp only [List.mem_cons, List.mem_singleton, List.not_mem_nil, or_false, not_or] at hx
  obtain ⟨h1, h2, h3, h4, h5, h6, h7, h8⟩ := hx
  simp [h1, h2, h3, h4, h5, h6, h7, h8]

/-- The body of the loop of `Parse` for a group whose expression type is not a
case of the `switch`: the frame stays as it is. -/
theorem parseStep_unknown (f : FramePattern) (frame : FrameInfo) (i : Nat) (text ty : Str)
    (hget : arrayGet f.ExpressionTypes (i : Int) = some ty)
    (h : ty ≠ ['c'] ∧ ty ≠ ['C'] ∧ ty ≠ ['s'] ∧ ty ≠ ['l'] ∧ ty ≠ ['t'] ∧ ty ≠ ['f'] ∧
      ty ≠ ['m'] ∧ ty ≠ ['a']) :
    parseStep f frame (i, text) = some frame := by
  obtain ⟨c1, c2, c3, c4, c5, c6, c7, c8⟩ := h
  unfold parseStep
  by_cases h0 : text.length = 0
  · rw [if_pos h0]
    rfl
  · rw [if_neg h0]
    simp only []
    rw [hget]
    simp only [Option.bind_eq_bind, Option.some_bind]
    rw [if_neg c1, if_neg c2, if_neg c3, if_neg c4, if_neg c5, if_neg c6, if_neg c7, if_neg c8]
    rfl

/-- C20, as amended: in the loop of `NewFramePattern`, when the next `%` is
followed by an ASCII character `x` that is not one of c, C, s, l, t, f, m, a
(and fewer than 31 placeholders were counted so far), the pass through the body
of the loop writes the literal text before the `%` and then the empty group
`()` to the regular expression, adds one to the count of expression types and
records `x` as the expression type of that group; the loop goes on behind the
letter. For a group with the expression type `x`, the body of the loop of
`Parse` leaves the frame as it is, whatever the text of the group, and the
`switch` of `Format` writes nothing. -/
theorem C20_unknown_letter_makes_empty_group (done literal rest : Str) (x : Char)
    (s : PatternScan)
    (hx : x ∉ ['c', 'C', 's', 'l', 't', 'f', 'm', 'a']) (hascii : x.toNat < 128)
    (hindex : s.index = done.length) (hliteral : '%' ∉ literal)
    (hcount : 0 ≤ s.expressionTypeCount ∧ s.expressionTypeCount < 31) :
    scanIteration (done ++ (literal ++ '%' :: x :: rest)) s =
      some (true, ⟨s.buffer ++ literal ++ ['(', ')'],
        s.ExpressionTypes.set (s.expressionTypeCount + 1).toNat [x],
        s.expressionTypeCount + 1, s.index + literal.length + 2⟩) ∧
    (∀ (f : FramePattern) (frame : FrameInfo) (i : Nat) (text : Str),
      arrayGet f.ExpressionTypes (i : Int) = some [x] →
        parseStep f frame (i, text) = some frame) ∧
    (∀ (f : FramePattern) (frameInfo : FrameInfo), formatField f frameInfo [x] = []) := by
  refine ⟨?_, ?_, ?_⟩
  · rw [scanIteration_placeholder done literal rest x s hascii hindex hliteral hcount,
      regexFragment_unknown x hx]
    simp
  · intro f frame i text hget
    exact parseStep_unknown f frame i text [x] hget (unknown_letter x hx)
  · intro f frameInfo
    exact formatField_unknown f frameInfo [x] (unknown_letter x hx)

/-- Witness of C20: the first pass of the loop over the template `at %x %c`;
with the pattern of that template, `Parse` keeps nothing of the text `foo` of
the group 1 and `Format` writes nothing for the expression type `x`. -/
theorem C20_unknown_letter_makes_empty_group_witness :
    scanIteration "at %x %c".toList ⟨[], List.replicate 32 [], 0, 0⟩ =
      some (true, ⟨"at ()".toList, (List.replicate 32 []).set 1 ['x'], 1, 5⟩) ∧
    parseStep ⟨"at %x %c".toList, ((List.replicate 32 []).set 1 ['x']).set 2 ['c'], 2,
        "at () (".toList ++ REGEX_CLASS ++ ")".toList, false⟩
      ⟨[], [], 0, [], [], [], []⟩ (1, "foo".toList) = some ⟨[], [], 0, [], [], [], []⟩ ∧
    formatField ⟨"at %x %c".toList, ((List.replicate 32 []).set 1 ['x']).set 2 ['c'], 2,
        "at () (".toList ++ REGEX_CLASS ++ ")".toList, false⟩
      ⟨"A".toList, [], 0, [], [], [], []⟩ ['x'] = [] :=
  have h := C20_unknown_letter_makes_empty_group [] "at ".toList " %c".toList 'x'
    ⟨[], List.replicate 32 [], 0, 0⟩ (by decide) (by decide) rfl (by decide) (by decide)
  ⟨h.1, h.2.1 _ _ 1 _ (by decide), h.2.2 _ _⟩

/-- Counterexample to C20 as stated: for the template `%x %c` the regular
expression is `() ` followed by the group of the class name, the count of
expression types is 2 and not 1, the expression type `x` is recorded for the
group 1 and the class name has the group 2 and not the group 1. -/
theorem C20_counterexample_unknown_letter :
    (NewFramePattern "%x %c".toList false).map
        (fun p => (p.Pattern, p.ExpressionTypeCount, p.ExpressionTypes.take 3)) =
      some ("() (".toList ++ REGEX_CLASS ++ ")".toList, 2, [[], ['x'], ['c']]) ∧
    (NewFramePattern "%c".toList false).map
        (fun p => (p.Pattern, p.ExpressionTypeCount, p.ExpressionTypes.take 3)) =
      some ("(".toList ++ REGEX_CLASS ++ ")".toList, 1, [[], ['c'], []]) := by
  decide

end Retrace
